import Mathlib

/-! PicoDraw: a shallow embedding of `Code/src/PicoDraw.c`.

The C file keeps its state in five file-scope variables; here they are the
fields of `State`, together with the part of the heap the two framebuffer
pointers can point into.  Every function of the C file becomes a function
that takes the state and returns the new state.

Conventions of the embedding.

* `int` values are `Int`.  Signed overflow is undefined behaviour in C, so
  the arithmetic on `int` is exact wherever the C program has a meaning.
* `unsigned` / `uint32_t` / `uint64_t` values are `Nat`; arithmetic that can
  wrap is written with an explicit `% 2^32` or `% 2^64`.
* A pointer to a framebuffer is `Option Nat`: `none` is `NULL`, `some p` is
  the address of heap block `p`.  A heap block is `some cells` while it is
  allocated and `none` once it has been freed.
* A C function whose behaviour can be undefined (a store outside a block or
  through a null or dangling pointer) returns `Except Fault _`; the `while
  (true)` loop of `DrawLine` is run with a fuel bound and reports
  `Fault.out_of_fuel` when the bound is too small.
* Reading the clock (`to_us_since_boot(get_absolute_time())`) is an input:
  the functions that read it take the sample as the argument `now`.
* The loops of the raster primitives take the store into the back buffer as
  a parameter: `storeBack` gives the C function, a recording store gives the
  sequence of indices or points the loop writes.

The definitions come first, the theorems follow the heading `Theorems`.
-/

namespace PicoDraw

/-! ## Data model -/

/-- Modelled from the spec: the timing descriptor `scanvideo_timing_t` of the
scanvideo library (clock frequency, horizontal and vertical totals); its
declaration is in a header outside this repository. -/
structure scanvideo_timing_t where
  clock_freq : Nat
  h_total : Nat
  v_total : Nat
deriving DecidableEq, Repr

/-- Modelled from the spec: the display configuration `scanvideo_mode_t` of
the scanvideo library, of which the code reads `default_timing` (a pointer,
possibly null), `width` and `height`; its declaration is in a header outside
this repository. -/
structure scanvideo_mode_t where
  default_timing : Option scanvideo_timing_t
  width : Nat
  height : Nat
deriving DecidableEq, Repr

/-- The ways a run of the C code can fail to have a defined result. -/
inductive Fault where
  | null_deref
  | dangling
  | out_of_bounds
  | out_of_fuel
deriving DecidableEq, Repr

/-- The file-scope variables of `PicoDraw.c` (lines 13-17) and the heap blocks
the two framebuffer pointers refer to.  A cell of a block is one `uint16_t`. -/
structure State where
  LastFrameTimeUS : Nat
  BackbufReady : Bool
  DisplayMode : Option scanvideo_mode_t
  FrontBuffer : Option Nat
  BackBuffer : Option Nat
  heap : List (Option (List Nat))
deriving DecidableEq, Repr

/-- The values the variables have at program start (lines 13-17). -/
def State.init : State :=
  { LastFrameTimeUS := 0, BackbufReady := false, DisplayMode := none,
    FrontBuffer := none, BackBuffer := none, heap := [] }

/-- The store `BackBuffer[idx] = Color`. -/
def storeBack (Color : Nat) (s : State) (idx : Int) : Except Fault State :=
  match s.BackBuffer with
  | none => .error .null_deref
  | some p =>
    match s.heap[p]? with
    | some (some cells) =>
      if 0 ≤ idx ∧ idx < cells.length then
        .ok { s with heap := s.heap.set p (some (cells.set idx.toNat Color)) }
      else .error .out_of_bounds
    | _ => .error .dangling

/-- A store that only records the index it is asked to write. -/
def logStore (log : List Int) (idx : Int) : Except Fault (List Int) :=
  .ok (log ++ [idx])

/-! ## Frame pacing (lines 44-93) -/

/-- `FramePeriodUS` (lines 44-56).  The value of the floating point expression
`(uint32_t)(1e6f / ((float)clock_freq / (float)(h_total * v_total)) + 0.5f)`
is the parameter `floatPeriod`. -/
def FramePeriodUS (floatPeriod : scanvideo_timing_t → Nat) (s : State) : Nat :=
  match s.DisplayMode with
  | none => 16666
  | some m =>
    match m.default_timing with
    | none => 16666
    | some DSPTiming => floatPeriod DSPTiming

/-- `DisplayCanDraw` (lines 65-81); `now` is the clock sample.  The
subtraction is on `uint64_t`. -/
def DisplayCanDraw (floatPeriod : scanvideo_timing_t → Nat) (s : State) (now : Nat) :
    Bool × State :=
  match s.DisplayMode with
  | none => (false, s)
  | some _ =>
    let CurrentTime := now
    let DeltaTimeUS := FramePeriodUS floatPeriod s
    if (CurrentTime + 2 ^ 64 - s.LastFrameTimeUS) % 2 ^ 64 ≥ DeltaTimeUS then
      (true, { s with LastFrameTimeUS := CurrentTime })
    else (false, s)

/-- `DisplayBeginDraw` (lines 84-87). -/
def DisplayBeginDraw (floatPeriod : scanvideo_timing_t → Nat) (s : State) (now : Nat) :
    Bool × State :=
  let r := DisplayCanDraw floatPeriod s now
  (r.1 == true && r.2.BackbufReady == false, r.2)

/-- `DisplayEndDraw` (lines 90-93). -/
def DisplayEndDraw (s : State) : State :=
  { s with BackbufReady := true }

/-! ## Raster primitives (lines 96-245) -/

/-- `SetPixel` (lines 96-105); `X` and `Y` are `unsigned`, so is the index. -/
def SetPixel (s : State) (X Y : Nat) (Color : Nat) : Except Fault State :=
  match s.BackBuffer, s.DisplayMode with
  | none, _ => .ok s
  | some _, none => .ok s
  | some _, some m =>
    if X ≥ m.width ∨ Y ≥ m.height then .ok s
    else storeBack Color s (((Y * m.width + X) % 2 ^ 32 : Nat) : Int)

section Loops

variable {σ : Type}

/-- The inner loop of `DrawRectangle` (lines 138-139): `n` stores through
`LinePointer`, which is at offset `ptr` of the back buffer. -/
def rectCols (poke : σ → Int → Except Fault σ) : Nat → σ → Int → Except Fault σ
  | 0, st, _ => .ok st
  | n + 1, st, ptr =>
    match poke st ptr with
    | .error e => .error e
    | .ok st1 => rectCols poke n st1 (ptr + 1)

/-- The outer loop of `DrawRectangle` (lines 133-143): `rows` rows of `cols`
stores, `FBPtr` (offset `ptr`) advancing by the display width after each. -/
def rectRows (poke : σ → Int → Except Fault σ) (width : Int) (cols : Nat) :
    Nat → σ → Int → Except Fault σ
  | 0, st, _ => .ok st
  | rows + 1, st, ptr =>
    match rectCols poke cols st ptr with
    | .error e => .error e
    | .ok st1 => rectRows poke width cols rows st1 (ptr + width)

/-- The body of `DrawRectangle` after the null checks (lines 113-143). -/
def rectFill (poke : σ → Int → Except Fault σ) (m : scanvideo_mode_t)
    (X Y Width Height : Int) (st : σ) : Except Fault σ :=
  let X0 : Int := if X < 0 then 0 else X
  let Y0 : Int := if Y < 0 then 0 else Y
  let X1 : Int := X + Width
  let Y1 : Int := Y + Height
  let X1 : Int := if X1 > (m.width : Int) then m.width else X1
  let Y1 : Int := if Y1 > (m.height : Int) then m.height else Y1
  if X0 ≥ X1 ∨ Y0 ≥ Y1 then .ok st
  else rectRows poke m.width (X1 - X0).toNat (Y1 - Y0).toNat st (Y0 * m.width + X0)

/-- The loop of the horizontal fast path of `DrawLine` (lines 180-181): `n`
stores `FBRow[X] = Color` with `X` counting up; `FBRow` is at offset `row` of
the back buffer. -/
def lineHoriz (poke : σ → Int → Except Fault σ) (row : Int) : Nat → σ → Int → Except Fault σ
  | 0, st, _ => .ok st
  | n + 1, st, X =>
    match poke st (row + X) with
    | .error e => .error e
    | .ok st1 => lineHoriz poke row n st1 (X + 1)

/-- The loop of the vertical fast path of `DrawLine` (lines 198-203): `n`
stores through `PixelPointer` (offset `ptr`), which advances by the display
width after each. -/
def lineVert (poke : σ → Int → Except Fault σ) (width : Int) : Nat → σ → Int → Except Fault σ
  | 0, st, _ => .ok st
  | n + 1, st, ptr =>
    match poke st ptr with
    | .error e => .error e
    | .ok st1 => lineVert poke width n st1 (ptr + width)

/-- The `while (true)` loop of `DrawLine` (lines 221-244), at most `fuel`
iterations.  `plot st X0 Y0` is the store of line 224 at the point
`(X0, Y0)`. -/
def bresenham (plot : σ → Int → Int → Except Fault σ) (X1 Y1 DX DY SX SY : Int) :
    Nat → σ → Int → Int → Int → Except Fault σ
  | 0, _, _, _, _ => .error .out_of_fuel
  | fuel + 1, st, X0, Y0, Error =>
    match plot st X0 Y0 with
    | .error e => .error e
    | .ok st1 =>
      if X0 = X1 ∧ Y0 = Y1 then .ok st1
      else
        let DoubleError := 2 * Error
        let Error1 := if DoubleError ≥ DY then Error + DY else Error
        let X0n := if DoubleError ≥ DY then X0 + SX else X0
        let Error2 := if DoubleError ≤ DX then Error1 + DX else Error1
        let Y0n := if DoubleError ≤ DX then Y0 + SY else Y0
        bresenham plot X1 Y1 DX DY SX SY fuel st1 X0n Y0n Error2

/-- The C library function `abs` on `int`. -/
def iabs (v : Int) : Int := if v < 0 then -v else v

/-- The general case of `DrawLine` (lines 214-244): the set-up of the
Bresenham variables and the loop. -/
def lineGeneral (plot : σ → Int → Int → Except Fault σ) (fuel : Nat)
    (X0 Y0 X1 Y1 : Int) (st : σ) : Except Fault σ :=
  let XChange := X1 - X0
  let YChange := Y1 - Y0
  let DX := iabs XChange
  let DY := -iabs YChange
  let SX : Int := if X0 < X1 then 1 else -1
  let SY : Int := if Y0 < Y1 then 1 else -1
  let Error := DX + DY
  bresenham plot X1 Y1 DX DY SX SY fuel st X0 Y0 Error

/-- The part of `DrawLine` after the clamping (lines 163-244): the two fast
paths and the general case. -/
def lineClamped (poke : σ → Int → Except Fault σ) (m : scanvideo_mode_t) (fuel : Nat)
    (X0 Y0 X1 Y1 : Int) (st : σ) : Except Fault σ :=
  let XChange := X1 - X0
  let YChange := Y1 - Y0
  if YChange = 0 then
    let X0s := if XChange < 0 then X1 else X0
    let X1s := if XChange < 0 then X0 else X1
    lineHoriz poke (Y0 * m.width + X0s) (X1s - X0s + 1).toNat st 0
  else if XChange = 0 then
    let Y0s := if YChange < 0 then Y1 else Y0
    let Y1s := if YChange < 0 then Y0 else Y1
    lineVert poke m.width (Y1s - Y0s + 1).toNat st (Y0s * m.width + X0)
  else
    lineGeneral (fun st x y => poke st (y * m.width + x)) fuel X0 Y0 X1 Y1 st

/-- The clamping of one coordinate by `DrawLine` (lines 154-161): first
`if (V < 0) V = 0;`, then `if (V >= limit) V = limit - 1;`. -/
def clampCoord (V : Int) (limit : Nat) : Int :=
  let V := if V < 0 then 0 else V
  if V ≥ (limit : Int) then (limit : Int) - 1 else V

/-- The body of `DrawLine` after the null checks (lines 153-244). -/
def lineBody (poke : σ → Int → Except Fault σ) (m : scanvideo_mode_t) (fuel : Nat)
    (X0 Y0 X1 Y1 : Int) (st : σ) : Except Fault σ :=
  lineClamped poke m fuel (clampCoord X0 m.width) (clampCoord Y0 m.height)
    (clampCoord X1 m.width) (clampCoord Y1 m.height) st

end Loops

/-- `DrawRectangle` (lines 108-144). -/
def DrawRectangle (s : State) (X Y Width Height : Int) (Color : Nat) : Except Fault State :=
  match s.BackBuffer, s.DisplayMode with
  | none, _ => .ok s
  | some _, none => .ok s
  | some _, some m => rectFill (storeBack Color) m X Y Width Height s

/-- `DrawLine` (lines 148-245).  `fuel` bounds the number of iterations of the
`while (true)` loop. -/
def DrawLine (s : State) (fuel : Nat) (X0 Y0 X1 Y1 : Int) (Color : Nat) : Except Fault State :=
  match s.BackBuffer, s.DisplayMode with
  | none, _ => .ok s
  | some _, none => .ok s
  | some _, some m => lineBody (storeBack Color) m fuel X0 Y0 X1 Y1 s

/-- `DrawLine` with the dispatch to the two fast paths (lines 167-206)
removed: after the null checks and the clamping, every line goes through the
general case. -/
def DrawLineGeneral (s : State) (fuel : Nat) (X0 Y0 X1 Y1 : Int) (Color : Nat) :
    Except Fault State :=
  match s.BackBuffer, s.DisplayMode with
  | none, _ => .ok s
  | some _, none => .ok s
  | some _, some m =>
    lineGeneral (fun st x y => storeBack Color st (y * m.width + x)) fuel
      (clampCoord X0 m.width) (clampCoord Y0 m.height)
      (clampCoord X1 m.width) (clampCoord Y1 m.height) s

/-! ## The swap step of the render loop (lines 289-299) -/

/-- The value `DisplayMode->height - 1` that line 290 compares the scanline
number with: an `int` that the comparison with a `uint` converts to
`unsigned`. -/
def lastScanline (m : scanvideo_mode_t) : Nat :=
  (m.height + 2 ^ 32 - 1) % 2 ^ 32

/-- The swap step of one iteration of the loop of `StartRendering` (lines
290-299) for the scanline number `Scanline` (a `uint`). -/
def swapStep (s : State) (Scanline : Nat) : Except Fault State :=
  match s.DisplayMode with
  | none => .error .null_deref
  | some m =>
    if Scanline = lastScanline m then
      if s.BackbufReady = true then
        .ok { s with FrontBuffer := s.BackBuffer, BackBuffer := s.FrontBuffer,
                     BackbufReady := false }
      else .ok s
    else .ok s

/-- The calls that touch the readiness flag and the time stamp: the producer
calls `DisplayBeginDraw` (at a clock sample) and `DisplayEndDraw`, the render
loop runs its swap step (for a scanline number). -/
inductive Event where
  | BeginDraw (now : Nat)
  | EndDraw
  | SwapStep (Scanline : Nat)
deriving DecidableEq, Repr

/-- The effect of one event on the state. -/
def stepEvent (floatPeriod : scanvideo_timing_t → Nat) (s : State) : Event → Except Fault State
  | .BeginDraw now => .ok (DisplayBeginDraw floatPeriod s now).2
  | .EndDraw => .ok (DisplayEndDraw s)
  | .SwapStep Scanline => swapStep s Scanline

/-- The effect of a sequence of events, one after the other. -/
def runEvents (floatPeriod : scanvideo_timing_t → Nat) : State → List Event → Except Fault State
  | s, [] => .ok s
  | s, e :: rest =>
    match stepEvent floatPeriod s e with
    | .error f => .error f
    | .ok s1 => runEvents floatPeriod s1 rest

/-- A plot that only records the point it is asked to set. -/
def logPoint (log : List (Int × Int)) (x y : Int) : Except Fault (List (Int × Int)) :=
  .ok (log ++ [(x, y)])

/-! ## Auxiliary definitions for the statements -/

/-- The state `s` with heap block `p` holding `cells`. -/
def State.setBlock (s : State) (p : Nat) (cells : List Nat) : State :=
  { s with heap := s.heap.set p (some cells) }

/-- The row-major list of store indices of a `cols` by `rows` fill that starts
at index `base` of a buffer whose rows are `width` cells apart. -/
def rowMajor (base width : Int) (cols rows : Nat) : List Int :=
  (List.range rows).flatMap (fun (r : Nat) =>
    (List.range cols).map (fun (c : Nat) => base + (r : Int) * width + (c : Int)))

/-- A 4 by 3 display mode without timing descriptor, used for the concrete
checks. -/
def demoMode : scanvideo_mode_t :=
  { default_timing := none, width := 4, height := 3 }

/-- An initialised 4 by 3 display: two blocks of 12 black cells, block 0 is the
front buffer and block 1 the back buffer. -/
def demoState : State :=
  { LastFrameTimeUS := 0, BackbufReady := false, DisplayMode := some demoMode,
    FrontBuffer := some 0, BackBuffer := some 1,
    heap := [some (List.replicate 12 0), some (List.replicate 12 0)] }

/-- A run of `DisplayCanDraw` calls, one per clock sample: the list of the
samples, each with the value the call at that sample returned. -/
def canDrawRun (floatPeriod : scanvideo_timing_t → Nat) : State → List Nat → List (Nat × Bool)
  | _, [] => []
  | s, now :: rest =>
    (now, (DisplayCanDraw floatPeriod s now).1)
      :: canDrawRun floatPeriod (DisplayCanDraw floatPeriod s now).2 rest

/-- One step of a staircase towards `(X1, Y1)`: from `p` to `q` the two
coordinates change by at most 1, the point changes, and neither coordinate
moves away from the end point. -/
def stairStep (X1 Y1 : Int) (p q : Int × Int) : Prop :=
  iabs (q.1 - p.1) ≤ 1 ∧ iabs (q.2 - p.2) ≤ 1 ∧ q ≠ p
    ∧ iabs (X1 - q.1) ≤ iabs (X1 - p.1) ∧ iabs (Y1 - q.2) ≤ iabs (Y1 - p.2)

instance stairStep.decidable (X1 Y1 : Int) (p q : Int × Int) :
    Decidable (stairStep X1 Y1 p q) :=
  inferInstanceAs (Decidable (iabs (q.1 - p.1) ≤ 1 ∧ iabs (q.2 - p.2) ≤ 1 ∧ q ≠ p
    ∧ iabs (X1 - q.1) ≤ iabs (X1 - p.1) ∧ iabs (Y1 - q.2) ≤ iabs (Y1 - p.2)))

/-- An initialised 12 by 8 display: two blocks of 96 black cells, block 0 is
the front buffer and block 1 the back buffer. -/
def wideState : State :=
  { LastFrameTimeUS := 0, BackbufReady := false,
    DisplayMode := some { default_timing := none, width := 12, height := 8 },
    FrontBuffer := some 0, BackBuffer := some 1,
    heap := [some (List.replicate 96 0), some (List.replicate 96 0)] }

/-! ## Scanline synthesis and the render loop (lines 250-316) -/

/-- Modelled from the spec: the constants of the scanvideo library that the
code names: the run marker token, the end-of-line marker token, the status
value of a finished record, and the positions of the three 5-bit colour
channels in the 16-bit packed RGB value.  The tokens and the status are taken
as the values a `uint16_t` (or the status field) holds.  Their declarations
are in headers outside this repository. -/
structure scanvideo_consts where
  COMPOSABLE_RAW_RUN : Nat
  COMPOSABLE_EOL_SKIP_ALIGN : Nat
  SCANLINE_OK : Nat
  PICO_SCANVIDEO_PIXEL_RSHIFT : Nat
  PICO_SCANVIDEO_PIXEL_GSHIFT : Nat
  PICO_SCANVIDEO_PIXEL_BSHIFT : Nat
deriving DecidableEq, Repr

/-- Modelled from the spec: the macro `PICO_SCANVIDEO_PIXEL_FROM_RGB5`, which
packs three 5-bit channel values into one pixel value, each channel shifted to
its position; its declaration is in a header outside this repository. -/
def PICO_SCANVIDEO_PIXEL_FROM_RGB5 (k : scanvideo_consts) (r g b : Nat) : Nat :=
  (r <<< k.PICO_SCANVIDEO_PIXEL_RSHIFT) ||| (g <<< k.PICO_SCANVIDEO_PIXEL_GSHIFT)
    ||| (b <<< k.PICO_SCANVIDEO_PIXEL_BSHIFT)

/-- Modelled from the spec: the scanline record `scanvideo_scanline_buffer_t`
that the output engine hands to the render loop: the identifier of the
scanline, the storage of the payload (here as a list of `uint16_t` values, its
length is the capacity), the used length and the status; its declaration is in
a header outside this repository. -/
structure scanvideo_scanline_buffer_t where
  scanline_id : Nat
  data : List Nat
  data_used : Nat
  status : Nat
deriving DecidableEq, Repr

/-- The load `FrontBuffer[idx]`. -/
def loadFront (s : State) (idx : Nat) : Except Fault Nat :=
  match s.FrontBuffer with
  | none => .error .null_deref
  | some p =>
    match s.heap[p]? with
    | some (some cells) =>
      match cells[idx]? with
      | some v => .ok v
      | none => .error .out_of_bounds
    | _ => .error .dangling

/-- The store `*SCBufferPtr = v` into the payload of the record, `SCBufferPtr`
being at offset `pos`. -/
def storeData (data : List Nat) (pos : Nat) (v : Nat) : Except Fault (List Nat) :=
  if pos < data.length then .ok (data.set pos v) else .error .out_of_bounds

/-- The loop of `DrawScanlineFromFramebuffer` (lines 264-268): `n` times
`*SCBufferPtr++ = *FBRowPtr++`.  The result is the payload and the final offset
of `SCBufferPtr`. -/
def copyRow (s : State) : Nat → List Nat → Nat → Nat → Except Fault (List Nat × Nat)
  | 0, data, SCBufferPtr, _ => .ok (data, SCBufferPtr)
  | n + 1, data, SCBufferPtr, FBRowPtr =>
    match loadFront s FBRowPtr with
    | .error e => .error e
    | .ok v =>
      match storeData data SCBufferPtr v with
      | .error e => .error e
      | .ok data1 => copyRow s n data1 (SCBufferPtr + 1) (FBRowPtr + 1)

/-- `DrawScanlineFromFramebuffer` (lines 250-278).  The offset of the row is
computed on `unsigned`; the sentinel is converted to `uint16_t`; `data_used` is
the difference of the two pointers after their cast to `uint32_t*`, that is
half the number of `uint16_t` values stored, rounded down. -/
def DrawScanlineFromFramebuffer (k : scanvideo_consts) (s : State)
    (Framebuffer : scanvideo_scanline_buffer_t) (FBRow : Nat) :
    Except Fault scanvideo_scanline_buffer_t :=
  match s.DisplayMode with
  | none => .error .null_deref
  | some m =>
    let FBRowPtr := (FBRow * m.width) % 2 ^ 32
    match storeData Framebuffer.data 0 k.COMPOSABLE_RAW_RUN with
    | .error e => .error e
    | .ok data1 =>
      match storeData data1 1 m.width with
      | .error e => .error e
      | .ok data2 =>
        match storeData data2 2 (PICO_SCANVIDEO_PIXEL_FROM_RGB5 k 0 0 1 % 2 ^ 16) with
        | .error e => .error e
        | .ok data3 =>
          match copyRow s m.width data3 3 FBRowPtr with
          | .error e => .error e
          | .ok (data4, SCBufferPtr) =>
            match storeData data4 SCBufferPtr k.COMPOSABLE_EOL_SKIP_ALIGN with
            | .error e => .error e
            | .ok data5 =>
              match storeData data5 (SCBufferPtr + 1) 0 with
              | .error e => .error e
              | .ok data6 =>
                .ok { Framebuffer with data := data6, data_used := (SCBufferPtr + 2) / 2,
                                       status := k.SCANLINE_OK }

/-- One iteration of the loop of `StartRendering` (lines 285-314).
`ScanlineBuffer` is the record that `scanvideo_begin_scanline_generation`
returns and `Scanline` the number that `scanvideo_scanline_number` gives for
it; the result is the new state and the record that is handed to
`scanvideo_end_scanline_generation`. -/
def renderStep (k : scanvideo_consts) (s : State)
    (ScanlineBuffer : scanvideo_scanline_buffer_t) (Scanline : Nat) :
    Except Fault (State × scanvideo_scanline_buffer_t) :=
  match swapStep s Scanline with
  | .error e => .error e
  | .ok s1 =>
    match s1.DisplayMode with
    | none => .error .null_deref
    | some m =>
      if Scanline < m.height then
        match DrawScanlineFromFramebuffer k s1 ScanlineBuffer Scanline with
        | .error e => .error e
        | .ok rec => .ok (s1, rec)
      else
        .ok (s1, { ScanlineBuffer with data_used := 0, status := k.SCANLINE_OK })

/-- Some iterations of the loop of `StartRendering`, one for each scanline
number of the list, each with the same record from the engine: the final state
and the records produced, in order. -/
def renderRows (k : scanvideo_consts) (ScanlineBuffer : scanvideo_scanline_buffer_t) :
    State → List Nat → Except Fault (State × List scanvideo_scanline_buffer_t)
  | s, [] => .ok (s, [])
  | s, Scanline :: rest =>
    match renderStep k s ScanlineBuffer Scanline with
    | .error e => .error e
    | .ok (s1, rec) =>
      match renderRows k ScanlineBuffer s1 rest with
      | .error e => .error e
      | .ok (s2, recs) => .ok (s2, rec :: recs)

/-- Sample values of the library constants, used for the concrete checks:
tokens 3 and 1, status 1, red at bit 0, green at bit 6, blue at bit 11. -/
def demoConsts : scanvideo_consts :=
  { COMPOSABLE_RAW_RUN := 3, COMPOSABLE_EOL_SKIP_ALIGN := 1, SCANLINE_OK := 1,
    PICO_SCANVIDEO_PIXEL_RSHIFT := 0, PICO_SCANVIDEO_PIXEL_GSHIFT := 6,
    PICO_SCANVIDEO_PIXEL_BSHIFT := 11 }

/-- A record with room for 12 values, all 9, nothing used yet. -/
def demoRecord : scanvideo_scanline_buffer_t :=
  { scanline_id := 0, data := List.replicate 12 9, data_used := 0, status := 0 }

/-- The 4 by 3 display in the middle of a frame hand-over: the front buffer
(block 0) holds the old frame, all 0, and the back buffer (block 1) holds the
newly drawn frame, all 7. -/
def tornState : State :=
  { LastFrameTimeUS := 0, BackbufReady := false, DisplayMode := some demoMode,
    FrontBuffer := some 0, BackBuffer := some 1,
    heap := [some (List.replicate 12 0), some (List.replicate 12 7)] }

/-- A display mode of odd width, 5 by 2, with no timing descriptor. -/
def oddMode : scanvideo_mode_t :=
  { default_timing := none, width := 5, height := 2 }

/-- An initialised 5 by 2 display whose front buffer (block 0) holds the cells
1 to 10 and whose back buffer (block 1) is black. -/
def oddState : State :=
  { LastFrameTimeUS := 0, BackbufReady := false, DisplayMode := some oddMode,
    FrontBuffer := some 0, BackBuffer := some 1,
    heap := [some [1, 2, 3, 4, 5, 6, 7, 8, 9, 10], some (List.replicate 10 0)] }

/-! ## Initialisation (lines 22-41 and 318-370) -/

/-- `GetTotalHeap` (lines 22-27): the difference of the addresses of the two
linker symbols, as `uint32_t`. -/
def GetTotalHeap (StackLimit bss_end : Nat) : Nat :=
  (StackLimit + 2 ^ 32 - bss_end % 2 ^ 32) % 2 ^ 32

/-- `GetFreeHeap` (lines 30-35); `uordblks` is the field of that name in the
result of `mallinfo()`. -/
def GetFreeHeap (StackLimit bss_end uordblks : Nat) : Nat :=
  (GetTotalHeap StackLimit bss_end + 2 ^ 32 - uordblks % 2 ^ 32) % 2 ^ 32

/-- `GetFBSize` (lines 38-41); `size_t` is 32 bits wide on the target. -/
def GetFBSize (s : State) : Except Fault Nat :=
  match s.DisplayMode with
  | none => .error .null_deref
  | some m => .ok ((m.width * m.height * 2) % 2 ^ 32)

/-- The C library function `malloc`.  Whether the call succeeds is an input:
`none` is the null result, `some junk` is a new block of `size` bytes, that is
`size / 2` cells, of which cell `i` holds `junk i`. -/
def malloc (s : State) (size : Nat) (outcome : Option (Nat → Nat)) : Option Nat × State :=
  match outcome with
  | none => (none, s)
  | some junk =>
    (some s.heap.length,
      { s with heap := s.heap ++ [some ((List.range (size / 2)).map junk)] })

/-- The C library function `free` on a pointer that is not null. -/
def free (s : State) (ptr : Nat) : State :=
  { s with heap := s.heap.set ptr none }

/-- The splash image of `DisplayInit` (lines 351-361). -/
def splash (floatPeriod : scanvideo_timing_t → Nat) (s : State) (m : scanvideo_mode_t)
    (now : Nat) (fuel : Nat) : Except Fault State :=
  let s := (DisplayBeginDraw floatPeriod s now).2
  (DrawRectangle s 0 0 m.width m.height 0x0000).bind fun s =>
  (DrawLine s fuel 0 0 32 0 0xFFE0).bind fun s =>
  (DrawLine s fuel 32 0 16 32 0xFFE0).bind fun s =>
  (DrawLine s fuel 16 32 0 0 0xFFE0).bind fun s =>
  (DrawRectangle s 0 40 32 32 0x001F).bind fun s =>
  (DrawRectangle s 32 40 32 32 0x07E0).bind fun s =>
  (DrawRectangle s 64 40 32 32 0xF800).bind fun s =>
  (DrawRectangle s 96 40 32 32 0xF81F).bind fun s =>
  (DrawRectangle s 128 40 32 32 0xFFFF).bind fun s =>
  .ok (DisplayEndDraw s)

/-- The two allocations of `DisplayInit` (lines 335-336). -/
def allocBuffers (s : State) (FBSize : Nat) (allocFront allocBack : Option (Nat → Nat)) :
    State :=
  let r1 := malloc s FBSize allocFront
  let s := { r1.2 with FrontBuffer := r1.1 }
  let r2 := malloc s FBSize allocBack
  { r2.2 with BackBuffer := r2.1 }

/-- The release of a partial allocation by `DisplayInit` (lines 341-345). -/
def releaseBuffers (s : State) : State :=
  let s := match s.FrontBuffer with
    | some p => free s p
    | none => s
  match s.BackBuffer with
  | some p => free s p
  | none => s

/-- `DisplayInit` (lines 322-370).  The inputs from outside are the mode
(a pointer that is not null), the three values `GetFreeHeap` reads, the
outcomes of the two `malloc` calls, the clock samples of `DisplayBeginDraw`
and of line 366, and the fuel for the `DrawLine` calls.  The result is the
return code and the new state. -/
def DisplayInit (floatPeriod : scanvideo_timing_t → Nat) (s : State)
    (VGADisplayMode : scanvideo_mode_t) (StackLimit bss_end uordblks : Nat)
    (allocFront allocBack : Option (Nat → Nat)) (now1 now2 : Nat) (fuel : Nat) :
    Except Fault (Int × State) :=
  let s := { s with DisplayMode := some VGADisplayMode }
  match GetFBSize s with
  | .error e => .error e
  | .ok FBSize =>
    if FBSize = 0 ∨ (FBSize * 2) % 2 ^ 32 > GetFreeHeap StackLimit bss_end uordblks then
      .ok (-1, s)
    else
      let s := allocBuffers s FBSize allocFront allocBack
      if s.FrontBuffer = none ∨ s.BackBuffer = none then
        .ok (-1, releaseBuffers s)
      else
        match splash floatPeriod s VGADisplayMode now1 fuel with
        | .error e => .error e
        | .ok s => .ok (0, { s with LastFrameTimeUS := now2 })

/-- The states `s` and `s'` differ at most in the heap block the back buffer
pointer of `s` refers to: the time stamp, the readiness flag, the display
mode and the two buffer pointers are the same, the heap has the same number of
blocks, and every block other than that of the back buffer is the same. -/
def sameExceptBack (s s' : State) : Prop :=
  s'.LastFrameTimeUS = s.LastFrameTimeUS ∧ s'.BackbufReady = s.BackbufReady
    ∧ s'.DisplayMode = s.DisplayMode ∧ s'.FrontBuffer = s.FrontBuffer
    ∧ s'.BackBuffer = s.BackBuffer ∧ s'.heap.length = s.heap.length
    ∧ ∀ q, s.BackBuffer ≠ some q → s'.heap[q]? = s.heap[q]?

/-- The plots of a list of points, one after the other. -/
def plotAll {σ : Type} (plot : σ → Int → Int → Except Fault σ) :
    σ → List (Int × Int) → Except Fault σ
  | st, [] => .ok st
  | st, q :: rest =>
    match plot st q.1 q.2 with
    | .error e => .error e
    | .ok st1 => plotAll plot st1 rest

/-! ## Theorems -/

/-! ## Stores into the back buffer -/

theorem setBlock_self (s : State) (p : Nat) (cells : List Nat)
    (hc : s.heap[p]? = some (some cells)) : s.setBlock p cells = s := by
  cases s with
  | mk t r d f b heap =>
    simp only [State.setBlock, State.mk.injEq, true_and]
    simp only at hc
    apply List.ext_getElem?
    intro n
    simp only [List.getElem?_set]
    by_cases h : p = n
    · subst h
      have hlt : p < heap.length := by
        by_contra hge
        rw [List.getElem?_eq_none (by omega)] at hc
        cases hc
      simp only [if_true, hlt]
      exact hc.symm
    · simp [h]

theorem setBlock_setBlock (s : State) (p : Nat) (a b : List Nat) :
    (s.setBlock p a).setBlock p b = s.setBlock p b := by
  simp [State.setBlock, List.set_set]

theorem setBlock_heap_get (s : State) (p : Nat) (cells : List Nat) (hp : p < s.heap.length) :
    (s.setBlock p cells).heap[p]? = some (some cells) := by
  simp [State.setBlock, List.getElem?_set, hp]

theorem storeBack_setBlock (Color : Nat) (s : State) (p : Nat) (cells : List Nat) (idx : Nat)
    (hb : s.BackBuffer = some p) (hp : p < s.heap.length) (hi : idx < cells.length) :
    storeBack Color (s.setBlock p cells) (idx : Int)
      = .ok (s.setBlock p (cells.set idx Color)) := by
  have hget := setBlock_heap_get s p cells hp
  have hb2 : (s.setBlock p cells).BackBuffer = some p := hb
  unfold storeBack
  rw [hb2]
  simp only [hget]
  have hi2 : (0 : Int) ≤ (idx : Int) ∧ (idx : Int) < (cells.length : Int) :=
    ⟨Int.natCast_nonneg _, by exact_mod_cast hi⟩
  rw [if_pos hi2, Int.toNat_natCast]
  simp [State.setBlock, List.set_set, hb]

/-! ## SetPixel -/

/-- C2 (`SetPixel`).  On an initialised display (mode `m`, back buffer block
`p` of `width * height` cells, addressable with 32-bit indices) and for
`X < width`, `Y < height`, the call stores `Color` at index `Y * width + X` of
the back buffer and leaves every other cell and every other part of the state
as it was; for `X ≥ width` or `Y ≥ height`, and when the back buffer pointer
or the display mode is still null, the whole state is unchanged. -/
theorem SetPixel_spec (s : State) (X Y Color : Nat) :
    (∀ m p cells, s.DisplayMode = some m → s.BackBuffer = some p →
        s.heap[p]? = some (some cells) → cells.length = m.width * m.height →
        m.width * m.height ≤ 2 ^ 32 → X < m.width → Y < m.height →
        SetPixel s X Y Color = .ok (s.setBlock p (cells.set (Y * m.width + X) Color))
        ∧ (cells.set (Y * m.width + X) Color)[Y * m.width + X]? = some Color
        ∧ ∀ i, i ≠ Y * m.width + X → (cells.set (Y * m.width + X) Color)[i]? = cells[i]?)
    ∧ (∀ m, s.DisplayMode = some m → (X ≥ m.width ∨ Y ≥ m.height) →
        SetPixel s X Y Color = .ok s)
    ∧ ((s.BackBuffer = none ∨ s.DisplayMode = none) → SetPixel s X Y Color = .ok s) := by
  refine ⟨?_, ?_, ?_⟩
  · intro m p cells hm hb hc hl hfit hx hy
    have hidx : Y * m.width + X < m.width * m.height := by
      have h1 : (Y + 1) * m.width ≤ m.height * m.width := Nat.mul_le_mul_right _ hy
      nlinarith
    have hp : p < s.heap.length := by
      by_contra hge
      rw [List.getElem?_eq_none (by omega)] at hc
      cases hc
    refine ⟨?_, ?_, ?_⟩
    · unfold SetPixel
      rw [hb, hm]
      simp only [ge_iff_le]
      rw [if_neg (by omega), Nat.mod_eq_of_lt (by omega)]
      have h := storeBack_setBlock Color s p cells (Y * m.width + X) hb hp (by omega)
      rw [setBlock_self s p cells hc] at h
      exact h
    · rw [List.getElem?_set]
      simp [hl, hidx]
    · intro i hi
      rw [List.getElem?_set, if_neg (fun h => hi h.symm)]
  · intro m hm hout
    unfold SetPixel
    rw [hm]
    cases hb : s.BackBuffer with
    | none => rfl
    | some p => simp only [ge_iff_le]; rw [if_pos hout]
  · intro h
    unfold SetPixel
    rcases h with h | h
    · rw [h]
    · rw [h]
      cases hb : s.BackBuffer <;> rfl

/-! ## DrawRectangle -/

theorem heap_lt_of_get {s : State} {p : Nat} {cells : List Nat}
    (hc : s.heap[p]? = some (some cells)) : p < s.heap.length := by
  by_contra hge
  rw [List.getElem?_eq_none (by omega)] at hc
  cases hc

/-- The inner loop of `DrawRectangle` fills the cells `ptr .. ptr + n - 1`. -/
theorem rectCols_storeBack (Color : Nat) (s : State) (p : Nat)
    (hb : s.BackBuffer = some p) (hp : p < s.heap.length) :
    ∀ (n : Nat) (cells : List Nat) (ptr : Nat), ptr + n ≤ cells.length →
      ∃ cells', rectCols (storeBack Color) n (s.setBlock p cells) (ptr : Int)
          = .ok (s.setBlock p cells')
        ∧ cells'.length = cells.length
        ∧ ∀ i, cells'[i]? = if ptr ≤ i ∧ i < ptr + n then some Color else cells[i]? := by
  intro n
  induction n with
  | zero =>
    intro cells ptr _
    refine ⟨cells, rfl, rfl, ?_⟩
    intro i
    rw [if_neg (by omega)]
  | succ n ih =>
    intro cells ptr hlen
    have hst := storeBack_setBlock Color s p cells ptr hb hp (by omega)
    obtain ⟨cells', hrun, hlen', hget⟩ :=
      ih (cells.set ptr Color) (ptr + 1) (by rw [List.length_set]; omega)
    refine ⟨cells', ?_, ?_, ?_⟩
    · unfold rectCols
      rw [hst]
      simp only
      have hcast : ((ptr : Int) + 1) = ((ptr + 1 : Nat) : Int) := by push_cast; rfl
      rw [hcast]
      exact hrun
    · rw [hlen', List.length_set]
    · intro i
      rw [hget i, List.getElem?_set]
      by_cases h1 : ptr = i
      · subst h1
        have hlt : ptr < cells.length := by omega
        simp [hlt]
      · by_cases h2 : ptr + 1 ≤ i ∧ i < ptr + 1 + n
        · rw [if_pos h2, if_pos (by omega)]
        · rw [if_neg h2, if_neg h1, if_neg (by omega)]

/-- An index `py * W + px` with `px < W` lies in the span of row `y` that
starts at column `x0` and has `cols` cells exactly when `py = y` and `px` is in
the span. -/
theorem row_index_iff (W x0 cols y px py : Nat) (hpx : px < W) (hx : x0 + cols ≤ W) :
    (y * W + x0 ≤ py * W + px ∧ py * W + px < y * W + x0 + cols)
      ↔ (py = y ∧ x0 ≤ px ∧ px < x0 + cols) := by
  constructor
  · rintro ⟨h1, h2⟩
    have hy : py = y := by
      rcases Nat.lt_trichotomy py y with h | h | h
      · exfalso
        have : (py + 1) * W ≤ y * W := Nat.mul_le_mul_right _ h
        nlinarith
      · exact h
      · exfalso
        have : (y + 1) * W ≤ py * W := Nat.mul_le_mul_right _ h
        nlinarith
    subst hy
    omega
  · rintro ⟨rfl, h1, h2⟩
    omega

/-- The outer loop of `DrawRectangle` fills `rows` spans of `cols` cells that
start at column `x0` of the rows `y .. y + rows - 1`. -/
theorem rectRows_storeBack (Color : Nat) (s : State) (p : Nat)
    (hb : s.BackBuffer = some p) (hp : p < s.heap.length) (W x0 cols : Nat)
    (hx : x0 + cols ≤ W) :
    ∀ (rows : Nat) (cells : List Nat) (y : Nat), (y + rows) * W ≤ cells.length →
      ∃ cells', rectRows (storeBack Color) (W : Int) cols rows (s.setBlock p cells)
            ((y * W + x0 : Nat) : Int) = .ok (s.setBlock p cells')
        ∧ cells'.length = cells.length
        ∧ ∀ px py, px < W → cells'[py * W + px]?
            = if y ≤ py ∧ py < y + rows ∧ x0 ≤ px ∧ px < x0 + cols then some Color
              else cells[py * W + px]? := by
  intro rows
  induction rows with
  | zero =>
    intro cells y _
    refine ⟨cells, rfl, rfl, ?_⟩
    intro px py _
    rw [if_neg (by omega)]
  | succ rows ih =>
    intro cells y hlen
    have hrow : y * W + x0 + cols ≤ cells.length := by
      have : (y + 1) * W ≤ (y + (rows + 1)) * W := Nat.mul_le_mul_right _ (by omega)
      nlinarith
    obtain ⟨cells1, hrun1, hlen1, hget1⟩ :=
      rectCols_storeBack Color s p hb hp cols cells (y * W + x0) hrow
    obtain ⟨cells', hrun, hlen', hget⟩ :=
      ih cells1 (y + 1) (by rw [hlen1]; calc (y + 1 + rows) * W = (y + (rows + 1)) * W := by ring
                                            _ ≤ cells.length := hlen)
    refine ⟨cells', ?_, ?_, ?_⟩
    · unfold rectRows
      rw [hrun1]
      simp only
      have hcast : (((y * W + x0 : Nat) : Int) + (W : Int)) = (((y + 1) * W + x0 : Nat) : Int) := by
        push_cast; ring
      rw [hcast]
      exact hrun
    · rw [hlen', hlen1]
    · intro px py hpx
      rw [hget px py hpx, hget1 (py * W + px)]
      have hiff := row_index_iff W x0 cols y px py hpx hx
      by_cases h1 : y + 1 ≤ py ∧ py < y + 1 + rows ∧ x0 ≤ px ∧ px < x0 + cols
      · rw [if_pos h1, if_pos (by omega)]
      · rw [if_neg h1]
        by_cases h2 : py = y ∧ x0 ≤ px ∧ px < x0 + cols
        · rw [if_pos (hiff.mpr h2), if_pos (by omega)]
        · rw [if_neg (fun h => h2 (hiff.mp h)), if_neg (by omega)]

/-- The clipped corners computed by `DrawRectangle` are `max`/`min` values, and
the body is a no-op when the clipped rectangle is empty. -/
theorem rectFill_empty {σ : Type} (poke : σ → Int → Except Fault σ) (m : scanvideo_mode_t)
    (X Y Width Height : Int) (st : σ)
    (h : max X 0 ≥ min (X + Width) m.width ∨ max Y 0 ≥ min (Y + Height) m.height) :
    rectFill poke m X Y Width Height st = .ok st := by
  unfold rectFill
  simp only
  rw [if_pos]
  split_ifs <;> omega

/-- A non-empty clipped rectangle: the body runs the two loops from the
clipped top-left corner. -/
theorem rectFill_nonempty {σ : Type} (poke : σ → Int → Except Fault σ) (m : scanvideo_mode_t)
    (X Y Width Height : Int) (st : σ)
    (h : ¬ (max X 0 ≥ min (X + Width) m.width ∨ max Y 0 ≥ min (Y + Height) m.height)) :
    rectFill poke m X Y Width Height st
      = rectRows poke m.width (min (X + Width) m.width - max X 0).toNat
          (min (Y + Height) m.height - max Y 0).toNat st
          (((max Y 0).toNat * m.width + (max X 0).toNat : Nat) : Int) := by
  unfold rectFill
  simp only
  have hX0 : (if X < 0 then (0 : Int) else X) = max X 0 := by split_ifs <;> omega
  have hY0 : (if Y < 0 then (0 : Int) else Y) = max Y 0 := by split_ifs <;> omega
  have hX1 : (if X + Width > (m.width : Int) then (m.width : Int) else X + Width)
      = min (X + Width) m.width := by split_ifs <;> omega
  have hY1 : (if Y + Height > (m.height : Int) then (m.height : Int) else Y + Height)
      = min (Y + Height) m.height := by split_ifs <;> omega
  rw [hX0, hY0, hX1, hY1, if_neg h]
  congr 1
  push_cast
  rw [Int.toNat_of_nonneg (le_max_right X 0), Int.toNat_of_nonneg (le_max_right Y 0)]

/-- The stores issued by the inner loop of `DrawRectangle`, in order. -/
theorem rectCols_logStore :
    ∀ (n : Nat) (log : List Int) (ptr : Int),
      rectCols logStore n log ptr
        = .ok (log ++ (List.range n).map (fun (c : Nat) => ptr + (c : Int))) := by
  intro n
  induction n with
  | zero => intro log ptr; simp [rectCols]
  | succ n ih =>
    intro log ptr
    unfold rectCols
    simp only [logStore]
    rw [ih, List.range_succ_eq_map]
    simp only [List.map_cons, List.map_map, List.append_assoc, List.singleton_append,
      Nat.cast_zero, add_zero]
    congr 4
    funext c
    simp only [Function.comp, Nat.cast_succ]
    ring

/-- The stores issued by the two loops of `DrawRectangle`, in order: row by
row, each row from left to right. -/
theorem rectRows_logStore (width : Int) (cols : Nat) :
    ∀ (rows : Nat) (log : List Int) (ptr : Int),
      rectRows logStore width cols rows log ptr
        = .ok (log ++ rowMajor ptr width cols rows) := by
  intro rows
  induction rows with
  | zero => intro log ptr; simp [rectRows, rowMajor]
  | succ rows ih =>
    intro log ptr
    unfold rectRows
    rw [rectCols_logStore]
    simp only
    rw [ih]
    unfold rowMajor
    rw [List.range_succ_eq_map]
    simp only [List.flatMap_cons, List.flatMap_map, List.append_assoc, Nat.cast_zero, zero_mul,
      add_zero]
    congr 4
    funext r
    congr 1
    funext c
    simp only [Nat.cast_succ]
    ring

theorem rowMajor_length (base width : Int) (cols rows : Nat) :
    (rowMajor base width cols rows).length = cols * rows := by
  unfold rowMajor
  rw [List.length_flatMap]
  have : (List.length ∘ fun (r : Nat) =>
      (List.range cols).map (fun (c : Nat) => base + (r : Int) * width + (c : Int)))
      = fun _ => cols := by
    funext r
    simp
  rw [this, List.map_const', List.sum_const_nat, List.length_range, Nat.mul_comm]

theorem rowMajor_mem (base width : Int) (cols rows : Nat) (idx : Int) :
    idx ∈ rowMajor base width cols rows
      ↔ ∃ r c : Nat, r < rows ∧ c < cols ∧ idx = base + (r : Int) * width + (c : Int) := by
  unfold rowMajor
  simp only [List.mem_flatMap, List.mem_range, List.mem_map]
  constructor
  · rintro ⟨r, hr, c, hc, rfl⟩
    exact ⟨r, c, hr, hc, rfl⟩
  · rintro ⟨r, c, hr, hc, rfl⟩
    exact ⟨r, hr, c, hc, rfl⟩

/-- No index is stored to twice when the rows are at least `cols` apart. -/
theorem rowMajor_nodup (base width : Int) (cols rows : Nat) (hw : (cols : Int) ≤ width) :
    (rowMajor base width cols rows).Nodup := by
  unfold rowMajor
  rw [List.nodup_flatMap]
  constructor
  · intro r _
    apply List.Nodup.map _ (List.nodup_range cols)
    intro a b hab
    simp only at hab
    omega
  · apply (List.pairwise_lt_range rows).imp
    intro a b hab
    simp only [Function.onFun]
    intro idx h1 h2
    simp only [List.mem_map, List.mem_range] at h1 h2
    obtain ⟨c1, hc1, rfl⟩ := h1
    obtain ⟨c2, hc2, h⟩ := h2
    have hab' : ((a : Int) + 1) * width ≤ (b : Int) * width := by
      apply mul_le_mul_of_nonneg_right
      · exact_mod_cast hab
      · have : (0 : Int) ≤ (cols : Int) := Int.natCast_nonneg _
        omega
    have hc1' : (c1 : Int) < cols := by exact_mod_cast hc1
    have hc2' : (0 : Int) ≤ (c2 : Int) := Int.natCast_nonneg _
    nlinarith

/-- C1 (`DrawRectangle`).  On an initialised display (mode `m`, back buffer
block `p` of `width * height` cells), with the clipped corners
`x0 = max X 0`, `y0 = max Y 0`, `x1 = min (X + Width) width`,
`y1 = min (Y + Height) height`:
* if `x0 ≥ x1` or `y0 ≥ y1` the state is unchanged, in particular for every
  rectangle fully outside the frame and for every `Width ≤ 0` or `Height ≤ 0`;
* otherwise the call succeeds, changes nothing but the back buffer block, and
  every cell `(px, py)` of it holds `Color` when `x0 ≤ px < x1` and
  `y0 ≤ py < y1` and keeps its value otherwise;
* for a rectangle fully inside the frame the stores issued are the
  `Width * Height` pairwise different indices `(Y + r) * width + (X + c)`,
  row by row. -/
theorem DrawRectangle_spec (s : State) (m : scanvideo_mode_t) (p : Nat) (cells : List Nat)
    (X Y Width Height : Int) (Color : Nat)
    (hm : s.DisplayMode = some m) (hb : s.BackBuffer = some p)
    (hc : s.heap[p]? = some (some cells)) (hl : cells.length = m.width * m.height) :
    ((max X 0 ≥ min (X + Width) m.width ∨ max Y 0 ≥ min (Y + Height) m.height) →
        DrawRectangle s X Y Width Height Color = .ok s)
    ∧ ((X ≥ m.width ∨ Y ≥ m.height ∨ X + Width ≤ 0 ∨ Y + Height ≤ 0
          ∨ Width ≤ 0 ∨ Height ≤ 0) →
        DrawRectangle s X Y Width Height Color = .ok s)
    ∧ (¬ (max X 0 ≥ min (X + Width) m.width ∨ max Y 0 ≥ min (Y + Height) m.height) →
        ∃ cells', DrawRectangle s X Y Width Height Color = .ok (s.setBlock p cells')
          ∧ cells'.length = cells.length
          ∧ ∀ px py : Nat, px < m.width → py < m.height →
              cells'[py * m.width + px]?
                = if max X 0 ≤ (px : Int) ∧ (px : Int) < min (X + Width) m.width
                      ∧ max Y 0 ≤ (py : Int) ∧ (py : Int) < min (Y + Height) m.height
                  then some Color else cells[py * m.width + px]?)
    ∧ ((0 ≤ X ∧ 0 ≤ Y ∧ 0 ≤ Width ∧ 0 ≤ Height ∧ X + Width ≤ m.width
          ∧ Y + Height ≤ m.height) →
        rectFill logStore m X Y Width Height []
            = .ok (rowMajor (Y * m.width + X) m.width Width.toNat Height.toNat)
          ∧ ((rowMajor (Y * m.width + X) m.width Width.toNat Height.toNat).length : Int)
              = Width * Height
          ∧ (rowMajor (Y * m.width + X) m.width Width.toNat Height.toNat).Nodup
          ∧ ∀ idx ∈ rowMajor (Y * m.width + X) m.width Width.toNat Height.toNat,
              ∃ px py : Int, X ≤ px ∧ px < X + Width ∧ Y ≤ py ∧ py < Y + Height
                ∧ idx = py * m.width + px) := by
  have hD : DrawRectangle s X Y Width Height Color
      = rectFill (storeBack Color) m X Y Width Height s := by
    unfold DrawRectangle
    rw [hb, hm]
  have hempty : (max X 0 ≥ min (X + Width) m.width ∨ max Y 0 ≥ min (Y + Height) m.height) →
      DrawRectangle s X Y Width Height Color = .ok s := by
    intro h
    rw [hD, rectFill_empty _ m X Y Width Height s h]
  refine ⟨hempty, ?_, ?_, ?_⟩
  · intro h
    apply hempty
    omega
  · intro h
    have hp := heap_lt_of_get hc
    have hx : (max X 0).toNat + (min (X + Width) m.width - max X 0).toNat ≤ m.width := by
      omega
    have hy : (max Y 0).toNat + (min (Y + Height) m.height - max Y 0).toNat ≤ m.height := by
      omega
    obtain ⟨cells', hrun, hlen, hget⟩ :=
      rectRows_storeBack Color s p hb hp m.width (max X 0).toNat
        (min (X + Width) m.width - max X 0).toNat hx
        (min (Y + Height) m.height - max Y 0).toNat cells (max Y 0).toNat
        (by rw [hl, Nat.mul_comm m.width]; exact Nat.mul_le_mul_right _ hy)
    refine ⟨cells', ?_, hlen, ?_⟩
    · rw [hD, rectFill_nonempty _ m X Y Width Height s h]
      rw [setBlock_self s p cells hc] at hrun
      exact hrun
    · intro px py hpx _
      rw [hget px py hpx]
      split_ifs <;> first | rfl | (exfalso; omega)
  · rintro ⟨hX, hY, hW, hH, hXW, hYH⟩
    have hlen : ((rowMajor (Y * m.width + X) m.width Width.toNat Height.toNat).length : Int)
        = Width * Height := by
      rw [rowMajor_length]
      push_cast
      rw [Int.toNat_of_nonneg hW, Int.toNat_of_nonneg hH]
    refine ⟨?_, hlen, ?_, ?_⟩
    · by_cases h : max X 0 ≥ min (X + Width) m.width ∨ max Y 0 ≥ min (Y + Height) m.height
      · rw [rectFill_empty _ m X Y Width Height [] h]
        have h0 : Width.toNat * Height.toNat = 0 := by
          have : Width = 0 ∨ Height = 0 := by omega
          rcases this with h1 | h1 <;> simp [h1]
        have hl0 := rowMajor_length (Y * m.width + X) m.width Width.toNat Height.toNat
        rw [h0] at hl0
        rw [List.length_eq_zero.mp hl0]
      · rw [rectFill_nonempty _ m X Y Width Height [] h, rectRows_logStore]
        have e1 : max X 0 = X := by omega
        have e2 : max Y 0 = Y := by omega
        have e3 : min (X + Width) m.width = X + Width := by omega
        have e4 : min (Y + Height) m.height = Y + Height := by omega
        rw [e1, e2, e3, e4]
        simp only [List.nil_append]
        congr 2
        · push_cast
          rw [Int.toNat_of_nonneg hX, Int.toNat_of_nonneg hY]
        · congr 1
          omega
        · congr 1
          omega
    · apply rowMajor_nodup
      omega
    · intro idx hidx
      rw [rowMajor_mem] at hidx
      obtain ⟨r, c, hr, hcc, rfl⟩ := hidx
      refine ⟨X + c, Y + r, by omega, by omega, by omega, by omega, by ring⟩

/-- Witness of C2 on the 4 by 3 display: `SetPixel(1, 2, 7)` writes cell 9. -/
theorem SetPixel_spec_witness :
    SetPixel demoState 1 2 7
        = .ok (demoState.setBlock 1 ((List.replicate 12 0).set (2 * demoMode.width + 1) 7))
      ∧ SetPixel demoState 1 2 7
        = .ok (demoState.setBlock 1 [0, 0, 0, 0, 0, 0, 0, 0, 0, 7, 0, 0])
      ∧ SetPixel demoState 4 2 7 = .ok demoState
      ∧ SetPixel State.init 1 2 7 = .ok State.init :=
  ⟨((SetPixel_spec demoState 1 2 7).1 demoMode 1 (List.replicate 12 0) rfl rfl rfl rfl
      (by decide) (by decide) (by decide)).1,
    rfl,
    (SetPixel_spec demoState 4 2 7).2.1 demoMode rfl (Or.inl (by decide)),
    (SetPixel_spec State.init 1 2 7).2.2 (Or.inl rfl)⟩

/-- Witness of C1 on the 4 by 3 display: the rectangle at `(-1, 1)` of size
3 by 5 is clipped to the columns 0..1 of the rows 1..2. -/
theorem DrawRectangle_spec_witness :
    (demoState.DisplayMode = some demoMode ∧ demoState.BackBuffer = some 1
      ∧ demoState.heap[1]? = some (some (List.replicate 12 0))
      ∧ (List.replicate 12 0).length = demoMode.width * demoMode.height)
    ∧ (∃ cells', DrawRectangle demoState (-1) 1 3 5 7 = .ok (demoState.setBlock 1 cells')
        ∧ cells'.length = 12)
    ∧ DrawRectangle demoState (-1) 1 3 5 7
        = .ok (demoState.setBlock 1 [0, 0, 0, 0, 7, 7, 0, 0, 7, 7, 0, 0])
    ∧ DrawRectangle demoState 4 0 2 2 7 = .ok demoState :=
  ⟨⟨rfl, rfl, rfl, rfl⟩,
    (((DrawRectangle_spec demoState demoMode 1 (List.replicate 12 0) (-1) 1 3 5 7
        rfl rfl rfl rfl).2.2.1 (by decide)).imp fun _ h => ⟨h.1, h.2.1⟩),
    rfl,
    (DrawRectangle_spec demoState demoMode 1 (List.replicate 12 0) 4 0 2 2 7
        rfl rfl rfl rfl).2.1 (Or.inl (by decide))⟩

/-! ## DrawLine: clamping and the two fast paths -/

/-- The clamping of `DrawLine` puts a coordinate into `[0, limit - 1]`. -/
theorem clampCoord_eq (V : Int) (limit : Nat) (h : 0 < limit) :
    clampCoord V limit = max 0 (min V ((limit : Int) - 1)) := by
  unfold clampCoord
  simp only
  split_ifs <;> omega

theorem clampCoord_bounds (V : Int) (limit : Nat) (h : 0 < limit) :
    0 ≤ clampCoord V limit ∧ clampCoord V limit < limit := by
  rw [clampCoord_eq V limit h]
  omega

theorem clampCoord_of_inbounds (V : Int) (limit : Nat) (h0 : 0 ≤ V) (h1 : V < limit) :
    clampCoord V limit = V := by
  unfold clampCoord
  simp only
  split_ifs <;> omega

theorem lineHoriz_eq_rectCols {σ : Type} (poke : σ → Int → Except Fault σ) (row : Int) :
    ∀ (n : Nat) (st : σ) (X : Int),
      lineHoriz poke row n st X = rectCols poke n st (row + X) := by
  intro n
  induction n with
  | zero => intro st X; rfl
  | succ n ih =>
    intro st X
    unfold lineHoriz rectCols
    cases poke st (row + X) with
    | error e => rfl
    | ok st1 =>
      simp only
      rw [ih, add_assoc]

theorem rectRows_one {σ : Type} (poke : σ → Int → Except Fault σ) (width : Int) (cols : Nat)
    (st : σ) (ptr : Int) :
    rectRows poke width cols 1 st ptr = rectCols poke cols st ptr := by
  unfold rectRows
  cases rectCols poke cols st ptr with
  | error e => rfl
  | ok st1 => rfl

theorem lineVert_eq_rectRows {σ : Type} (poke : σ → Int → Except Fault σ) (width : Int) :
    ∀ (n : Nat) (st : σ) (ptr : Int),
      lineVert poke width n st ptr = rectRows poke width 1 n st ptr := by
  intro n
  induction n with
  | zero => intro st ptr; rfl
  | succ n ih =>
    intro st ptr
    unfold lineVert rectRows
    have h1 : rectCols poke 1 st ptr = poke st ptr := by
      unfold rectCols
      cases poke st ptr with
      | error e => rfl
      | ok st1 => rfl
    rw [h1]
    cases poke st ptr with
    | error e => rfl
    | ok st1 =>
      simp only
      rw [ih]

/-- An axis-aligned line between two points of the frame: `DrawLine` takes a
fast path, which fills exactly the cells between the two points. -/
theorem lineClamped_axis (Color : Nat) (s : State) (m : scanvideo_mode_t) (p : Nat)
    (cells : List Nat) (fuel : Nat) (a0 b0 a1 b1 : Int)
    (hb : s.BackBuffer = some p) (hc : s.heap[p]? = some (some cells))
    (hl : cells.length = m.width * m.height)
    (ha0 : 0 ≤ a0 ∧ a0 < m.width) (ha1 : 0 ≤ a1 ∧ a1 < m.width)
    (hb0 : 0 ≤ b0 ∧ b0 < m.height) (hb1 : 0 ≤ b1 ∧ b1 < m.height)
    (hax : b0 = b1 ∨ a0 = a1) :
    ∃ cells', lineClamped (storeBack Color) m fuel a0 b0 a1 b1 s = .ok (s.setBlock p cells')
      ∧ cells'.length = cells.length
      ∧ ∀ px py : Nat, px < m.width →
          cells'[py * m.width + px]?
            = if min a0 a1 ≤ (px : Int) ∧ (px : Int) ≤ max a0 a1
                  ∧ min b0 b1 ≤ (py : Int) ∧ (py : Int) ≤ max b0 b1
              then some Color else cells[py * m.width + px]? := by
  have hp := heap_lt_of_get hc
  by_cases hy : b1 - b0 = 0
  · -- horizontal fast path
    have hx : (min a0 a1).toNat + (max a0 a1 - min a0 a1 + 1).toNat ≤ m.width := by omega
    have hrows : (b0.toNat + 1) * m.width ≤ cells.length := by
      rw [hl, Nat.mul_comm m.width]
      exact Nat.mul_le_mul_right _ (by omega)
    obtain ⟨cells', hrun, hlen, hget⟩ :=
      rectRows_storeBack Color s p hb hp m.width (min a0 a1).toNat
        (max a0 a1 - min a0 a1 + 1).toNat hx 1 cells b0.toNat hrows
    refine ⟨cells', ?_, hlen, ?_⟩
    · unfold lineClamped
      simp only
      rw [if_pos hy, lineHoriz_eq_rectCols, ← rectRows_one _ (m.width : Int)]
      rw [setBlock_self s p cells hc] at hrun
      rw [← hrun]
      congr 1
      · congr 1
        split_ifs <;> omega
      · push_cast
        rw [Int.toNat_of_nonneg hb0.1, Int.toNat_of_nonneg (by omega : 0 ≤ min a0 a1)]
        split_ifs <;> omega
    · intro px py hpx
      rw [hget px py hpx]
      split_ifs <;> first | rfl | (exfalso; omega)
  · -- vertical fast path
    have hx0 : a1 - a0 = 0 := by omega
    have hx : a0.toNat + 1 ≤ m.width := by omega
    have hrows : ((min b0 b1).toNat + (max b0 b1 - min b0 b1 + 1).toNat) * m.width
        ≤ cells.length := by
      rw [hl, Nat.mul_comm m.width]
      exact Nat.mul_le_mul_right _ (by omega)
    obtain ⟨cells', hrun, hlen, hget⟩ :=
      rectRows_storeBack Color s p hb hp m.width a0.toNat 1 hx
        (max b0 b1 - min b0 b1 + 1).toNat cells (min b0 b1).toNat hrows
    refine ⟨cells', ?_, hlen, ?_⟩
    · unfold lineClamped
      simp only
      rw [if_neg hy, if_pos hx0, lineVert_eq_rectRows]
      rw [setBlock_self s p cells hc] at hrun
      have e1 : (if b1 - b0 < 0 then b1 else b0) = min b0 b1 := by split_ifs <;> omega
      have e2 : (if b1 - b0 < 0 then b0 else b1) = max b0 b1 := by split_ifs <;> omega
      rw [e1, e2, ← hrun]
      congr 1
      push_cast
      rw [Int.toNat_of_nonneg ha0.1, Int.toNat_of_nonneg (by omega : 0 ≤ min b0 b1)]
    · intro px py hpx
      rw [hget px py hpx]
      split_ifs <;> first | rfl | (exfalso; omega)

theorem DrawLine_eq_lineClamped (s : State) (m : scanvideo_mode_t) (p : Nat) (fuel : Nat)
    (X0 Y0 X1 Y1 : Int) (Color : Nat)
    (hm : s.DisplayMode = some m) (hb : s.BackBuffer = some p) :
    DrawLine s fuel X0 Y0 X1 Y1 Color
      = lineClamped (storeBack Color) m fuel (clampCoord X0 m.width) (clampCoord Y0 m.height)
          (clampCoord X1 m.width) (clampCoord Y1 m.height) s := by
  unfold DrawLine
  rw [hb, hm]
  rfl

/-- C3 (`DrawLine`, fast paths).  On an initialised display with
`width, height > 0`, with `(a0, b0)`, `(a1, b1)` the end points after the
clamping of each coordinate into `[0, width - 1]` and `[0, height - 1]`:
if `b0 = b1` the call succeeds (whatever the fuel), changes nothing but the
back buffer block, and a cell `(px, py)` holds `Color` when `py = b0` and
`min a0 a1 ≤ px ≤ max a0 a1` and keeps its value otherwise; if `b0 ≠ b1` and
`a0 = a1` the same holds with the cells `px = a0`,
`min b0 b1 ≤ py ≤ max b0 b1`. -/
theorem DrawLine_fast_paths (s : State) (m : scanvideo_mode_t) (p : Nat) (cells : List Nat)
    (fuel : Nat) (X0 Y0 X1 Y1 : Int) (Color : Nat)
    (hm : s.DisplayMode = some m) (hb : s.BackBuffer = some p)
    (hc : s.heap[p]? = some (some cells)) (hl : cells.length = m.width * m.height)
    (hW : 0 < m.width) (hH : 0 < m.height) :
    (clampCoord X0 m.width = max 0 (min X0 ((m.width : Int) - 1))
      ∧ clampCoord X1 m.width = max 0 (min X1 ((m.width : Int) - 1))
      ∧ clampCoord Y0 m.height = max 0 (min Y0 ((m.height : Int) - 1))
      ∧ clampCoord Y1 m.height = max 0 (min Y1 ((m.height : Int) - 1)))
    ∧ (clampCoord Y0 m.height = clampCoord Y1 m.height →
        ∃ cells', DrawLine s fuel X0 Y0 X1 Y1 Color = .ok (s.setBlock p cells')
          ∧ cells'.length = cells.length
          ∧ ∀ px py : Nat, px < m.width → py < m.height →
              cells'[py * m.width + px]?
                = if (py : Int) = clampCoord Y0 m.height
                      ∧ min (clampCoord X0 m.width) (clampCoord X1 m.width) ≤ (px : Int)
                      ∧ (px : Int) ≤ max (clampCoord X0 m.width) (clampCoord X1 m.width)
                  then some Color else cells[py * m.width + px]?)
    ∧ (clampCoord Y0 m.height ≠ clampCoord Y1 m.height →
        clampCoord X0 m.width = clampCoord X1 m.width →
        ∃ cells', DrawLine s fuel X0 Y0 X1 Y1 Color = .ok (s.setBlock p cells')
          ∧ cells'.length = cells.length
          ∧ ∀ px py : Nat, px < m.width → py < m.height →
              cells'[py * m.width + px]?
                = if (px : Int) = clampCoord X0 m.width
                      ∧ min (clampCoord Y0 m.height) (clampCoord Y1 m.height) ≤ (py : Int)
                      ∧ (py : Int) ≤ max (clampCoord Y0 m.height) (clampCoord Y1 m.height)
                  then some Color else cells[py * m.width + px]?) := by
  have ha0 := clampCoord_bounds X0 m.width hW
  have ha1 := clampCoord_bounds X1 m.width hW
  have hb0 := clampCoord_bounds Y0 m.height hH
  have hb1 := clampCoord_bounds Y1 m.height hH
  refine ⟨⟨clampCoord_eq _ _ hW, clampCoord_eq _ _ hW, clampCoord_eq _ _ hH,
    clampCoord_eq _ _ hH⟩, ?_, ?_⟩
  · intro hy
    obtain ⟨cells', hrun, hlen, hget⟩ :=
      lineClamped_axis Color s m p cells fuel _ _ _ _ hb hc hl ha0 ha1 hb0 hb1 (Or.inl hy)
    refine ⟨cells', ?_, hlen, ?_⟩
    · rw [DrawLine_eq_lineClamped s m p fuel X0 Y0 X1 Y1 Color hm hb]
      exact hrun
    · intro px py hpx _
      rw [hget px py hpx]
      split_ifs <;> first | rfl | (exfalso; omega)
  · intro _ hx
    obtain ⟨cells', hrun, hlen, hget⟩ :=
      lineClamped_axis Color s m p cells fuel _ _ _ _ hb hc hl ha0 ha1 hb0 hb1 (Or.inr hx)
    refine ⟨cells', ?_, hlen, ?_⟩
    · rw [DrawLine_eq_lineClamped s m p fuel X0 Y0 X1 Y1 Color hm hb]
      exact hrun
    · intro px py hpx _
      rw [hget px py hpx]
      split_ifs <;> first | rfl | (exfalso; omega)

/-- Witness of C3 on the 4 by 3 display: the line `(7, 1) -> (-2, 1)` is
clamped to `(3, 1) -> (0, 1)` and fills row 1; the line `(2, 9) -> (2, 0)`
fills column 2. -/
theorem DrawLine_fast_paths_witness :
    (demoState.DisplayMode = some demoMode ∧ demoState.BackBuffer = some 1
      ∧ demoState.heap[1]? = some (some (List.replicate 12 0))
      ∧ (List.replicate 12 0).length = demoMode.width * demoMode.height
      ∧ 0 < demoMode.width ∧ 0 < demoMode.height)
    ∧ (∃ cells', DrawLine demoState 0 7 1 (-2) 1 7 = .ok (demoState.setBlock 1 cells')
        ∧ cells'.length = 12)
    ∧ DrawLine demoState 0 7 1 (-2) 1 7
        = .ok (demoState.setBlock 1 [0, 0, 0, 0, 7, 7, 7, 7, 0, 0, 0, 0])
    ∧ DrawLine demoState 0 2 9 2 0 7
        = .ok (demoState.setBlock 1 [0, 0, 7, 0, 0, 0, 7, 0, 0, 0, 7, 0]) :=
  ⟨⟨rfl, rfl, rfl, rfl, by decide, by decide⟩,
    (((DrawLine_fast_paths demoState demoMode 1 (List.replicate 12 0) 0 7 1 (-2) 1 7
        rfl rfl rfl rfl (by decide) (by decide)).2.1 (by decide)).imp
      fun _ h => ⟨h.1, h.2.1⟩),
    rfl, rfl⟩

/-! ## DrawLine on lines outside the frame -/

/-- C6, counterexample.  On the 4 by 3 display the line `(9, -4) -> (12, 1)` has
both end points to the right of the frame (`x ≥ width`), and `DrawLine` is not
a no-op on it: the end points are clamped to `(3, 0)` and `(3, 1)` and the
cells 3 and 7 of the back buffer change from 0 to 7. -/
theorem DrawLine_outside_counterexample :
    ((9 : Int) ≥ demoMode.width ∧ (12 : Int) ≥ demoMode.width)
    ∧ demoState.heap[1]? = some (some [0, 0, 0, 0, 0, 0, 0, 0, 0, 0, 0, 0])
    ∧ DrawLine demoState 0 9 (-4) 12 1 7
        = .ok (demoState.setBlock 1 [0, 0, 0, 7, 0, 0, 0, 7, 0, 0, 0, 0])
    ∧ DrawLine demoState 0 9 (-4) 12 1 7 ≠ .ok demoState := by
  refine ⟨⟨by decide, by decide⟩, rfl, rfl, ?_⟩
  intro h
  have h2 : (demoState.setBlock 1 [0, 0, 0, 7, 0, 0, 0, 7, 0, 0, 0, 0]) = demoState :=
    Except.ok.inj ((rfl : DrawLine demoState 0 9 (-4) 12 1 7 = _).symm.trans h)
  exact absurd h2 (by decide)

/-- C6, amended.  `DrawLine` does not reject a line that lies outside the
frame: on an initialised display with `width, height > 0`, a line whose two end
points are both outside the frame on the same side is clamped onto the edge of
that side (column `width - 1` or `0`, row `height - 1` or `0`) and drawn there:
the call succeeds, changes nothing but the back buffer block, and a cell
`(px, py)` holds `Color` when it lies between the two clamped end points and
keeps its value otherwise; the cell of the clamped first end point always
holds `Color` afterwards. -/
theorem DrawLine_outside_clamped (s : State) (m : scanvideo_mode_t) (p : Nat)
    (cells : List Nat) (fuel : Nat) (X0 Y0 X1 Y1 : Int) (Color : Nat)
    (hm : s.DisplayMode = some m) (hb : s.BackBuffer = some p)
    (hc : s.heap[p]? = some (some cells)) (hl : cells.length = m.width * m.height)
    (hW : 0 < m.width) (hH : 0 < m.height)
    (hside : (X0 ≥ m.width ∧ X1 ≥ m.width) ∨ (X0 < 0 ∧ X1 < 0)
      ∨ (Y0 ≥ m.height ∧ Y1 ≥ m.height) ∨ (Y0 < 0 ∧ Y1 < 0)) :
    ((X0 ≥ m.width ∧ X1 ≥ m.width →
        clampCoord X0 m.width = m.width - 1 ∧ clampCoord X1 m.width = m.width - 1)
      ∧ (X0 < 0 ∧ X1 < 0 → clampCoord X0 m.width = 0 ∧ clampCoord X1 m.width = 0)
      ∧ (Y0 ≥ m.height ∧ Y1 ≥ m.height →
        clampCoord Y0 m.height = m.height - 1 ∧ clampCoord Y1 m.height = m.height - 1)
      ∧ (Y0 < 0 ∧ Y1 < 0 → clampCoord Y0 m.height = 0 ∧ clampCoord Y1 m.height = 0))
    ∧ ∃ cells', DrawLine s fuel X0 Y0 X1 Y1 Color = .ok (s.setBlock p cells')
        ∧ cells'.length = cells.length
        ∧ (∀ px py : Nat, px < m.width → py < m.height →
            cells'[py * m.width + px]?
              = if min (clampCoord X0 m.width) (clampCoord X1 m.width) ≤ (px : Int)
                    ∧ (px : Int) ≤ max (clampCoord X0 m.width) (clampCoord X1 m.width)
                    ∧ min (clampCoord Y0 m.height) (clampCoord Y1 m.height) ≤ (py : Int)
                    ∧ (py : Int) ≤ max (clampCoord Y0 m.height) (clampCoord Y1 m.height)
                then some Color else cells[py * m.width + px]?)
        ∧ cells'[(clampCoord Y0 m.height).toNat * m.width + (clampCoord X0 m.width).toNat]?
            = some Color := by
  have ha0 := clampCoord_bounds X0 m.width hW
  have ha1 := clampCoord_bounds X1 m.width hW
  have hb0 := clampCoord_bounds Y0 m.height hH
  have hb1 := clampCoord_bounds Y1 m.height hH
  have ea0 := clampCoord_eq X0 m.width hW
  have ea1 := clampCoord_eq X1 m.width hW
  have eb0 := clampCoord_eq Y0 m.height hH
  have eb1 := clampCoord_eq Y1 m.height hH
  refine ⟨⟨fun h => ⟨by omega, by omega⟩, fun h => ⟨by omega, by omega⟩,
    fun h => ⟨by omega, by omega⟩, fun h => ⟨by omega, by omega⟩⟩, ?_⟩
  have hax : clampCoord Y0 m.height = clampCoord Y1 m.height
      ∨ clampCoord X0 m.width = clampCoord X1 m.width := by omega
  obtain ⟨cells', hrun, hlen, hget⟩ :=
    lineClamped_axis Color s m p cells fuel _ _ _ _ hb hc hl ha0 ha1 hb0 hb1 hax
  refine ⟨cells', ?_, hlen, ?_, ?_⟩
  · rw [DrawLine_eq_lineClamped s m p fuel X0 Y0 X1 Y1 Color hm hb]
    exact hrun
  · intro px py hpx _
    exact hget px py hpx
  · rw [hget _ _ (by omega), if_pos]
    rw [Int.toNat_of_nonneg ha0.1, Int.toNat_of_nonneg hb0.1]
    omega

/-- Witness of the amended C6 on the 4 by 3 display, at the line
`(9, -4) -> (12, 1)`. -/
theorem DrawLine_outside_clamped_witness :
    (demoState.DisplayMode = some demoMode ∧ demoState.BackBuffer = some 1
      ∧ demoState.heap[1]? = some (some (List.replicate 12 0))
      ∧ (List.replicate 12 0).length = demoMode.width * demoMode.height
      ∧ 0 < demoMode.width ∧ 0 < demoMode.height
      ∧ (9 : Int) ≥ demoMode.width ∧ (12 : Int) ≥ demoMode.width)
    ∧ ∃ cells', DrawLine demoState 0 9 (-4) 12 1 7 = .ok (demoState.setBlock 1 cells')
        ∧ cells'.length = 12 :=
  ⟨⟨rfl, rfl, rfl, rfl, by decide, by decide, by decide, by decide⟩,
    ((DrawLine_outside_clamped demoState demoMode 1 (List.replicate 12 0) 0 9 (-4) 12 1 7
        rfl rfl rfl rfl (by decide) (by decide) (Or.inl ⟨by decide, by decide⟩)).2.imp
      fun _ h => ⟨h.1, h.2.1⟩)⟩

/-! ## Frame pacing -/

/-- The `uint64_t` difference `now - last` is the exact difference when the
clock sample is not before the stored time stamp. -/
theorem sub64_of_le (now last : Nat) (hnow : now < 2 ^ 64) (hle : last ≤ now) :
    (now + 2 ^ 64 - last) % 2 ^ 64 = now - last := by
  have h : now + 2 ^ 64 - last = (now - last) + 2 ^ 64 := by omega
  rw [h, Nat.add_mod_right, Nat.mod_eq_of_lt (by omega)]

/-- `DisplayCanDraw` on a state whose display mode is set: one comparison. -/
theorem DisplayCanDraw_eq (fp : scanvideo_timing_t → Nat) (s : State) (m : scanvideo_mode_t)
    (now : Nat) (hm : s.DisplayMode = some m) :
    DisplayCanDraw fp s now
      = if (now + 2 ^ 64 - s.LastFrameTimeUS) % 2 ^ 64 ≥ FramePeriodUS fp s then
          (true, { s with LastFrameTimeUS := now })
        else (false, s) := by
  unfold DisplayCanDraw
  rw [hm]

/-- C7 (`DisplayCanDraw`).  On a state whose display mode is set, with frame
period `P = FramePeriodUS` (16666 when the mode has no timing descriptor), a
clock sample `now` (a `uint64_t`) and a stored time stamp `last ≤ now`: the
call returns true exactly when `now - last ≥ P`; when it returns true the new
state is the old one with the time stamp set to `now`; when it returns false
the state is unchanged. -/
theorem DisplayCanDraw_spec (fp : scanvideo_timing_t → Nat) (s : State) (m : scanvideo_mode_t)
    (now : Nat) (hm : s.DisplayMode = some m) (hnow : now < 2 ^ 64)
    (hle : s.LastFrameTimeUS ≤ now) :
    (m.default_timing = none → FramePeriodUS fp s = 16666)
    ∧ ((DisplayCanDraw fp s now).1 = true ↔ now - s.LastFrameTimeUS ≥ FramePeriodUS fp s)
    ∧ ((DisplayCanDraw fp s now).1 = true →
        (DisplayCanDraw fp s now).2 = { s with LastFrameTimeUS := now })
    ∧ ((DisplayCanDraw fp s now).1 = false → (DisplayCanDraw fp s now).2 = s) := by
  have hsub := sub64_of_le now s.LastFrameTimeUS hnow hle
  rw [DisplayCanDraw_eq fp s m now hm, hsub]
  refine ⟨?_, ?_, ?_, ?_⟩
  · intro ht
    unfold FramePeriodUS
    rw [hm]
    simp only [ht]
  · split_ifs with h
    · simp only [true_iff]; exact h
    · simp only [Bool.false_eq_true, false_iff]; exact h
  · split_ifs with h
    · intro _; rfl
    · intro hf; cases hf
  · split_ifs with h
    · intro hf; cases hf
    · intro _; rfl

/-- Witness of C7: on the 4 by 3 display (no timing descriptor, time stamp 0)
the call at `now = 16666` is granted and the call at `now = 16665` is not. -/
theorem DisplayCanDraw_spec_witness :
    (demoState.DisplayMode = some demoMode ∧ 16666 < 2 ^ 64
      ∧ demoState.LastFrameTimeUS ≤ 16666)
    ∧ ((DisplayCanDraw (fun _ => 0) demoState 16666).1 = true
        ↔ 16666 - demoState.LastFrameTimeUS ≥ FramePeriodUS (fun _ => 0) demoState)
    ∧ DisplayCanDraw (fun _ => 0) demoState 16666
        = (true, { demoState with LastFrameTimeUS := 16666 })
    ∧ DisplayCanDraw (fun _ => 0) demoState 16665 = (false, demoState) :=
  ⟨⟨rfl, by decide, by decide⟩,
    (DisplayCanDraw_spec (fun _ => 0) demoState demoMode 16666 rfl (by decide) (by decide)).2.1,
    by decide, by decide⟩

theorem DisplayCanDraw_mode (fp : scanvideo_timing_t → Nat) (s : State) (now : Nat) :
    (DisplayCanDraw fp s now).2.DisplayMode = s.DisplayMode := by
  unfold DisplayCanDraw
  cases hm : s.DisplayMode with
  | none => simp only [hm]
  | some m =>
    simp only
    split_ifs <;> simp only [hm]

theorem DisplayCanDraw_period (fp : scanvideo_timing_t → Nat) (s : State) (now : Nat) :
    FramePeriodUS fp (DisplayCanDraw fp s now).2 = FramePeriodUS fp s := by
  unfold FramePeriodUS
  rw [DisplayCanDraw_mode]

/-- What a granted call tells: the time stamp becomes the sample, and the
sample is at least a period after the old time stamp when it is not before
it. -/
theorem DisplayCanDraw_true (fp : scanvideo_timing_t → Nat) (s : State) (now : Nat)
    (h : (DisplayCanDraw fp s now).1 = true) :
    (DisplayCanDraw fp s now).2.LastFrameTimeUS = now
      ∧ (now < 2 ^ 64 → s.LastFrameTimeUS ≤ now →
          s.LastFrameTimeUS + FramePeriodUS fp s ≤ now) := by
  cases hm : s.DisplayMode with
  | none =>
    unfold DisplayCanDraw at h
    rw [hm] at h
    cases h
  | some m =>
    rw [DisplayCanDraw_eq fp s m now hm] at h ⊢
    split_ifs at h ⊢ with hc
    refine ⟨rfl, ?_⟩
    intro hnow hle
    rw [sub64_of_le now _ hnow hle] at hc
    omega

theorem DisplayCanDraw_false (fp : scanvideo_timing_t → Nat) (s : State) (now : Nat)
    (h : (DisplayCanDraw fp s now).1 = false) :
    (DisplayCanDraw fp s now).2 = s := by
  unfold DisplayCanDraw at h ⊢
  cases hm : s.DisplayMode with
  | none => rfl
  | some m =>
    rw [hm] at h
    simp only at h ⊢
    split_ifs at h ⊢ with hc
    rfl

/-- In a run whose samples are all at or after the stored time stamp, every
granted call is at least a period after that time stamp. -/
theorem canDrawRun_after_stamp (fp : scanvideo_timing_t → Nat) (P : Nat) :
    ∀ (samples : List Nat) (s : State), FramePeriodUS fp s = P →
      (∀ t ∈ samples, s.LastFrameTimeUS ≤ t ∧ t < 2 ^ 64) →
      samples.Pairwise (fun a b => a ≤ b) →
      ∀ c ∈ canDrawRun fp s samples, c.2 = true → s.LastFrameTimeUS + P ≤ c.1 := by
  intro samples
  induction samples with
  | nil => intro s _ _ _ c hc; cases hc
  | cons t rest ih =>
    intro s hP hall hsorted c hc hct
    rw [List.pairwise_cons] at hsorted
    have ht := hall t (List.mem_cons_self _ _)
    unfold canDrawRun at hc
    rcases List.mem_cons.mp hc with rfl | hc
    · have := (DisplayCanDraw_true fp s t hct).2 ht.2 ht.1
      rw [hP] at this
      exact this
    · have hP' : FramePeriodUS fp (DisplayCanDraw fp s t).2 = P := by
        rw [DisplayCanDraw_period, hP]
      have hlast : s.LastFrameTimeUS ≤ (DisplayCanDraw fp s t).2.LastFrameTimeUS
          ∧ (DisplayCanDraw fp s t).2.LastFrameTimeUS ≤ t := by
        cases hr : (DisplayCanDraw fp s t).1 with
        | true => rw [(DisplayCanDraw_true fp s t hr).1]; exact ⟨ht.1, le_refl _⟩
        | false => rw [DisplayCanDraw_false fp s t hr]; exact ⟨le_refl _, ht.1⟩
      have := ih (DisplayCanDraw fp s t).2 hP'
        (fun t' ht' => ⟨le_trans hlast.2 (hsorted.1 t' ht'),
          (hall t' (List.mem_cons_of_mem _ ht')).2⟩) hsorted.2 c hc hct
      omega

/-- C8 (pacing over a run).  For a run of `DisplayCanDraw` calls whose clock
samples (`uint64_t` values) are non-decreasing, with `P` the frame period of
the display: any two calls that return true have samples at least `P` apart,
and a call made less than `P` after an earlier call that returned true (in
particular after the most recent one) returns false. -/
theorem canDrawRun_paced (fp : scanvideo_timing_t → Nat) (P : Nat) :
    ∀ (samples : List Nat) (s : State), FramePeriodUS fp s = P → 0 < P →
      (∀ t ∈ samples, t < 2 ^ 64) →
      samples.Pairwise (fun a b => a ≤ b) →
      (canDrawRun fp s samples).Pairwise
          (fun c1 c2 => c1.2 = true → c2.2 = true → c1.1 + P ≤ c2.1)
        ∧ (canDrawRun fp s samples).Pairwise
          (fun c1 c2 => c1.2 = true → c2.1 < c1.1 + P → c2.2 = false) := by
  intro samples s hP _ hbound hsorted
  have hfirst : (canDrawRun fp s samples).Pairwise
      (fun c1 c2 => c1.2 = true → c2.2 = true → c1.1 + P ≤ c2.1) := by
    induction samples generalizing s with
    | nil => exact List.Pairwise.nil
    | cons t rest ih =>
      rw [List.pairwise_cons] at hsorted
      have hP' : FramePeriodUS fp (DisplayCanDraw fp s t).2 = P := by
        rw [DisplayCanDraw_period, hP]
      unfold canDrawRun
      rw [List.pairwise_cons]
      refine ⟨?_, ih _ hP' (fun t' ht' => hbound t' (List.mem_cons_of_mem _ ht')) hsorted.2⟩
      intro c hc h1 h2
      have hstamp := (DisplayCanDraw_true fp s t h1).1
      have := canDrawRun_after_stamp fp P rest (DisplayCanDraw fp s t).2 hP'
        (fun t' ht' => ⟨by rw [hstamp]; exact hsorted.1 t' ht',
          hbound t' (List.mem_cons_of_mem _ ht')⟩) hsorted.2 c hc h2
      rw [hstamp] at this
      exact this
  refine ⟨hfirst, hfirst.imp ?_⟩
  intro c1 c2 h h1 hlt
  cases h2 : c2.2 with
  | false => rfl
  | true =>
    have := h h1 h2
    omega

/-- Witness of C8: five calls on the 4 by 3 display (period 16666, time
stamp 0); the calls at 16666 and 33332 are granted, the others are not. -/
theorem canDrawRun_paced_witness :
    canDrawRun (fun _ => 0) demoState [0, 16666, 20000, 33332, 40000]
        = [(0, false), (16666, true), (20000, false), (33332, true), (40000, false)]
    ∧ (canDrawRun (fun _ => 0) demoState [0, 16666, 20000, 33332, 40000]).Pairwise
        (fun c1 c2 => c1.2 = true → c2.2 = true → c1.1 + 16666 ≤ c2.1) :=
  ⟨by decide,
    (canDrawRun_paced (fun _ => 0) 16666 [0, 16666, 20000, 33332, 40000] demoState rfl
      (by decide) (by decide) (by decide)).1⟩

/-! ## BeginDraw / EndDraw -/

theorem DisplayCanDraw_flag (fp : scanvideo_timing_t → Nat) (s : State) (now : Nat) :
    (DisplayCanDraw fp s now).2.BackbufReady = s.BackbufReady := by
  unfold DisplayCanDraw
  cases hm : s.DisplayMode with
  | none => rfl
  | some m =>
    simp only
    split_ifs <;> rfl

theorem DisplayBeginDraw_snd (fp : scanvideo_timing_t → Nat) (s : State) (now : Nat) :
    (DisplayBeginDraw fp s now).2 = (DisplayCanDraw fp s now).2 := rfl

theorem DisplayBeginDraw_iff (fp : scanvideo_timing_t → Nat) (s : State) (now : Nat) :
    (DisplayBeginDraw fp s now).1 = true
      ↔ (DisplayCanDraw fp s now).1 = true ∧ s.BackbufReady = false := by
  unfold DisplayBeginDraw
  simp only [DisplayCanDraw_flag, Bool.and_eq_true, beq_iff_eq]

/-- C9 (`DisplayBeginDraw`).  The call returns true exactly when the
`DisplayCanDraw` check it makes returns true and the readiness flag is false;
its effect on the state is that of the `DisplayCanDraw` check, and the
readiness flag is the same after the call as before it. -/
theorem DisplayBeginDraw_spec (fp : scanvideo_timing_t → Nat) (s : State) (now : Nat) :
    ((DisplayBeginDraw fp s now).1 = true
        ↔ (DisplayCanDraw fp s now).1 = true ∧ s.BackbufReady = false)
    ∧ (DisplayBeginDraw fp s now).2 = (DisplayCanDraw fp s now).2
    ∧ (DisplayBeginDraw fp s now).2.BackbufReady = s.BackbufReady :=
  ⟨DisplayBeginDraw_iff fp s now, rfl, DisplayCanDraw_flag fp s now⟩

/-- Splitting a list `e :: rest` at an occurrence of `EndDraw`: the occurrence
is the head, or it is in `rest`. -/
theorem forall_split_cons (e : Event) (rest : List Event) (Q : List Event → Prop) :
    (∀ pre post, e :: rest = pre ++ Event.EndDraw :: post → Q post)
      ↔ (e = Event.EndDraw → Q rest)
        ∧ (∀ pre post, rest = pre ++ Event.EndDraw :: post → Q post) := by
  constructor
  · intro h
    refine ⟨?_, ?_⟩
    · intro he
      exact h [] rest (by rw [he]; rfl)
    · intro pre post hr
      exact h (e :: pre) post (by rw [hr]; rfl)
  · rintro ⟨h1, h2⟩ pre post heq
    cases pre with
    | nil =>
      simp only [List.nil_append, List.cons.injEq] at heq
      rw [← heq.2]
      exact h1 heq.1
    | cons a pre' =>
      simp only [List.cons_append, List.cons.injEq] at heq
      exact h2 pre' post heq.2

theorem swapStep_eq (s : State) (m : scanvideo_mode_t) (n : Nat) (hm : s.DisplayMode = some m) :
    swapStep s n
      = if n = lastScanline m then
          if s.BackbufReady = true then
            .ok { s with FrontBuffer := s.BackBuffer, BackBuffer := s.FrontBuffer,
                         BackbufReady := false }
          else .ok s
        else .ok s := by
  unfold swapStep
  rw [hm]

/-- The readiness flag after a sequence of events: it is false exactly when it
was false at the start or a swap at the last visible scanline occurred, and
every `EndDraw` of the sequence is followed by such a swap. -/
theorem runEvents_flag (fp : scanvideo_timing_t → Nat) (m : scanvideo_mode_t) :
    ∀ (evs : List Event) (s s2 : State), s.DisplayMode = some m →
      runEvents fp s evs = .ok s2 →
      (s2.BackbufReady = false
        ↔ (s.BackbufReady = false ∨ Event.SwapStep (lastScanline m) ∈ evs)
          ∧ ∀ pre post, evs = pre ++ Event.EndDraw :: post →
              Event.SwapStep (lastScanline m) ∈ post) := by
  intro evs
  generalize hL : lastScanline m = L
  induction evs with
  | nil =>
    intro s s2 _ hrun
    simp only [runEvents, Except.ok.injEq] at hrun
    subst hrun
    simp
  | cons e rest ih =>
    intro s s2 hm hrun
    rw [forall_split_cons e rest (fun post => Event.SwapStep L ∈ post)]
    unfold runEvents at hrun
    cases e with
    | BeginDraw now =>
      simp only [stepEvent] at hrun
      have hm1 : (DisplayBeginDraw fp s now).2.DisplayMode = some m := by
        rw [DisplayBeginDraw_snd, DisplayCanDraw_mode, hm]
      have hflag : (DisplayBeginDraw fp s now).2.BackbufReady = s.BackbufReady :=
        DisplayCanDraw_flag fp s now
      have := ih _ s2 hm1 hrun
      rw [this, hflag]
      simp
    | EndDraw =>
      simp only [stepEvent] at hrun
      have hm1 : (DisplayEndDraw s).DisplayMode = some m := hm
      have hflag : (DisplayEndDraw s).BackbufReady = true := rfl
      have := ih _ s2 hm1 hrun
      rw [this, hflag]
      simp only [Bool.true_eq_false, false_or, List.mem_cons, reduceCtorEq, forall_const]
      constructor
      · rintro ⟨h1, h2⟩
        exact ⟨Or.inr h1, h1, h2⟩
      · rintro ⟨_, h1, h2⟩
        exact ⟨h1, h2⟩
    | SwapStep n =>
      simp only [stepEvent] at hrun
      rw [swapStep_eq s m n hm, hL] at hrun
      by_cases hn : n = L
      · rw [if_pos hn] at hrun
        by_cases hf : s.BackbufReady = true
        · rw [if_pos hf] at hrun
          have := ih _ s2 (by simp only; exact hm) hrun
          rw [this]
          simp [hn]
        · rw [if_neg hf] at hrun
          have := ih _ s2 hm hrun
          rw [this]
          simp only [Bool.not_eq_true] at hf
          simp [hf]
      · rw [if_neg hn] at hrun
        have := ih _ s2 hm hrun
        rw [this]
        have hne : ¬ (L = n) := fun h => hn h.symm
        simp [hne]

/-- While the readiness flag is false the swap steps of the render loop, at
whatever scanline numbers, leave the state as it is. -/
theorem runEvents_swaps (fp : scanvideo_timing_t → Nat) (m : scanvideo_mode_t) :
    ∀ (evs : List Event) (s : State), s.DisplayMode = some m → s.BackbufReady = false →
      (∀ e ∈ evs, ∃ n, e = Event.SwapStep n) → runEvents fp s evs = .ok s := by
  intro evs
  induction evs with
  | nil =>
    intro s _ _ _
    rfl
  | cons e rest ih =>
    intro s hm hf hevs
    obtain ⟨n, hn⟩ := hevs e (List.mem_cons_self e rest)
    subst hn
    have hstep : stepEvent fp s (Event.SwapStep n) = .ok s := by
      simp only [stepEvent]
      rw [swapStep_eq s m n hm]
      by_cases hn : n = lastScanline m
      · rw [if_pos hn, if_neg (by rw [hf]; decide)]
      · rw [if_neg hn]
    unfold runEvents
    rw [hstep]
    exact ih s hm hf (fun e he => hevs e (List.mem_cons_of_mem _ he))

/-- C10, counterexample.  On the 4 by 3 display (period 16666, flag false,
time stamp 0) `DisplayBeginDraw` at 16666 returns true, and a second
`DisplayBeginDraw` at 33332, with no `DisplayEndDraw` and no swap in between,
returns true as well. -/
theorem BeginDraw_twice_counterexample :
    (DisplayBeginDraw (fun _ => 0) demoState 16666).1 = true
    ∧ runEvents (fun _ => 0) (DisplayBeginDraw (fun _ => 0) demoState 16666).2 []
        = .ok (DisplayBeginDraw (fun _ => 0) demoState 16666).2
    ∧ (DisplayBeginDraw (fun _ => 0)
        (DisplayBeginDraw (fun _ => 0) demoState 16666).2 33332).1 = true := by
  refine ⟨by decide, rfl, by decide⟩

/-- C10, amended.  After a `DisplayBeginDraw` that returned true and any
sequence of further `DisplayBeginDraw` calls, `DisplayEndDraw` calls and swap
steps of the render loop, a `DisplayBeginDraw` returns true exactly when its
`DisplayCanDraw` check grants a new frame and every `DisplayEndDraw` of the
sequence was followed by a swap step at scanline `height - 1`.  When no
`DisplayEndDraw` and no further `DisplayBeginDraw` happened in between, that
is when the sequence holds nothing but swap steps of the render loop, at any
scanline numbers, the second call, made at a sample `t2 ≥ t1`, returns true
exactly when `t2` is at least one period after `t1`. -/
theorem BeginDraw_after_BeginDraw (fp : scanvideo_timing_t → Nat) (s : State)
    (m : scanvideo_mode_t) (t1 t2 : Nat) (evs : List Event) (s2 : State)
    (hm : s.DisplayMode = some m) (h1 : (DisplayBeginDraw fp s t1).1 = true)
    (hrun : runEvents fp (DisplayBeginDraw fp s t1).2 evs = .ok s2) :
    ((DisplayBeginDraw fp s2 t2).1 = true
        ↔ (DisplayCanDraw fp s2 t2).1 = true
          ∧ ∀ pre post, evs = pre ++ Event.EndDraw :: post →
              Event.SwapStep (lastScanline m) ∈ post)
    ∧ ((∀ e ∈ evs, ∃ n, e = Event.SwapStep n) → t1 ≤ t2 → t2 < 2 ^ 64 →
        ((DisplayBeginDraw fp s2 t2).1 = true ↔ t1 + FramePeriodUS fp s ≤ t2)) := by
  have h1' := (DisplayBeginDraw_iff fp s t1).mp h1
  have hm1 : (DisplayBeginDraw fp s t1).2.DisplayMode = some m := by
    rw [DisplayBeginDraw_snd, DisplayCanDraw_mode, hm]
  have hf1 : (DisplayBeginDraw fp s t1).2.BackbufReady = false := by
    rw [DisplayBeginDraw_snd, DisplayCanDraw_flag]
    exact h1'.2
  have hflag := runEvents_flag fp m evs _ s2 hm1 hrun
  have hmain : (DisplayBeginDraw fp s2 t2).1 = true
      ↔ (DisplayCanDraw fp s2 t2).1 = true
        ∧ ∀ pre post, evs = pre ++ Event.EndDraw :: post →
            Event.SwapStep (lastScanline m) ∈ post := by
    rw [DisplayBeginDraw_iff, hflag]
    constructor
    · rintro ⟨h, _, h3⟩
      exact ⟨h, h3⟩
    · rintro ⟨h, h3⟩
      exact ⟨h, Or.inl hf1, h3⟩
  refine ⟨hmain, ?_⟩
  intro hevs h12 h2
  rw [runEvents_swaps fp m evs _ hm1 hf1 hevs] at hrun
  simp only [Except.ok.injEq] at hrun
  subst hrun
  rw [DisplayBeginDraw_iff]
  have hstamp : (DisplayBeginDraw fp s t1).2.LastFrameTimeUS = t1 := by
    rw [DisplayBeginDraw_snd]
    exact (DisplayCanDraw_true fp s t1 h1'.1).1
  have hP : FramePeriodUS fp (DisplayBeginDraw fp s t1).2 = FramePeriodUS fp s := by
    rw [DisplayBeginDraw_snd, DisplayCanDraw_period]
  rw [DisplayCanDraw_eq fp _ m t2 hm1, hstamp, hP, sub64_of_le t2 t1 h2 h12]
  constructor
  · rintro ⟨h, _⟩
    split_ifs at h with hc
    omega
  · intro h
    refine ⟨?_, hf1⟩
    rw [if_pos (by omega)]

/-- Witness of the amended C10 on the 4 by 3 display: after the granted call
at 16666 come `DisplayEndDraw` and the swap step at scanline 2; the call at
33332 is then granted.  After the granted call at 16666 and the swap steps of
one pass of the render loop, at scanlines 0, 1 and 2, with no `DisplayEndDraw`,
the call at 20000 is granted exactly when `16666 + 16666 ≤ 20000`, which is
not so. -/
theorem BeginDraw_after_BeginDraw_witness :
    ((DisplayBeginDraw (fun _ => 0) demoState 16666).1 = true
      ∧ runEvents (fun _ => 0) (DisplayBeginDraw (fun _ => 0) demoState 16666).2
          [Event.EndDraw, Event.SwapStep 2]
        = .ok { demoState with LastFrameTimeUS := 16666, FrontBuffer := some 1,
                               BackBuffer := some 0 })
    ∧ ((DisplayBeginDraw (fun _ => 0)
          { demoState with LastFrameTimeUS := 16666, FrontBuffer := some 1,
                           BackBuffer := some 0 } 33332).1 = true
        ↔ (DisplayCanDraw (fun _ => 0)
            { demoState with LastFrameTimeUS := 16666, FrontBuffer := some 1,
                             BackBuffer := some 0 } 33332).1 = true
          ∧ ∀ pre post, [Event.EndDraw, Event.SwapStep 2] = pre ++ Event.EndDraw :: post →
              Event.SwapStep (lastScanline demoMode) ∈ post)
    ∧ (runEvents (fun _ => 0) (DisplayBeginDraw (fun _ => 0) demoState 16666).2
          [Event.SwapStep 0, Event.SwapStep 1, Event.SwapStep 2]
        = .ok { demoState with LastFrameTimeUS := 16666 }
      ∧ FramePeriodUS (fun _ => 0) demoState = 16666)
    ∧ ((DisplayBeginDraw (fun _ => 0) { demoState with LastFrameTimeUS := 16666 } 20000).1 = true
        ↔ 16666 + FramePeriodUS (fun _ => 0) demoState ≤ 20000) :=
  ⟨⟨by decide, rfl⟩,
    (BeginDraw_after_BeginDraw (fun _ => 0) demoState demoMode 16666 33332
      [Event.EndDraw, Event.SwapStep 2] _ rfl (by decide) rfl).1,
    ⟨rfl, rfl⟩,
    (BeginDraw_after_BeginDraw (fun _ => 0) demoState demoMode 16666 20000
      [Event.SwapStep 0, Event.SwapStep 1, Event.SwapStep 2] _ rfl (by decide) rfl).2
      (by
        intro e he
        simp only [List.mem_cons, List.mem_singleton, List.not_mem_nil, or_false] at he
        rcases he with h | h | h
        · exact ⟨0, h⟩
        · exact ⟨1, h⟩
        · exact ⟨2, h⟩)
      (by decide) (by decide)⟩

/-! ## DrawLine: the Bresenham loop -/

/-- One iteration of the loop with the recording plot. -/
theorem bresenham_logPoint_succ (X1 Y1 DX DY SX SY : Int) (fuel : Nat)
    (log : List (Int × Int)) (X Y E : Int) :
    bresenham logPoint X1 Y1 DX DY SX SY (fuel + 1) log X Y E
      = if X = X1 ∧ Y = Y1 then .ok (log ++ [(X, Y)])
        else bresenham logPoint X1 Y1 DX DY SX SY fuel (log ++ [(X, Y)])
          (if 2 * E ≥ DY then X + SX else X) (if 2 * E ≤ DX then Y + SY else Y)
          (if 2 * E ≤ DX then (if 2 * E ≥ DY then E + DY else E) + DX
            else (if 2 * E ≥ DY then E + DY else E)) := rfl

theorem iabs_unit_mul (S : Int) (k : Nat) (hS : S = 1 ∨ S = -1) : iabs (S * k) = k := by
  unfold iabs
  rcases hS with rfl | rfl <;> split_ifs <;> omega

theorem iabs_nonneg (v : Int) : 0 ≤ iabs v := by
  unfold iabs
  split_ifs <;> omega

theorem iabs_unit (S : Int) (hS : S = 1 ∨ S = -1) : iabs S = 1 := by
  unfold iabs
  rcases hS with rfl | rfl <;> decide

theorem iabs_zero : iabs 0 = 0 := by decide

/-- A step of the loop from a point `a + da` columns and `b + db` rows before
the end point to the point `a` columns and `b` rows before it. -/
theorem stairStep_mk (X1 Y1 SX SY : Int) (hSX : SX = 1 ∨ SX = -1) (hSY : SY = 1 ∨ SY = -1)
    (a b da db : Nat) (hda : da ≤ 1) (hdb : db ≤ 1) (hpos : 0 < da + db) :
    stairStep X1 Y1 (X1 - SX * ((a + da : Nat) : Int), Y1 - SY * ((b + db : Nat) : Int))
      (X1 - SX * (a : Int), Y1 - SY * (b : Int)) := by
  unfold stairStep iabs
  simp only [ne_eq, Prod.mk.injEq]
  push_cast
  rcases hSX with rfl | rfl <;> rcases hSY with rfl | rfl <;>
    refine ⟨?_, ?_, ?_, ?_, ?_⟩ <;> (try split_ifs) <;> omega

theorem getLast?_cons_of_length {α : Type} (x : α) (l : List α) (n : Nat) (y : α)
    (hlen : l.length = n + 1) (hlast : l.getLast? = some y) :
    (x :: l).getLast? = some y := by
  cases l with
  | nil => simp at hlen
  | cons t ts => rw [List.getLast?_cons_cons]; exact hlast

/-- The loop on a line whose longer side is the horizontal one (`-DY ≤ DX`),
from a point `a` columns and `b` rows before the end point: every iteration
steps in `x`, so the loop plots `a + 1` points, the last of which is the end
point, and needs exactly `a + 1` iterations. -/
theorem bresenham_xmajor (X1 Y1 DX DY SX SY : Int)
    (hDX : 0 < DX) (hDY : DY ≤ 0) (hmaj : -DY ≤ DX)
    (hSX : SX = 1 ∨ SX = -1) (hSY : SY = 1 ∨ SY = -1) :
    ∀ (a b : Nat) (E : Int) (log : List (Int × Int)) (fuel : Nat),
      E = DX + DY - a * DY - b * DX → DY ≤ 2 * E → DX + 2 * DY < 2 * E →
      (a + 1 ≤ fuel → ∃ tail,
          bresenham logPoint X1 Y1 DX DY SX SY fuel log (X1 - SX * a) (Y1 - SY * b) E
            = .ok (log ++ tail)
          ∧ tail.length = a + 1
          ∧ tail.head? = some (X1 - SX * a, Y1 - SY * b)
          ∧ tail.getLast? = some (X1, Y1)
          ∧ tail.Chain' (stairStep X1 Y1))
      ∧ (fuel ≤ a →
          bresenham logPoint X1 Y1 DX DY SX SY fuel log (X1 - SX * a) (Y1 - SY * b) E
            = .error .out_of_fuel) := by
  intro a
  induction a with
  | zero =>
    intro b E log fuel hE h1 h2
    have hb : b = 0 := by
      by_contra hb
      have hb1 : (1 : Int) ≤ (b : Int) := by exact_mod_cast Nat.one_le_iff_ne_zero.mpr hb
      have : DX ≤ (b : Int) * DX := by nlinarith
      simp only [Nat.cast_zero, zero_mul, sub_zero] at hE
      linarith
    subst hb
    constructor
    · intro hf
      obtain ⟨f, rfl⟩ : ∃ f, fuel = f + 1 := ⟨fuel - 1, by omega⟩
      refine ⟨[(X1, Y1)], ?_, rfl, ?_, rfl, List.chain'_singleton _⟩
      · rw [bresenham_logPoint_succ, if_pos (by simp)]
        simp
      · simp
    · intro hf
      have : fuel = 0 := by omega
      subst this
      rfl
  | succ a ih =>
    intro b E log fuel hE h1 h2
    have hX : X1 - SX * ((a + 1 : Nat) : Int) ≠ X1 := by
      rcases hSX with rfl | rfl <;> push_cast <;> omega
    cases fuel with
    | zero => exact ⟨fun h => by omega, fun _ => rfl⟩
    | succ f =>
      have hXn : X1 - SX * ((a + 1 : Nat) : Int) + SX = X1 - SX * (a : Int) := by
        push_cast; ring
      rw [bresenham_logPoint_succ, if_neg (fun h => hX h.1), if_pos h1, if_pos h1, hXn]
      by_cases hy : 2 * E ≤ DX
      · rw [if_pos hy, if_pos hy]
        obtain ⟨b', rfl⟩ : ∃ b', b = b' + 1 := by
          cases b with
          | zero =>
            exfalso
            have ha : (a : Int) * DY ≤ 0 :=
              mul_nonpos_of_nonneg_of_nonpos (Int.natCast_nonneg a) hDY
            push_cast at hE
            linarith
          | succ b' => exact ⟨b', rfl⟩
        have hYn : Y1 - SY * ((b' + 1 : Nat) : Int) + SY = Y1 - SY * (b' : Int) := by
          push_cast; ring
        rw [hYn]
        obtain ⟨ih1, ih2⟩ := ih b' (E + DY + DX)
          (log ++ [(X1 - SX * ((a + 1 : Nat) : Int), Y1 - SY * ((b' + 1 : Nat) : Int))]) f
          (by push_cast at hE ⊢; linarith) (by linarith) (by linarith)
        constructor
        · intro hf
          obtain ⟨tail, hrun, hlen, hhead, hlast, hchain⟩ := ih1 (by omega)
          refine ⟨(X1 - SX * ((a + 1 : Nat) : Int), Y1 - SY * ((b' + 1 : Nat) : Int)) :: tail,
            ?_, ?_, rfl, getLast?_cons_of_length _ tail a _ hlen hlast, ?_⟩
          · rw [hrun]; simp
          · simp [hlen]
          · rw [List.chain'_cons']
            refine ⟨?_, hchain⟩
            intro q hq
            rw [hhead] at hq
            cases hq
            exact stairStep_mk X1 Y1 SX SY hSX hSY a b' 1 1 (le_refl _) (le_refl _) (by omega)
        · intro hf
          exact ih2 (by omega)
      · rw [if_neg hy, if_neg hy]
        obtain ⟨ih1, ih2⟩ := ih b (E + DY)
          (log ++ [(X1 - SX * ((a + 1 : Nat) : Int), Y1 - SY * (b : Int))]) f
          (by push_cast at hE ⊢; linarith) (by linarith) (by linarith)
        constructor
        · intro hf
          obtain ⟨tail, hrun, hlen, hhead, hlast, hchain⟩ := ih1 (by omega)
          refine ⟨(X1 - SX * ((a + 1 : Nat) : Int), Y1 - SY * (b : Int)) :: tail,
            ?_, ?_, rfl, getLast?_cons_of_length _ tail a _ hlen hlast, ?_⟩
          · rw [hrun]; simp
          · simp [hlen]
          · rw [List.chain'_cons']
            refine ⟨?_, hchain⟩
            intro q hq
            rw [hhead] at hq
            cases hq
            exact stairStep_mk X1 Y1 SX SY hSX hSY a b 1 0 (le_refl _) (by omega) (by omega)
        · intro hf
          exact ih2 (by omega)

/-- The loop on a line whose longer side is the vertical one (`DX ≤ -DY`),
from a point `a` columns and `b` rows before the end point: every iteration
steps in `y`, so the loop plots `b + 1` points, the last of which is the end
point, and needs exactly `b + 1` iterations. -/
theorem bresenham_ymajor (X1 Y1 DX DY SX SY : Int)
    (hDX : 0 ≤ DX) (hDY : DY < 0) (hmaj : DX ≤ -DY)
    (hSX : SX = 1 ∨ SX = -1) (hSY : SY = 1 ∨ SY = -1) :
    ∀ (b a : Nat) (E : Int) (log : List (Int × Int)) (fuel : Nat),
      E = DX + DY - a * DY - b * DX → 2 * E ≤ DX → 2 * E < 2 * DX + DY →
      (b + 1 ≤ fuel → ∃ tail,
          bresenham logPoint X1 Y1 DX DY SX SY fuel log (X1 - SX * a) (Y1 - SY * b) E
            = .ok (log ++ tail)
          ∧ tail.length = b + 1
          ∧ tail.head? = some (X1 - SX * a, Y1 - SY * b)
          ∧ tail.getLast? = some (X1, Y1)
          ∧ tail.Chain' (stairStep X1 Y1))
      ∧ (fuel ≤ b →
          bresenham logPoint X1 Y1 DX DY SX SY fuel log (X1 - SX * a) (Y1 - SY * b) E
            = .error .out_of_fuel) := by
  intro b
  induction b with
  | zero =>
    intro a E log fuel hE h1 h2
    have ha : a = 0 := by
      by_contra ha
      have ha1 : (1 : Int) ≤ (a : Int) := by exact_mod_cast Nat.one_le_iff_ne_zero.mpr ha
      have : (a : Int) * DY ≤ DY := by nlinarith
      simp only [Nat.cast_zero, zero_mul, sub_zero] at hE
      linarith
    subst ha
    constructor
    · intro hf
      obtain ⟨f, rfl⟩ : ∃ f, fuel = f + 1 := ⟨fuel - 1, by omega⟩
      refine ⟨[(X1, Y1)], ?_, rfl, ?_, rfl, List.chain'_singleton _⟩
      · rw [bresenham_logPoint_succ, if_pos (by simp)]
        simp
      · simp
    · intro hf
      have : fuel = 0 := by omega
      subst this
      rfl
  | succ b ih =>
    intro a E log fuel hE h1 h2
    have hY : Y1 - SY * ((b + 1 : Nat) : Int) ≠ Y1 := by
      rcases hSY with rfl | rfl <;> push_cast <;> omega
    cases fuel with
    | zero => exact ⟨fun h => by omega, fun _ => rfl⟩
    | succ f =>
      have hYn : Y1 - SY * ((b + 1 : Nat) : Int) + SY = Y1 - SY * (b : Int) := by
        push_cast; ring
      rw [bresenham_logPoint_succ, if_neg (fun h => hY h.2), if_pos h1, if_pos h1, hYn]
      by_cases hx : 2 * E ≥ DY
      · rw [if_pos hx, if_pos hx]
        obtain ⟨a', rfl⟩ : ∃ a', a = a' + 1 := by
          cases a with
          | zero =>
            exfalso
            have hb : 0 ≤ (b : Int) * DX := mul_nonneg (Int.natCast_nonneg b) hDX
            push_cast at hE
            linarith
          | succ a' => exact ⟨a', rfl⟩
        have hXn : X1 - SX * ((a' + 1 : Nat) : Int) + SX = X1 - SX * (a' : Int) := by
          push_cast; ring
        rw [hXn]
        obtain ⟨ih1, ih2⟩ := ih a' (E + DY + DX)
          (log ++ [(X1 - SX * ((a' + 1 : Nat) : Int), Y1 - SY * ((b + 1 : Nat) : Int))]) f
          (by push_cast at hE ⊢; linarith) (by linarith) (by linarith)
        constructor
        · intro hf
          obtain ⟨tail, hrun, hlen, hhead, hlast, hchain⟩ := ih1 (by omega)
          refine ⟨(X1 - SX * ((a' + 1 : Nat) : Int), Y1 - SY * ((b + 1 : Nat) : Int)) :: tail,
            ?_, ?_, rfl, getLast?_cons_of_length _ tail b _ hlen hlast, ?_⟩
          · rw [hrun]; simp
          · simp [hlen]
          · rw [List.chain'_cons']
            refine ⟨?_, hchain⟩
            intro q hq
            rw [hhead] at hq
            cases hq
            exact stairStep_mk X1 Y1 SX SY hSX hSY a' b 1 1 (le_refl _) (le_refl _) (by omega)
        · intro hf
          exact ih2 (by omega)
      · rw [if_neg hx, if_neg hx]
        obtain ⟨ih1, ih2⟩ := ih a (E + DX)
          (log ++ [(X1 - SX * (a : Int), Y1 - SY * ((b + 1 : Nat) : Int))]) f
          (by push_cast at hE ⊢; linarith) (by linarith) (by linarith)
        constructor
        · intro hf
          obtain ⟨tail, hrun, hlen, hhead, hlast, hchain⟩ := ih1 (by omega)
          refine ⟨(X1 - SX * (a : Int), Y1 - SY * ((b + 1 : Nat) : Int)) :: tail,
            ?_, ?_, rfl, getLast?_cons_of_length _ tail b _ hlen hlast, ?_⟩
          · rw [hrun]; simp
          · simp [hlen]
          · rw [List.chain'_cons']
            refine ⟨?_, hchain⟩
            intro q hq
            rw [hhead] at hq
            cases hq
            exact stairStep_mk X1 Y1 SX SY hSX hSY a b 0 1 (by omega) (le_refl _) (by omega)
        · intro hf
          exact ih2 (by omega)

/-- The start coordinate is the end coordinate taken back by the distance, in
the direction opposite to the step sign. -/
theorem endpoint_back (V0 V1 : Int) :
    V1 - (if V0 < V1 then (1 : Int) else -1) * ((iabs (V1 - V0)).toNat : Int) = V0 := by
  unfold iabs
  split_ifs <;> omega

theorem step_sign_unit (V0 V1 : Int) :
    (if V0 < V1 then (1 : Int) else -1) = 1 ∨ (if V0 < V1 then (1 : Int) else -1) = -1 := by
  split_ifs
  · exact Or.inl rfl
  · exact Or.inr rfl

/-- The trace of the general case of `DrawLine`, for any two end points. -/
theorem lineGeneral_trace (X0 Y0 X1 Y1 : Int) (fuel : Nat) :
    (max (iabs (X1 - X0)) (iabs (Y1 - Y0)) + 1 ≤ (fuel : Int) →
        ∃ pts, lineGeneral logPoint fuel X0 Y0 X1 Y1 [] = .ok pts
          ∧ (pts.length : Int) = max (iabs (X1 - X0)) (iabs (Y1 - Y0)) + 1
          ∧ pts.head? = some (X0, Y0)
          ∧ pts.getLast? = some (X1, Y1)
          ∧ pts.Chain' (stairStep X1 Y1))
    ∧ ((fuel : Int) ≤ max (iabs (X1 - X0)) (iabs (Y1 - Y0)) →
        lineGeneral logPoint fuel X0 Y0 X1 Y1 [] = .error .out_of_fuel) := by
  have hdx := iabs_nonneg (X1 - X0)
  have hdy := iabs_nonneg (Y1 - Y0)
  have hSX := step_sign_unit X0 X1
  have hSY := step_sign_unit Y0 Y1
  have hX := endpoint_back X0 X1
  have hY := endpoint_back Y0 Y1
  have hE : iabs (X1 - X0) + -iabs (Y1 - Y0)
      = iabs (X1 - X0) + -iabs (Y1 - Y0) - ((iabs (X1 - X0)).toNat : Int) * -iabs (Y1 - Y0)
        - ((iabs (Y1 - Y0)).toNat : Int) * iabs (X1 - X0) := by
    rw [Int.toNat_of_nonneg hdx, Int.toNat_of_nonneg hdy]
    ring
  unfold lineGeneral
  simp only
  by_cases hmaj : iabs (Y1 - Y0) ≤ iabs (X1 - X0)
  · by_cases hpos : 0 < iabs (X1 - X0)
    · have h := bresenham_xmajor X1 Y1 (iabs (X1 - X0)) (-iabs (Y1 - Y0)) _ _ hpos (by omega)
        (by omega) hSX hSY (iabs (X1 - X0)).toNat (iabs (Y1 - Y0)).toNat _ [] fuel hE
        (by omega) (by omega)
      rw [hX, hY] at h
      obtain ⟨h1, h2⟩ := h
      constructor
      · intro hf
        obtain ⟨tail, hrun, hlen, hhead, hlast, hchain⟩ := h1 (by omega)
        refine ⟨tail, ?_, ?_, hhead, hlast, hchain⟩
        · rw [hrun]; rfl
        · rw [hlen]; push_cast; omega
      · intro hf
        exact h2 (by omega)
    · -- both distances are 0: a single point
      have hx0 : X0 = X1 := by
        have : iabs (X1 - X0) = 0 := by omega
        unfold iabs at this
        split_ifs at this <;> omega
      have hy0 : Y0 = Y1 := by
        have : iabs (Y1 - Y0) = 0 := by omega
        unfold iabs at this
        split_ifs at this <;> omega
      subst hx0 hy0
      constructor
      · intro hf
        obtain ⟨f, rfl⟩ : ∃ f, fuel = f + 1 := ⟨fuel - 1, by omega⟩
        refine ⟨[(X0, Y0)], ?_, ?_, rfl, rfl, List.chain'_singleton _⟩
        · rw [bresenham_logPoint_succ, if_pos ⟨rfl, rfl⟩]; rfl
        · simp only [List.length_singleton, sub_self, iabs_zero]; rfl
      · intro hf
        have : fuel = 0 := by omega
        subst this
        rfl
  · have h := bresenham_ymajor X1 Y1 (iabs (X1 - X0)) (-iabs (Y1 - Y0)) _ _ hdx (by omega)
      (by omega) hSX hSY (iabs (Y1 - Y0)).toNat (iabs (X1 - X0)).toNat _ [] fuel hE
      (by omega) (by omega)
    rw [hX, hY] at h
    obtain ⟨h1, h2⟩ := h
    constructor
    · intro hf
      obtain ⟨tail, hrun, hlen, hhead, hlast, hchain⟩ := h1 (by omega)
      refine ⟨tail, ?_, ?_, hhead, hlast, hchain⟩
      · rw [hrun]; rfl
      · rw [hlen]; push_cast; omega
    · intro hf
      exact h2 (by omega)

/-- C5 (`DrawLine`, Bresenham loop).  For any two end points, with
`n = max |X1 - X0| |Y1 - Y0|`: run with at least `n + 1` iterations of fuel the
loop terminates, having plotted `n + 1` points (so after `n` steps); the first
point is `(X0, Y0)`, the last is `(X1, Y1)`, and each point differs from the
previous one by at most 1 in `x` and in `y`, is different from it, and is not
farther from the end point in either coordinate.  With `n` iterations or fewer
the loop has not terminated.  For `(0, 0) -> (4, 4)` the plotted points are
`(0,0), (1,1), (2,2), (3,3), (4,4)`. -/
theorem bresenham_staircase (X0 Y0 X1 Y1 : Int) (fuel : Nat) :
    (max (iabs (X1 - X0)) (iabs (Y1 - Y0)) + 1 ≤ (fuel : Int) →
        ∃ pts, lineGeneral logPoint fuel X0 Y0 X1 Y1 [] = .ok pts
          ∧ (pts.length : Int) = max (iabs (X1 - X0)) (iabs (Y1 - Y0)) + 1
          ∧ pts.head? = some (X0, Y0)
          ∧ pts.getLast? = some (X1, Y1)
          ∧ pts.Chain' (stairStep X1 Y1))
    ∧ ((fuel : Int) ≤ max (iabs (X1 - X0)) (iabs (Y1 - Y0)) →
        lineGeneral logPoint fuel X0 Y0 X1 Y1 [] = .error .out_of_fuel)
    ∧ lineGeneral logPoint (fuel + 5) 0 0 4 4 []
        = .ok [(0, 0), (1, 1), (2, 2), (3, 3), (4, 4)] := by
  refine ⟨(lineGeneral_trace X0 Y0 X1 Y1 fuel).1, (lineGeneral_trace X0 Y0 X1 Y1 fuel).2, ?_⟩
  simp [lineGeneral, bresenham_logPoint_succ, iabs]

/-- Witness of C5: the line `(5, 2) -> (0, 9)` with 8 iterations of fuel. -/
theorem bresenham_staircase_witness :
    (max (iabs (0 - 5)) (iabs (9 - 2)) + 1 ≤ ((8 : Nat) : Int))
    ∧ (∃ pts, lineGeneral logPoint 8 5 2 0 9 [] = .ok pts
        ∧ (pts.length : Int) = max (iabs (0 - 5)) (iabs (9 - 2)) + 1
        ∧ pts.head? = some (5, 2)
        ∧ pts.getLast? = some (0, 9)
        ∧ pts.Chain' (stairStep 0 9))
    ∧ lineGeneral logPoint 8 5 2 0 9 []
        = .ok [(5, 2), (4, 3), (4, 4), (3, 5), (2, 6), (1, 7), (1, 8), (0, 9)]
    ∧ lineGeneral logPoint 7 5 2 0 9 [] = .error .out_of_fuel :=
  ⟨by decide, (bresenham_staircase 5 2 0 9 8).1 (by decide), rfl,
    (bresenham_staircase 5 2 0 9 7).2.1 (by decide)⟩

/-! ## DrawLine: the general loop on axis-aligned lines -/

/-- One iteration of the loop, for any plot. -/
theorem bresenham_succ {σ : Type} (plot : σ → Int → Int → Except Fault σ)
    (X1 Y1 DX DY SX SY : Int) (fuel : Nat) (st : σ) (X Y E : Int) :
    bresenham plot X1 Y1 DX DY SX SY (fuel + 1) st X Y E
      = match plot st X Y with
        | .error e => .error e
        | .ok st1 =>
          if X = X1 ∧ Y = Y1 then .ok st1
          else bresenham plot X1 Y1 DX DY SX SY fuel st1
            (if 2 * E ≥ DY then X + SX else X) (if 2 * E ≤ DX then Y + SY else Y)
            (if 2 * E ≤ DX then (if 2 * E ≥ DY then E + DY else E) + DX
              else (if 2 * E ≥ DY then E + DY else E)) := rfl

/-- The store at a point `(x, y)` of the frame changes the cell `(x, y)` of
the back buffer and no other. -/
theorem storeBack_point (Color : Nat) (s : State) (p : Nat) (cells : List Nat) (W H : Nat)
    (hb : s.BackBuffer = some p) (hp : p < s.heap.length) (hl : cells.length = W * H)
    (x y : Int) (hx : 0 ≤ x ∧ x < W) (hy : 0 ≤ y ∧ y < H) :
    ∃ cells', storeBack Color (s.setBlock p cells) (y * (W : Int) + x)
        = .ok (s.setBlock p cells')
      ∧ cells'.length = cells.length
      ∧ ∀ px py : Nat, px < W →
          cells'[py * W + px]?
            = if (px : Int) = x ∧ (py : Int) = y then some Color else cells[py * W + px]? := by
  obtain ⟨xn, rfl⟩ := Int.eq_ofNat_of_zero_le hx.1
  obtain ⟨yn, rfl⟩ := Int.eq_ofNat_of_zero_le hy.1
  have hxn : xn < W := by exact_mod_cast hx.2
  have hyn : yn < H := by exact_mod_cast hy.2
  have hidx : yn * W + xn < cells.length := by
    rw [hl]
    have h1 : (yn + 1) * W ≤ H * W := Nat.mul_le_mul_right _ hyn
    nlinarith
  refine ⟨cells.set (yn * W + xn) Color, ?_, List.length_set _ _ _, ?_⟩
  · have hcast : ((yn : Int) * (W : Int) + (xn : Int)) = ((yn * W + xn : Nat) : Int) := by
      push_cast; rfl
    rw [hcast]
    exact storeBack_setBlock Color s p cells _ hb hp hidx
  · intro px py hpx
    rw [List.getElem?_set]
    have hiff := row_index_iff W xn 1 yn px py hpx (by omega)
    by_cases h : (px : Int) = (xn : Int) ∧ (py : Int) = (yn : Int)
    · have h1 : px = xn := by exact_mod_cast h.1
      have h2 : py = yn := by exact_mod_cast h.2
      subst h1 h2
      rw [if_pos rfl, if_pos hidx, if_pos h]
    · rw [if_neg h, if_neg]
      intro heq
      apply h
      have := hiff.mp ⟨by omega, by omega⟩
      exact ⟨by exact_mod_cast (by omega : px = xn), by exact_mod_cast this.1⟩

/-- The general loop on a horizontal line (`DY = 0`, `DX > 0`, the error
term stays `DX`), from a point `a` columns before the end point: it fills the
cells of row `Y1` from that point to the end point. -/
theorem bresenham_row (Color : Nat) (s : State) (p : Nat) (W H : Nat)
    (hb : s.BackBuffer = some p) (hp : p < s.heap.length)
    (X1 Y1 DX SX SY : Int) (hDX : 0 < DX) (hSX : SX = 1 ∨ SX = -1)
    (hX1 : 0 ≤ X1 ∧ X1 < W) (hY1 : 0 ≤ Y1 ∧ Y1 < H) :
    ∀ (a : Nat) (cells : List Nat) (fuel : Nat), cells.length = W * H → a + 1 ≤ fuel →
      (0 ≤ X1 - SX * a ∧ X1 - SX * a < W) →
      ∃ cells', bresenham (fun st x y => storeBack Color st (y * (W : Int) + x))
            X1 Y1 DX 0 SX SY fuel (s.setBlock p cells) (X1 - SX * a) Y1 DX
          = .ok (s.setBlock p cells')
        ∧ cells'.length = cells.length
        ∧ ∀ px py : Nat, px < W →
            cells'[py * W + px]?
              = if (py : Int) = Y1 ∧ min (X1 - SX * a) X1 ≤ (px : Int)
                    ∧ (px : Int) ≤ max (X1 - SX * a) X1
                then some Color else cells[py * W + px]? := by
  intro a
  induction a with
  | zero =>
    intro cells fuel hl hf _
    obtain ⟨f, rfl⟩ : ∃ f, fuel = f + 1 := ⟨fuel - 1, by omega⟩
    have h0 : X1 - SX * ((0 : Nat) : Int) = X1 := by simp
    rw [h0]
    obtain ⟨cells1, hst, hlen1, hget1⟩ :=
      storeBack_point Color s p cells W H hb hp hl X1 Y1 hX1 hY1
    refine ⟨cells1, ?_, hlen1, ?_⟩
    · rw [bresenham_succ, hst]
      simp
    · intro px py hpx
      rw [hget1 px py hpx]
      split_ifs <;> first | rfl | (exfalso; omega)
  | succ a ih =>
    intro cells fuel hl hf hX
    obtain ⟨f, rfl⟩ : ∃ f, fuel = f + 1 := ⟨fuel - 1, by omega⟩
    obtain ⟨cells1, hst, hlen1, hget1⟩ :=
      storeBack_point Color s p cells W H hb hp hl _ Y1 hX hY1
    have hne : X1 - SX * ((a + 1 : Nat) : Int) ≠ X1 := by
      rcases hSX with rfl | rfl <;> push_cast <;> omega
    have hXn : X1 - SX * ((a + 1 : Nat) : Int) + SX = X1 - SX * (a : Int) := by
      push_cast; ring
    have hXb : 0 ≤ X1 - SX * (a : Int) ∧ X1 - SX * (a : Int) < W := by
      rcases hSX with rfl | rfl <;> push_cast at hX ⊢ <;> omega
    obtain ⟨cells', hrun, hlen, hget⟩ := ih cells1 f (by rw [hlen1, hl]) (by omega) hXb
    refine ⟨cells', ?_, by rw [hlen, hlen1], ?_⟩
    · have h1 : 2 * DX ≥ 0 := by omega
      have h2 : ¬ 2 * DX ≤ DX := by omega
      rw [bresenham_succ, hst]
      simp only
      rw [if_neg (fun h => hne h.1), if_pos h1, if_neg h2, if_pos h1, if_neg h2, hXn, add_zero]
      exact hrun
    · intro px py hpx
      rw [hget px py hpx, hget1 px py hpx]
      rcases hSX with rfl | rfl <;> push_cast <;>
        split_ifs <;> first | rfl | (exfalso; omega)

/-- The general loop on a vertical line (`DX = 0`, `DY < 0`, the error term
stays `DY`), from a point `b` rows before the end point: it fills the cells of
column `X1` from that point to the end point. -/
theorem bresenham_col (Color : Nat) (s : State) (p : Nat) (W H : Nat)
    (hb : s.BackBuffer = some p) (hp : p < s.heap.length)
    (X1 Y1 DY SX SY : Int) (hDY : DY < 0) (hSY : SY = 1 ∨ SY = -1)
    (hX1 : 0 ≤ X1 ∧ X1 < W) (hY1 : 0 ≤ Y1 ∧ Y1 < H) :
    ∀ (b : Nat) (cells : List Nat) (fuel : Nat), cells.length = W * H → b + 1 ≤ fuel →
      (0 ≤ Y1 - SY * b ∧ Y1 - SY * b < H) →
      ∃ cells', bresenham (fun st x y => storeBack Color st (y * (W : Int) + x))
            X1 Y1 0 DY SX SY fuel (s.setBlock p cells) X1 (Y1 - SY * b) DY
          = .ok (s.setBlock p cells')
        ∧ cells'.length = cells.length
        ∧ ∀ px py : Nat, px < W →
            cells'[py * W + px]?
              = if (px : Int) = X1 ∧ min (Y1 - SY * b) Y1 ≤ (py : Int)
                    ∧ (py : Int) ≤ max (Y1 - SY * b) Y1
                then some Color else cells[py * W + px]? := by
  intro b
  induction b with
  | zero =>
    intro cells fuel hl hf _
    obtain ⟨f, rfl⟩ : ∃ f, fuel = f + 1 := ⟨fuel - 1, by omega⟩
    have h0 : Y1 - SY * ((0 : Nat) : Int) = Y1 := by simp
    rw [h0]
    obtain ⟨cells1, hst, hlen1, hget1⟩ :=
      storeBack_point Color s p cells W H hb hp hl X1 Y1 hX1 hY1
    refine ⟨cells1, ?_, hlen1, ?_⟩
    · rw [bresenham_succ, hst]
      simp
    · intro px py hpx
      rw [hget1 px py hpx]
      split_ifs <;> first | rfl | (exfalso; omega)
  | succ b ih =>
    intro cells fuel hl hf hY
    obtain ⟨f, rfl⟩ : ∃ f, fuel = f + 1 := ⟨fuel - 1, by omega⟩
    obtain ⟨cells1, hst, hlen1, hget1⟩ :=
      storeBack_point Color s p cells W H hb hp hl X1 _ hX1 hY
    have hne : Y1 - SY * ((b + 1 : Nat) : Int) ≠ Y1 := by
      rcases hSY with rfl | rfl <;> push_cast <;> omega
    have hYn : Y1 - SY * ((b + 1 : Nat) : Int) + SY = Y1 - SY * (b : Int) := by
      push_cast; ring
    have hYb : 0 ≤ Y1 - SY * (b : Int) ∧ Y1 - SY * (b : Int) < H := by
      rcases hSY with rfl | rfl <;> push_cast at hY ⊢ <;> omega
    obtain ⟨cells', hrun, hlen, hget⟩ := ih cells1 f (by rw [hlen1, hl]) (by omega) hYb
    refine ⟨cells', ?_, by rw [hlen, hlen1], ?_⟩
    · have h1 : ¬ 2 * DY ≥ DY := by omega
      have h2 : 2 * DY ≤ 0 := by omega
      rw [bresenham_succ, hst]
      simp only
      rw [if_neg (fun h => hne h.2)]
      simp only [if_neg h1, if_pos h2, hYn, add_zero]
      exact hrun
    · intro px py hpx
      rw [hget px py hpx, hget1 px py hpx]
      rcases hSY with rfl | rfl <;> push_cast <;>
        split_ifs <;> first | rfl | (exfalso; omega)

/-- Two buffers of `W * H` cells that agree on every cell `(px, py)` are
equal. -/
theorem cells_ext_grid (W H : Nat) (c1 c2 : List Nat)
    (h1 : c1.length = W * H) (h2 : c2.length = W * H)
    (h : ∀ px py : Nat, px < W → c1[py * W + px]? = c2[py * W + px]?) : c1 = c2 := by
  apply List.ext_getElem?
  intro n
  by_cases hW : W = 0
  · subst hW
    rw [List.getElem?_eq_none (by omega), List.getElem?_eq_none (by omega)]
  · have := h (n % W) (n / W) (Nat.mod_lt _ (Nat.pos_of_ne_zero hW))
    rw [Nat.div_add_mod'] at this
    exact this

/-- The general case of `DrawLine` on an axis-aligned line between two points
of the frame, with enough fuel: it fills exactly the cells between the two
points. -/
theorem lineGeneral_axis (Color : Nat) (s : State) (m : scanvideo_mode_t) (p : Nat)
    (cells : List Nat) (fuel : Nat) (a0 b0 a1 b1 : Int)
    (hb : s.BackBuffer = some p) (hc : s.heap[p]? = some (some cells))
    (hl : cells.length = m.width * m.height)
    (ha0 : 0 ≤ a0 ∧ a0 < m.width) (ha1 : 0 ≤ a1 ∧ a1 < m.width)
    (hb0 : 0 ≤ b0 ∧ b0 < m.height) (hb1 : 0 ≤ b1 ∧ b1 < m.height)
    (hax : b0 = b1 ∨ a0 = a1)
    (hfuel : max (iabs (a1 - a0)) (iabs (b1 - b0)) + 1 ≤ (fuel : Int)) :
    ∃ cells', lineGeneral (fun st x y => storeBack Color st (y * (m.width : Int) + x)) fuel
          a0 b0 a1 b1 s = .ok (s.setBlock p cells')
      ∧ cells'.length = cells.length
      ∧ ∀ px py : Nat, px < m.width →
          cells'[py * m.width + px]?
            = if min a0 a1 ≤ (px : Int) ∧ (px : Int) ≤ max a0 a1
                  ∧ min b0 b1 ≤ (py : Int) ∧ (py : Int) ≤ max b0 b1
              then some Color else cells[py * m.width + px]? := by
  have hp := heap_lt_of_get hc
  have hdx := iabs_nonneg (a1 - a0)
  have hdy := iabs_nonneg (b1 - b0)
  have hself := setBlock_self s p cells hc
  unfold lineGeneral
  simp only
  by_cases hy : b0 = b1
  · subst hy
    by_cases hx : a0 = a1
    · -- a single point
      subst hx
      obtain ⟨f, rfl⟩ : ∃ f, fuel = f + 1 := ⟨fuel - 1, by omega⟩
      obtain ⟨cells1, hst, hlen1, hget1⟩ :=
        storeBack_point Color s p cells m.width m.height hb hp hl a0 b0 ha0 hb0
      rw [hself] at hst
      refine ⟨cells1, ?_, hlen1, ?_⟩
      · rw [bresenham_succ]
        simp only [hst]
        simp
      · intro px py hpx
        rw [hget1 px py hpx]
        split_ifs <;> first | rfl | (exfalso; omega)
    · -- a horizontal line
      have hpos : 0 < iabs (a1 - a0) := by
        unfold iabs
        split_ifs <;> omega
      have hX := endpoint_back a0 a1
      have h := bresenham_row Color s p m.width m.height hb hp a1 b0 (iabs (a1 - a0))
        (if a0 < a1 then 1 else -1) (if b0 < b0 then 1 else -1) hpos (step_sign_unit a0 a1)
        ha1 hb0 (iabs (a1 - a0)).toNat cells fuel hl
        (by simp only [sub_self, iabs_zero] at hfuel; omega) (by rw [hX]; exact ha0)
      rw [hX, hself] at h
      obtain ⟨cells', hrun, hlen, hget⟩ := h
      refine ⟨cells', ?_, hlen, ?_⟩
      · simp only [sub_self, iabs_zero, neg_zero, add_zero]
        exact hrun
      · intro px py hpx
        rw [hget px py hpx]
        split_ifs <;> first | rfl | (exfalso; omega)
  · -- a vertical line
    have hx : a0 = a1 := by
      rcases hax with h | h
      · exact absurd h hy
      · exact h
    subst hx
    have hpos : -iabs (b1 - b0) < 0 := by
      unfold iabs
      split_ifs <;> omega
    have hY := endpoint_back b0 b1
    have h := bresenham_col Color s p m.width m.height hb hp a0 b1 (-iabs (b1 - b0))
      (if a0 < a0 then 1 else -1) (if b0 < b1 then 1 else -1) hpos (step_sign_unit b0 b1)
      ha0 hb1 (iabs (b1 - b0)).toNat cells fuel hl
      (by simp only [sub_self, iabs_zero] at hfuel; omega) (by rw [hY]; exact hb0)
    rw [hY, hself] at h
    obtain ⟨cells', hrun, hlen, hget⟩ := h
    refine ⟨cells', ?_, hlen, ?_⟩
    · simp only [sub_self, iabs_zero, zero_add]
      exact hrun
    · intro px py hpx
      rw [hget px py hpx]
      split_ifs <;> first | rfl | (exfalso; omega)

/-- C4 (fast paths and general algorithm agree).  On an initialised display,
for two end points of the frame with `Y0 = Y1` or `X0 = X1` (a single point
included) and with enough fuel for the loop, `DrawLine` with the dispatch to
the fast paths removed returns exactly the state that `DrawLine` returns
through its fast path; that state differs from the starting one in the back
buffer block only.  On the 12 by 8 display both give the same buffer for the
line `(2, 5) -> (9, 5)`: the cells 62..69 hold the colour. -/
theorem DrawLine_general_agrees (s : State) (m : scanvideo_mode_t) (p : Nat)
    (cells : List Nat) (fuel : Nat) (X0 Y0 X1 Y1 : Int) (Color : Nat)
    (hm : s.DisplayMode = some m) (hb : s.BackBuffer = some p)
    (hc : s.heap[p]? = some (some cells)) (hl : cells.length = m.width * m.height)
    (hX0 : 0 ≤ X0 ∧ X0 < m.width) (hX1 : 0 ≤ X1 ∧ X1 < m.width)
    (hY0 : 0 ≤ Y0 ∧ Y0 < m.height) (hY1 : 0 ≤ Y1 ∧ Y1 < m.height)
    (hax : Y0 = Y1 ∨ X0 = X1)
    (hfuel : max (iabs (X1 - X0)) (iabs (Y1 - Y0)) + 1 ≤ (fuel : Int)) :
    DrawLineGeneral s fuel X0 Y0 X1 Y1 Color = DrawLine s fuel X0 Y0 X1 Y1 Color
    ∧ (∃ cells', DrawLine s fuel X0 Y0 X1 Y1 Color = .ok (s.setBlock p cells')
        ∧ cells'.length = cells.length)
    ∧ DrawLineGeneral wideState 8 2 5 9 5 7 = DrawLine wideState 0 2 5 9 5 7
    ∧ DrawLine wideState 0 2 5 9 5 7
        = .ok (wideState.setBlock 1
            (List.replicate 62 0 ++ List.replicate 8 7 ++ List.replicate 26 0)) := by
  have e1 := clampCoord_of_inbounds X0 m.width hX0.1 hX0.2
  have e2 := clampCoord_of_inbounds X1 m.width hX1.1 hX1.2
  have e3 := clampCoord_of_inbounds Y0 m.height hY0.1 hY0.2
  have e4 := clampCoord_of_inbounds Y1 m.height hY1.1 hY1.2
  have hfast : DrawLine s fuel X0 Y0 X1 Y1 Color
      = lineClamped (storeBack Color) m fuel X0 Y0 X1 Y1 s := by
    rw [DrawLine_eq_lineClamped s m p fuel X0 Y0 X1 Y1 Color hm hb, e1, e2, e3, e4]
  have hgen : DrawLineGeneral s fuel X0 Y0 X1 Y1 Color
      = lineGeneral (fun st x y => storeBack Color st (y * (m.width : Int) + x)) fuel
          X0 Y0 X1 Y1 s := by
    unfold DrawLineGeneral
    rw [hb, hm]
    simp only [e1, e2, e3, e4]
  obtain ⟨c1, hrun1, hlen1, hget1⟩ :=
    lineClamped_axis Color s m p cells fuel X0 Y0 X1 Y1 hb hc hl hX0 hX1 hY0 hY1 hax
  obtain ⟨c2, hrun2, hlen2, hget2⟩ :=
    lineGeneral_axis Color s m p cells fuel X0 Y0 X1 Y1 hb hc hl hX0 hX1 hY0 hY1 hax hfuel
  have hcc : c2 = c1 := by
    apply cells_ext_grid m.width m.height c2 c1 (by rw [hlen2, hl]) (by rw [hlen1, hl])
    intro px py hpx
    rw [hget1 px py hpx, hget2 px py hpx]
  refine ⟨?_, ⟨c1, ?_, hlen1⟩, rfl, rfl⟩
  · rw [hfast, hgen, hrun1, hrun2, hcc]
  · rw [hfast, hrun1]

/-- Witness of C4 on the 12 by 8 display, for the vertical line
`(3, 6) -> (3, 1)` with 6 iterations of fuel. -/
theorem DrawLine_general_agrees_witness :
    (wideState.DisplayMode = some { default_timing := none, width := 12, height := 8 }
      ∧ wideState.BackBuffer = some 1
      ∧ max (iabs (3 - 3)) (iabs (1 - 6)) + 1 ≤ ((6 : Nat) : Int))
    ∧ DrawLineGeneral wideState 6 3 6 3 1 7 = DrawLine wideState 6 3 6 3 1 7 :=
  ⟨⟨rfl, rfl, by decide⟩,
    (DrawLine_general_agrees wideState { default_timing := none, width := 12, height := 8 } 1
      (List.replicate 96 0) 6 3 6 3 1 7 rfl rfl rfl rfl ⟨by decide, by decide⟩
      ⟨by decide, by decide⟩ ⟨by decide, by decide⟩ ⟨by decide, by decide⟩ (Or.inr rfl)
      (by decide)).1⟩

/-! ## The swap step -/

theorem lastScanline_eq (m : scanvideo_mode_t) (h0 : 0 < m.height) (h1 : m.height ≤ 2 ^ 32) :
    lastScanline m = m.height - 1 := by
  unfold lastScanline
  have h : m.height + 2 ^ 32 - 1 = (m.height - 1) + 2 ^ 32 := by omega
  rw [h, Nat.add_mod_right, Nat.mod_eq_of_lt (by omega)]

/-- C11 (swap step of the render loop).  On a state whose display mode is set:
when the scanline number equals `height - 1` (as `lastScanline`, which is
`height - 1` for `0 < height ≤ 2^32`) and the readiness flag is true, the swap
step exchanges the two buffer pointers and clears the flag, and leaves the
heap, so the contents of both buffers, and everything else as they were; when
the flag is false or the scanline number is another one, the state is
unchanged. -/
theorem swapStep_spec (s : State) (m : scanvideo_mode_t) (n : Nat)
    (hm : s.DisplayMode = some m) :
    (0 < m.height → m.height ≤ 2 ^ 32 → lastScanline m = m.height - 1)
    ∧ (n = lastScanline m → s.BackbufReady = true →
        swapStep s n = .ok { s with FrontBuffer := s.BackBuffer, BackBuffer := s.FrontBuffer,
                                    BackbufReady := false }
        ∧ ({ s with FrontBuffer := s.BackBuffer, BackBuffer := s.FrontBuffer,
                    BackbufReady := false } : State).heap = s.heap)
    ∧ ((s.BackbufReady = false ∨ n ≠ lastScanline m) → swapStep s n = .ok s) := by
  refine ⟨lastScanline_eq m, ?_, ?_⟩
  · intro hn hf
    rw [swapStep_eq s m n hm, if_pos hn, if_pos hf]
    exact ⟨rfl, rfl⟩
  · intro h
    rw [swapStep_eq s m n hm]
    rcases h with h | h
    · split_ifs with h1 h2
      · rw [h] at h2; cases h2
      · rfl
      · rfl
    · rw [if_neg h]

/-- Witness of C11 on the 4 by 3 display with the flag set: the swap step at
scanline 2 exchanges the pointers, the one at scanline 1 does nothing. -/
theorem swapStep_spec_witness :
    (DisplayEndDraw demoState).DisplayMode = some demoMode
    ∧ swapStep (DisplayEndDraw demoState) 2
        = .ok { demoState with FrontBuffer := some 1, BackBuffer := some 0 }
    ∧ swapStep (DisplayEndDraw demoState) 1 = .ok (DisplayEndDraw demoState) :=
  ⟨rfl,
    ((swapStep_spec (DisplayEndDraw demoState) demoMode 2 rfl).2.1 (by decide) rfl).1,
    (swapStep_spec (DisplayEndDraw demoState) demoMode 1 rfl).2.2 (Or.inr (by decide))⟩

/-! ## BeginDraw under backpressure -/

/-- `DisplayBeginDraw` while the readiness flag is set: the result is false and
the state is the one `DisplayCanDraw` leaves. -/
theorem DisplayBeginDraw_ready (fp : scanvideo_timing_t → Nat) (s : State) (now : Nat)
    (hf : s.BackbufReady = true) :
    DisplayBeginDraw fp s now = (false, (DisplayCanDraw fp s now).2) := by
  unfold DisplayBeginDraw
  simp only [DisplayCanDraw_flag, hf]
  simp

/-- C20 (`DisplayBeginDraw` consumes the pacing permission).  On a state whose
display mode is set and whose readiness flag is true, at a clock sample
`last ≤ now < 2^64`: when `now - last ≥ P` the call returns false and sets the
time stamp to `now`; a call made after the next swap step, less than one
period after `now`, returns false as well; when `now - last < P` the call
returns false and leaves the state unchanged. -/
theorem BeginDraw_consumes_permission (fp : scanvideo_timing_t → Nat) (s : State)
    (m : scanvideo_mode_t) (now : Nat) (hm : s.DisplayMode = some m)
    (hf : s.BackbufReady = true) (hnow : now < 2 ^ 64) (hle : s.LastFrameTimeUS ≤ now) :
    (now - s.LastFrameTimeUS ≥ FramePeriodUS fp s →
        DisplayBeginDraw fp s now = (false, { s with LastFrameTimeUS := now })
        ∧ swapStep { s with LastFrameTimeUS := now } (lastScanline m)
            = .ok { s with LastFrameTimeUS := now, FrontBuffer := s.BackBuffer,
                           BackBuffer := s.FrontBuffer, BackbufReady := false }
        ∧ ∀ now2, now ≤ now2 → now2 < now + FramePeriodUS fp s → now2 < 2 ^ 64 →
            (DisplayBeginDraw fp
              { s with LastFrameTimeUS := now, FrontBuffer := s.BackBuffer,
                       BackBuffer := s.FrontBuffer, BackbufReady := false } now2).1 = false)
    ∧ (now - s.LastFrameTimeUS < FramePeriodUS fp s → DisplayBeginDraw fp s now = (false, s)) := by
  have hsub := sub64_of_le now s.LastFrameTimeUS hnow hle
  rw [DisplayBeginDraw_ready fp s now hf, DisplayCanDraw_eq fp s m now hm, hsub]
  constructor
  · intro hP
    rw [if_pos hP]
    refine ⟨rfl, ?_, ?_⟩
    · rw [swapStep_eq _ m _ (by exact hm), if_pos rfl, if_pos (by exact hf)]
    · intro now2 h1 h2 h3
      cases hr : (DisplayBeginDraw fp
          { s with LastFrameTimeUS := now, FrontBuffer := s.BackBuffer,
                   BackBuffer := s.FrontBuffer, BackbufReady := false } now2).1 with
      | false => rfl
      | true =>
        exfalso
        have h := ((DisplayBeginDraw_iff fp _ now2).mp hr).1
        have h4 := (DisplayCanDraw_true fp _ now2 h).2 h3 h1
        have hPeq : FramePeriodUS fp
            { s with LastFrameTimeUS := now, FrontBuffer := s.BackBuffer,
                     BackBuffer := s.FrontBuffer, BackbufReady := false }
            = FramePeriodUS fp s := rfl
        rw [hPeq] at h4
        simp only at h4
        omega
  · intro hP
    rw [if_neg (by omega)]

/-- Witness of C20 on the 4 by 3 display with the flag set (period 16666,
time stamp 0), at the sample 20000. -/
theorem BeginDraw_consumes_permission_witness :
    ((DisplayEndDraw demoState).DisplayMode = some demoMode
      ∧ (DisplayEndDraw demoState).BackbufReady = true ∧ 20000 < 2 ^ 64
      ∧ (DisplayEndDraw demoState).LastFrameTimeUS ≤ 20000
      ∧ 20000 - (DisplayEndDraw demoState).LastFrameTimeUS
          ≥ FramePeriodUS (fun _ => 0) (DisplayEndDraw demoState))
    ∧ DisplayBeginDraw (fun _ => 0) (DisplayEndDraw demoState) 20000
        = (false, { DisplayEndDraw demoState with LastFrameTimeUS := 20000 }) :=
  ⟨⟨rfl, rfl, by decide, by decide, by decide⟩,
    ((BeginDraw_consumes_permission (fun _ => 0) (DisplayEndDraw demoState) demoMode 20000
      rfl rfl (by decide) (by decide)).1 (by decide)).1⟩

/-! ## Scanline synthesis -/

theorem storeData_at (w tl : List Nat) (v : Nat) (h : 0 < tl.length) :
    storeData (w ++ tl) w.length v = .ok ((w ++ [v]) ++ tl.drop 1) := by
  cases tl with
  | nil => simp at h
  | cons x rest =>
    unfold storeData
    rw [if_pos (by simp)]
    simp

theorem loadFront_eq (s : State) (p : Nat) (cells : List Nat) (idx : Nat)
    (hf : s.FrontBuffer = some p) (hc : s.heap[p]? = some (some cells))
    (hi : idx < cells.length) :
    loadFront s idx = .ok cells[idx] := by
  unfold loadFront
  rw [hf]
  simp only [hc, List.getElem?_eq_getElem hi]

theorem copyRow_spec (s : State) (p : Nat) (cells : List Nat)
    (hf : s.FrontBuffer = some p) (hc : s.heap[p]? = some (some cells)) :
    ∀ (n : Nat) (w tl : List Nat) (idx : Nat), n ≤ tl.length → idx + n ≤ cells.length →
      copyRow s n (w ++ tl) w.length idx
        = .ok (w ++ (cells.drop idx).take n ++ tl.drop n, w.length + n) := by
  intro n
  induction n with
  | zero => intro w tl idx _ _; simp [copyRow]
  | succ n ih =>
    intro w tl idx h1 h2
    unfold copyRow
    rw [loadFront_eq s p cells idx hf hc (by omega)]
    simp only
    rw [storeData_at w tl _ (by omega)]
    simp only
    have hlen : (w ++ [cells[idx]]).length = w.length + 1 := by simp
    rw [← hlen, ih (w ++ [cells[idx]]) (tl.drop 1) (idx + 1) (by simp; omega) (by omega)]
    have hd : cells.drop idx = cells[idx] :: cells.drop (idx + 1) :=
      List.drop_eq_getElem_cons (by omega)
    have ht : List.take (n + 1) (cells.drop idx)
        = cells[idx] :: List.take n (cells.drop (idx + 1)) := by
      rw [hd, List.take_succ_cons]
    rw [ht]
    simp [Nat.add_comm, Nat.add_left_comm, Nat.add_assoc]

/-- The record `DrawScanlineFromFramebuffer` produces for a visible row. -/
theorem DrawScanline_eq (k : scanvideo_consts) (s : State) (m : scanvideo_mode_t) (p : Nat)
    (cells : List Nat) (buf : scanvideo_scanline_buffer_t) (r : Nat)
    (hm : s.DisplayMode = some m) (hf : s.FrontBuffer = some p)
    (hc : s.heap[p]? = some (some cells)) (hl : cells.length = m.width * m.height)
    (hfit : m.width * m.height ≤ 2 ^ 32) (hr : r < m.height)
    (hcap : m.width + 5 ≤ buf.data.length) :
    DrawScanlineFromFramebuffer k s buf r
      = .ok { buf with
          data := [k.COMPOSABLE_RAW_RUN, m.width, PICO_SCANVIDEO_PIXEL_FROM_RGB5 k 0 0 1 % 2 ^ 16]
            ++ (cells.drop (r * m.width)).take m.width
            ++ [k.COMPOSABLE_EOL_SKIP_ALIGN, 0] ++ buf.data.drop (m.width + 5),
          data_used := (m.width + 5) / 2, status := k.SCANLINE_OK } := by
  have hrow : r * m.width + m.width ≤ cells.length := by
    rw [hl, Nat.mul_comm m.width]
    have : (r + 1) * m.width ≤ m.height * m.width := Nat.mul_le_mul_right _ hr
    nlinarith
  have hmod : (r * m.width) % 2 ^ 32 = r * m.width := by
    apply Nat.mod_eq_of_lt
    have : 0 < m.width ∨ m.width = 0 := by omega
    rcases this with h | h
    · omega
    · rw [h]; simp
  generalize hsent : PICO_SCANVIDEO_PIXEL_FROM_RGB5 k 0 0 1 % 2 ^ 16 = sent
  have h1 := storeData_at [] buf.data k.COMPOSABLE_RAW_RUN (by omega)
  have h2 := storeData_at [k.COMPOSABLE_RAW_RUN] (buf.data.drop 1) m.width
    (by rw [List.length_drop]; omega)
  have h3 := storeData_at [k.COMPOSABLE_RAW_RUN, m.width] ((buf.data.drop 1).drop 1) sent
    (by simp only [List.length_drop]; omega)
  have h4 := copyRow_spec s p cells hf hc m.width [k.COMPOSABLE_RAW_RUN, m.width, sent]
    (((buf.data.drop 1).drop 1).drop 1) (r * m.width)
    (by simp only [List.length_drop]; omega) hrow
  have hrowlen : ((cells.drop (r * m.width)).take m.width).length = m.width := by
    rw [List.length_take, List.length_drop]; omega
  have h5 := storeData_at
    ([k.COMPOSABLE_RAW_RUN, m.width, sent] ++ (cells.drop (r * m.width)).take m.width)
    ((((buf.data.drop 1).drop 1).drop 1).drop m.width) k.COMPOSABLE_EOL_SKIP_ALIGN
    (by simp only [List.length_drop]; omega)
  have h6 := storeData_at
    ([k.COMPOSABLE_RAW_RUN, m.width, sent] ++ (cells.drop (r * m.width)).take m.width
      ++ [k.COMPOSABLE_EOL_SKIP_ALIGN])
    (((((buf.data.drop 1).drop 1).drop 1).drop m.width).drop 1) 0
    (by simp only [List.length_drop]; omega)
  simp only [List.nil_append, List.length_nil, List.length_cons, List.length_append,
    List.length_singleton, hrowlen, List.cons_append, Nat.zero_add, List.append_assoc] at h1 h2 h3 h4 h5 h6
  unfold DrawScanlineFromFramebuffer
  rw [hm]
  simp only [hmod, hsent]
  rw [h1]
  simp only
  rw [h2]
  simp only
  rw [h3]
  simp only
  rw [h4]
  simp only
  have e : 1 + 1 + 1 + m.width = m.width + 1 + 1 + 1 := by omega
  rw [e, h5]
  simp only
  rw [h6]
  have e2 : (m.width + 1 + 1 + 1 + 2) / 2 = (m.width + 5) / 2 := by
    have : m.width + 1 + 1 + 1 + 2 = m.width + 5 := by omega
    rw [this]
  have e3 : List.drop 1 (List.drop 1 (List.drop m.width (List.drop 1 (List.drop 1
      (List.drop 1 buf.data))))) = List.drop (m.width + 5) buf.data := by
    simp only [List.drop_drop]
    congr 1
    omega
  rw [e2, e3]
  simp

/-- The sentinel is the blue channel at its lowest non-zero value. -/
theorem sentinel_eq (k : scanvideo_consts) :
    PICO_SCANVIDEO_PIXEL_FROM_RGB5 k 0 0 1 = 2 ^ k.PICO_SCANVIDEO_PIXEL_BSHIFT := by
  unfold PICO_SCANVIDEO_PIXEL_FROM_RGB5
  simp [Nat.shiftLeft_eq]

theorem sentinel_pos (k : scanvideo_consts) (hB : k.PICO_SCANVIDEO_PIXEL_BSHIFT < 16) :
    PICO_SCANVIDEO_PIXEL_FROM_RGB5 k 0 0 1 % 2 ^ 16 = 2 ^ k.PICO_SCANVIDEO_PIXEL_BSHIFT
      ∧ PICO_SCANVIDEO_PIXEL_FROM_RGB5 k 0 0 1 % 2 ^ 16 ≠ 0 := by
  rw [sentinel_eq]
  have hlt : 2 ^ k.PICO_SCANVIDEO_PIXEL_BSHIFT < 2 ^ 16 :=
    Nat.pow_lt_pow_right (by decide) hB
  rw [Nat.mod_eq_of_lt hlt]
  exact ⟨rfl, Nat.pos_iff_ne_zero.mp (Nat.pow_pos (by decide))⟩

/-- The swap step leaves the heap and the display mode as they are. -/
theorem swapStep_heap (s s1 : State) (n : Nat) (h : swapStep s n = .ok s1) :
    s1.heap = s.heap ∧ s1.DisplayMode = s.DisplayMode := by
  unfold swapStep at h
  cases hm : s.DisplayMode with
  | none => rw [hm] at h; cases h
  | some m =>
    rw [hm] at h
    simp only at h
    split_ifs at h <;> cases h <;> exact ⟨rfl, by simp [hm]⟩

/-- One iteration of the render loop: the swap step, then the synthesis of the
row for a visible scanline or the empty record for any other. -/
theorem renderStep_eq (k : scanvideo_consts) (s s1 : State) (m : scanvideo_mode_t)
    (buf : scanvideo_scanline_buffer_t) (n : Nat)
    (hm : s.DisplayMode = some m) (hs : swapStep s n = .ok s1) :
    renderStep k s buf n
      = if n < m.height then
          match DrawScanlineFromFramebuffer k s1 buf n with
          | .error e => .error e
          | .ok rec => .ok (s1, rec)
        else .ok (s1, { buf with data_used := 0, status := k.SCANLINE_OK }) := by
  have hm1 : s1.DisplayMode = some m := by rw [(swapStep_heap s s1 n hs).2, hm]
  unfold renderStep
  rw [hs]
  simp only [hm1]

theorem swapStep_total (s : State) (m : scanvideo_mode_t) (n : Nat)
    (hm : s.DisplayMode = some m) : ∃ s1, swapStep s n = .ok s1 := by
  rw [swapStep_eq s m n hm]
  split_ifs <;> exact ⟨_, rfl⟩

/-- The `c`-th value of the copied row is the cell `r * W + c`. -/
theorem row_getElem? (cells : List Nat) (r W c : Nat) (hc : c < W) :
    ((cells.drop (r * W)).take W)[c]? = cells[r * W + c]? := by
  rw [List.getElem?_take_of_lt hc, List.getElem?_drop]

/-- C13 (scanline framing).  On an initialised display (mode `m`, front
buffer block `p` of `width * height ≤ 2^32` cells), for a visible row
`r < height` and a record with room for `width + 5` values: the synthesiser
succeeds and the first `width + 5` values of the payload are, in order, the
run marker, `width`, the sentinel, the `width` cells
`r * width .. r * width + width - 1` of the front buffer, the end marker and
0; the rest of the payload is as before.  The sentinel is the blue channel at
its lowest value, `2 ^ BSHIFT`, and is not 0 when the blue channel lies in the
16-bit value; it does not depend on the pixel data.  The render step leaves
the heap, so the front buffer, as it is. -/
theorem DrawScanline_framing (k : scanvideo_consts) (s : State) (m : scanvideo_mode_t)
    (p : Nat) (cells : List Nat) (buf : scanvideo_scanline_buffer_t) (r : Nat)
    (hm : s.DisplayMode = some m) (hf : s.FrontBuffer = some p)
    (hc : s.heap[p]? = some (some cells)) (hl : cells.length = m.width * m.height)
    (hfit : m.width * m.height ≤ 2 ^ 32) (hr : r < m.height)
    (hcap : m.width + 5 ≤ buf.data.length)
    (hB : k.PICO_SCANVIDEO_PIXEL_BSHIFT < 16) :
    (∃ rec, DrawScanlineFromFramebuffer k s buf r = .ok rec
      ∧ rec.data = [k.COMPOSABLE_RAW_RUN, m.width, 2 ^ k.PICO_SCANVIDEO_PIXEL_BSHIFT]
          ++ (cells.drop (r * m.width)).take m.width
          ++ [k.COMPOSABLE_EOL_SKIP_ALIGN, 0] ++ buf.data.drop (m.width + 5)
      ∧ ([k.COMPOSABLE_RAW_RUN, m.width, 2 ^ k.PICO_SCANVIDEO_PIXEL_BSHIFT]
          ++ (cells.drop (r * m.width)).take m.width
          ++ [k.COMPOSABLE_EOL_SKIP_ALIGN, 0]).length = m.width + 5
      ∧ rec.status = k.SCANLINE_OK)
    ∧ (∀ c, c < m.width →
        ((cells.drop (r * m.width)).take m.width)[c]? = some (cells.getD (r * m.width + c) 0)
        ∧ r * m.width + c < cells.length)
    ∧ (PICO_SCANVIDEO_PIXEL_FROM_RGB5 k 0 0 1 % 2 ^ 16 = 2 ^ k.PICO_SCANVIDEO_PIXEL_BSHIFT
        ∧ 2 ^ k.PICO_SCANVIDEO_PIXEL_BSHIFT ≠ 0)
    ∧ (∀ s1 rec, renderStep k s buf r = .ok (s1, rec) → s1.heap = s.heap) := by
  have hsent := sentinel_pos k hB
  have hrow : r * m.width + m.width ≤ cells.length := by
    rw [hl, Nat.mul_comm m.width]
    have : (r + 1) * m.width ≤ m.height * m.width := Nat.mul_le_mul_right _ hr
    nlinarith
  refine ⟨⟨_, DrawScanline_eq k s m p cells buf r hm hf hc hl hfit hr hcap, ?_, ?_, rfl⟩,
    ?_, ⟨hsent.1, by rw [← hsent.1]; exact hsent.2⟩, ?_⟩
  · simp only [hsent.1]
  · simp only [List.length_append, List.length_cons, List.length_nil, List.length_take,
      List.length_drop]
    omega
  · intro c hcw
    have hlt : r * m.width + c < cells.length := by omega
    refine ⟨?_, hlt⟩
    rw [row_getElem? cells r m.width c hcw, List.getElem?_eq_getElem hlt,
      List.getD_eq_getElem?_getD, List.getElem?_eq_getElem hlt]
    rfl
  · intro s1 rec h
    obtain ⟨s1', hs⟩ := swapStep_total s m r hm
    rw [renderStep_eq k s s1' m buf r hm hs, if_pos hr] at h
    cases hd : DrawScanlineFromFramebuffer k s1' buf r with
    | error e => rw [hd] at h; cases h
    | ok rec' =>
      rw [hd] at h
      simp only [Except.ok.injEq, Prod.mk.injEq] at h
      rw [← h.1]
      exact (swapStep_heap s s1' r hs).1

/-- Witness of C13 on the 4 by 3 display whose front buffer is all 0, row 1,
with the sample constants (sentinel `2 ^ 11 = 2048`). -/
theorem DrawScanline_framing_witness :
    (tornState.DisplayMode = some demoMode ∧ tornState.FrontBuffer = some 0
      ∧ tornState.heap[0]? = some (some (List.replicate 12 0))
      ∧ 1 < demoMode.height ∧ demoMode.width + 5 ≤ demoRecord.data.length
      ∧ demoConsts.PICO_SCANVIDEO_PIXEL_BSHIFT < 16)
    ∧ (∃ rec, DrawScanlineFromFramebuffer demoConsts tornState demoRecord 1 = .ok rec
        ∧ rec.data = [demoConsts.COMPOSABLE_RAW_RUN, demoMode.width,
              2 ^ demoConsts.PICO_SCANVIDEO_PIXEL_BSHIFT]
            ++ ((List.replicate 12 0).drop (1 * demoMode.width)).take demoMode.width
            ++ [demoConsts.COMPOSABLE_EOL_SKIP_ALIGN, 0]
            ++ demoRecord.data.drop (demoMode.width + 5))
    ∧ DrawScanlineFromFramebuffer demoConsts tornState demoRecord 1
        = .ok { demoRecord with data := [3, 4, 2048, 0, 0, 0, 0, 1, 0, 9, 9, 9],
                                data_used := 4, status := 1 } :=
  ⟨⟨rfl, rfl, rfl, by decide, by decide, by decide⟩,
    ((DrawScanline_framing demoConsts tornState demoMode 0 (List.replicate 12 0) demoRecord 1
        rfl rfl rfl rfl (by decide) (by decide) (by decide) (by decide)).1.imp
      fun _ h => ⟨h.1, h.2.1⟩),
    rfl⟩

/-- The values a visible row puts into the record, in order: the run header,
the sentinel, the cells of the row, the end marker and its pad; they are
`W + 5` values. -/
theorem DrawScanline_written (k : scanvideo_consts) (s : State) (m : scanvideo_mode_t)
    (p : Nat) (cells : List Nat) (buf : scanvideo_scanline_buffer_t) (r : Nat)
    (hm : s.DisplayMode = some m) (hf : s.FrontBuffer = some p)
    (hc : s.heap[p]? = some (some cells)) (hl : cells.length = m.width * m.height)
    (hfit : m.width * m.height ≤ 2 ^ 32) (hr : r < m.height)
    (hcap : m.width + 5 ≤ buf.data.length) :
    ∃ rec, DrawScanlineFromFramebuffer k s buf r = .ok rec
      ∧ rec.data_used = (m.width + 5) / 2
      ∧ rec.data.take (m.width + 5)
          = [k.COMPOSABLE_RAW_RUN, m.width, PICO_SCANVIDEO_PIXEL_FROM_RGB5 k 0 0 1 % 2 ^ 16]
            ++ (cells.drop (r * m.width)).take m.width
            ++ [k.COMPOSABLE_EOL_SKIP_ALIGN, 0]
      ∧ ([k.COMPOSABLE_RAW_RUN, m.width, PICO_SCANVIDEO_PIXEL_FROM_RGB5 k 0 0 1 % 2 ^ 16]
            ++ (cells.drop (r * m.width)).take m.width
            ++ [k.COMPOSABLE_EOL_SKIP_ALIGN, 0]).length = m.width + 5 := by
  have hrow : r * m.width + m.width ≤ cells.length := by
    rw [hl, Nat.mul_comm m.width]
    have : (r + 1) * m.width ≤ m.height * m.width := Nat.mul_le_mul_right _ hr
    nlinarith
  have hlen : ([k.COMPOSABLE_RAW_RUN, m.width, PICO_SCANVIDEO_PIXEL_FROM_RGB5 k 0 0 1 % 2 ^ 16]
            ++ (cells.drop (r * m.width)).take m.width
            ++ [k.COMPOSABLE_EOL_SKIP_ALIGN, 0]).length = m.width + 5 := by
    simp only [List.length_append, List.length_cons, List.length_nil, List.length_take,
      List.length_drop]
    omega
  refine ⟨_, DrawScanline_eq k s m p cells buf r hm hf hc hl hfit hr hcap, rfl, ?_, hlen⟩
  exact List.take_left' hlen

/-- C14, counterexample.  On the 4 by 3 display the synthesiser writes
`4 + 5 = 9` values for row 1 and sets the used length to 4, not to 9.  On the
5 by 2 display it writes `5 + 5 = 10` values for row 1 and sets the used
length to 5, not to 10. -/
theorem data_used_counterexample :
    (DrawScanlineFromFramebuffer demoConsts tornState demoRecord 1
        = .ok { demoRecord with data := [3, 4, 2048, 0, 0, 0, 0, 1, 0, 9, 9, 9],
                                data_used := 4, status := 1 }
      ∧ demoMode.width + 5 = 9 ∧ (4 : Nat) ≠ demoMode.width + 5)
    ∧ (DrawScanlineFromFramebuffer demoConsts oddState demoRecord 1
        = .ok { demoRecord with data := [3, 5, 2048, 6, 7, 8, 9, 10, 1, 0, 9, 9],
                                data_used := 5, status := 1 }
      ∧ oddMode.width + 5 = 10 ∧ (5 : Nat) ≠ oddMode.width + 5) :=
  ⟨⟨rfl, rfl, by decide⟩, ⟨rfl, rfl, by decide⟩⟩

/-- C14, amended.  The used length of the record counts 32-bit words, not
16-bit values: for a visible row of a display of odd width `W` it is
`(W + 5) / 2`, and these 32-bit words are exactly the `W + 5` 16-bit values
written, the run header (2), the sentinel (1), the `W` cells of the row and
the end marker with its pad (2). -/
theorem data_used_words (k : scanvideo_consts) (s : State) (m : scanvideo_mode_t)
    (p : Nat) (cells : List Nat) (buf : scanvideo_scanline_buffer_t) (r : Nat)
    (hm : s.DisplayMode = some m) (hf : s.FrontBuffer = some p)
    (hc : s.heap[p]? = some (some cells)) (hl : cells.length = m.width * m.height)
    (hfit : m.width * m.height ≤ 2 ^ 32) (hr : r < m.height)
    (hcap : m.width + 5 ≤ buf.data.length) (hodd : m.width % 2 = 1) :
    ∃ rec, DrawScanlineFromFramebuffer k s buf r = .ok rec
      ∧ rec.data_used = (m.width + 5) / 2
      ∧ 2 * rec.data_used = m.width + 5
      ∧ rec.data.take (2 * rec.data_used)
          = [k.COMPOSABLE_RAW_RUN, m.width, PICO_SCANVIDEO_PIXEL_FROM_RGB5 k 0 0 1 % 2 ^ 16]
            ++ (cells.drop (r * m.width)).take m.width
            ++ [k.COMPOSABLE_EOL_SKIP_ALIGN, 0]
      ∧ ([k.COMPOSABLE_RAW_RUN, m.width, PICO_SCANVIDEO_PIXEL_FROM_RGB5 k 0 0 1 % 2 ^ 16]
            ++ (cells.drop (r * m.width)).take m.width
            ++ [k.COMPOSABLE_EOL_SKIP_ALIGN, 0]).length = m.width + 5 := by
  obtain ⟨rec, hrec, hused, htake, hlen⟩ :=
    DrawScanline_written k s m p cells buf r hm hf hc hl hfit hr hcap
  have h2 : 2 * rec.data_used = m.width + 5 := by
    rw [hused]
    omega
  refine ⟨rec, hrec, hused, h2, ?_, hlen⟩
  rw [h2]
  exact htake

/-- Witness of the amended C14 on the 5 by 2 display, row 1: the used length
is 5, and the 5 32-bit words are the 10 values written. -/
theorem data_used_words_witness :
    (oddState.DisplayMode = some oddMode ∧ oddState.FrontBuffer = some 0
      ∧ oddState.heap[0]? = some (some [1, 2, 3, 4, 5, 6, 7, 8, 9, 10])
      ∧ 1 < oddMode.height ∧ oddMode.width + 5 ≤ demoRecord.data.length
      ∧ oddMode.width % 2 = 1)
    ∧ (∃ rec, DrawScanlineFromFramebuffer demoConsts oddState demoRecord 1 = .ok rec
        ∧ rec.data_used = (oddMode.width + 5) / 2
        ∧ 2 * rec.data_used = oddMode.width + 5)
    ∧ DrawScanlineFromFramebuffer demoConsts oddState demoRecord 1
        = .ok { demoRecord with data := [3, 5, 2048, 6, 7, 8, 9, 10, 1, 0, 9, 9],
                                data_used := 5, status := 1 } :=
  ⟨⟨rfl, rfl, rfl, by decide, by decide, by decide⟩,
    ((data_used_words demoConsts oddState oddMode 0 [1, 2, 3, 4, 5, 6, 7, 8, 9, 10] demoRecord 1
        rfl rfl rfl rfl (by decide) (by decide) (by decide) (by decide)).imp
      fun _ h => ⟨h.1, h.2.1, h.2.2.1⟩),
    rfl⟩

/-- For an even width the used length stops one 16-bit value short of what
was written: the `W + 5` values written are not a whole number of 32-bit
words, the difference of the two `uint32_t*` pointers of line 276 is
`(W + 4) / 2`, and the pad stored at line 273, at offset `W + 4` of the
payload, lies outside the used length. -/
theorem data_used_even_short (k : scanvideo_consts) (s : State) (m : scanvideo_mode_t)
    (p : Nat) (cells : List Nat) (buf : scanvideo_scanline_buffer_t) (r : Nat)
    (hm : s.DisplayMode = some m) (hf : s.FrontBuffer = some p)
    (hc : s.heap[p]? = some (some cells)) (hl : cells.length = m.width * m.height)
    (hfit : m.width * m.height ≤ 2 ^ 32) (hr : r < m.height)
    (hcap : m.width + 5 ≤ buf.data.length) (heven : m.width % 2 = 0) :
    ∃ rec, DrawScanlineFromFramebuffer k s buf r = .ok rec
      ∧ 2 * rec.data_used = m.width + 4
      ∧ rec.data.take (m.width + 5)
          = [k.COMPOSABLE_RAW_RUN, m.width, PICO_SCANVIDEO_PIXEL_FROM_RGB5 k 0 0 1 % 2 ^ 16]
            ++ (cells.drop (r * m.width)).take m.width
            ++ [k.COMPOSABLE_EOL_SKIP_ALIGN, 0]
      ∧ 2 * rec.data_used < m.width + 5 := by
  obtain ⟨rec, hrec, hused, htake, _⟩ :=
    DrawScanline_written k s m p cells buf r hm hf hc hl hfit hr hcap
  have h2 : 2 * rec.data_used = m.width + 4 := by
    rw [hused]
    omega
  exact ⟨rec, hrec, h2, htake, by omega⟩

/-- C15 (blanking scanlines).  On a state whose display mode is set, for a
scanline number at or beyond `height`, the render step produces the record it
was given with the used length 0 and the status OK: the payload is as before,
the heap is as before, and the record is the same whatever the heap holds. -/
theorem renderStep_blanking (k : scanvideo_consts) (s : State) (m : scanvideo_mode_t)
    (buf : scanvideo_scanline_buffer_t) (n : Nat)
    (hm : s.DisplayMode = some m) (hn : m.height ≤ n) :
    (∃ s1, swapStep s n = .ok s1
      ∧ renderStep k s buf n = .ok (s1, { buf with data_used := 0, status := k.SCANLINE_OK })
      ∧ s1.heap = s.heap)
    ∧ ({ buf with data_used := 0, status := k.SCANLINE_OK } :
        scanvideo_scanline_buffer_t).data = buf.data
    ∧ ∀ heap', ∃ s1, renderStep k { s with heap := heap' } buf n
        = .ok (s1, { buf with data_used := 0, status := k.SCANLINE_OK }) := by
  refine ⟨?_, rfl, ?_⟩
  · obtain ⟨s1, hs⟩ := swapStep_total s m n hm
    refine ⟨s1, hs, ?_, (swapStep_heap s s1 n hs).1⟩
    rw [renderStep_eq k s s1 m buf n hm hs, if_neg (by omega)]
  · intro heap'
    have hm' : ({ s with heap := heap' } : State).DisplayMode = some m := hm
    obtain ⟨s1, hs⟩ := swapStep_total _ m n hm'
    refine ⟨s1, ?_⟩
    rw [renderStep_eq k _ s1 m buf n hm' hs, if_neg (by omega)]

/-- Witness of C15 on the 4 by 3 display: scanline 3 gives the empty record. -/
theorem renderStep_blanking_witness :
    (tornState.DisplayMode = some demoMode ∧ demoMode.height ≤ 3)
    ∧ renderStep demoConsts tornState demoRecord 3
        = .ok (tornState, { demoRecord with data_used := 0, status := 1 })
    ∧ ∃ s1, swapStep tornState 3 = .ok s1
        ∧ renderStep demoConsts tornState demoRecord 3
          = .ok (s1, { demoRecord with data_used := 0,
                                       status := demoConsts.SCANLINE_OK })
        ∧ s1.heap = tornState.heap :=
  ⟨⟨rfl, by decide⟩, rfl,
    (renderStep_blanking demoConsts tornState demoMode demoRecord 3 rfl (by decide)).1⟩

/-! ## One pass of the render loop -/

/-- The render step at the last visible scanline with the readiness flag set:
the pointers are exchanged first, and the row is then synthesised from the
buffer that was the back buffer. -/
theorem renderStep_last_row (k : scanvideo_consts) (s : State) (m : scanvideo_mode_t)
    (buf : scanvideo_scanline_buffer_t)
    (hm : s.DisplayMode = some m) (hflag : s.BackbufReady = true)
    (hvis : lastScanline m < m.height) :
    renderStep k s buf (lastScanline m)
      = match DrawScanlineFromFramebuffer k
            { s with FrontBuffer := s.BackBuffer, BackBuffer := s.FrontBuffer,
                     BackbufReady := false } buf (lastScanline m) with
        | .error e => .error e
        | .ok rec => .ok ({ s with FrontBuffer := s.BackBuffer, BackBuffer := s.FrontBuffer,
                                   BackbufReady := false }, rec) := by
  have hs : swapStep s (lastScanline m)
      = .ok { s with FrontBuffer := s.BackBuffer, BackBuffer := s.FrontBuffer,
                     BackbufReady := false } := by
    rw [swapStep_eq s m _ hm, if_pos rfl, if_pos hflag]
  rw [renderStep_eq k s _ m buf _ hm hs, if_pos hvis]

/-- C12, the code at a failing input.  On the 4 by 3 display whose front
buffer (block 0) holds the old frame, all 0, and whose back buffer (block 1)
holds the new frame, all 7: the render steps for the scanlines 0 and 1 give
rows of the old frame; the producer then calls `DisplayEndDraw`; the render
step for scanline 2 of the same pass exchanges the pointers and gives a row of
the new frame. -/
theorem pass_last_row_from_new_frame :
    renderRows demoConsts demoRecord tornState [0, 1]
        = .ok (tornState,
            [{ demoRecord with data := [3, 4, 2048, 0, 0, 0, 0, 1, 0, 9, 9, 9],
                               data_used := 4, status := 1 },
             { demoRecord with data := [3, 4, 2048, 0, 0, 0, 0, 1, 0, 9, 9, 9],
                               data_used := 4, status := 1 }])
    ∧ renderStep demoConsts (DisplayEndDraw tornState) demoRecord 2
        = .ok ({ tornState with FrontBuffer := some 1, BackBuffer := some 0 },
            { demoRecord with data := [3, 4, 2048, 7, 7, 7, 7, 1, 0, 9, 9, 9],
                              data_used := 4, status := 1 })
    ∧ tornState.heap[0]? = some (some (List.replicate 12 0))
    ∧ tornState.heap[1]? = some (some (List.replicate 12 7)) :=
  ⟨rfl, rfl, rfl, rfl⟩

/-! ## DisplayInit -/

/-- `DisplayInit` on a zero-area mode, or when the two buffers do not fit the
reported free heap: the code returned is -1, no allocation is made, and the
only change of the state is the display mode. -/
theorem DisplayInit_reject (fp : scanvideo_timing_t → Nat) (s : State) (m : scanvideo_mode_t)
    (StackLimit bss_end uordblks : Nat) (allocFront allocBack : Option (Nat → Nat))
    (now1 now2 fuel : Nat)
    (h : (m.width * m.height * 2) % 2 ^ 32 = 0
      ∨ ((m.width * m.height * 2) % 2 ^ 32 * 2) % 2 ^ 32
          > GetFreeHeap StackLimit bss_end uordblks) :
    DisplayInit fp s m StackLimit bss_end uordblks allocFront allocBack now1 now2 fuel
      = .ok (-1, { s with DisplayMode := some m }) := by
  unfold DisplayInit
  simp only [GetFBSize]
  rw [if_pos h]

theorem allocBuffers_front (s : State) (n : Nat) (af ab : Option (Nat → Nat)) :
    (allocBuffers s n af ab).FrontBuffer = af.map (fun _ => s.heap.length) := by
  cases af <;> cases ab <;> rfl

theorem allocBuffers_back (s : State) (n : Nat) (af ab : Option (Nat → Nat)) :
    (allocBuffers s n af ab).BackBuffer
      = ab.map (fun _ => s.heap.length + (if af.isSome then 1 else 0)) := by
  cases af <;> cases ab <;> simp [allocBuffers, malloc]

/-- `DisplayInit` when the mode is accepted and one of the two `malloc` calls
returns null: the code returned is -1. -/
theorem DisplayInit_alloc_fail (fp : scanvideo_timing_t → Nat) (s : State)
    (m : scanvideo_mode_t) (StackLimit bss_end uordblks : Nat)
    (allocFront allocBack : Option (Nat → Nat)) (now1 now2 fuel : Nat)
    (h : ¬ ((m.width * m.height * 2) % 2 ^ 32 = 0
      ∨ ((m.width * m.height * 2) % 2 ^ 32 * 2) % 2 ^ 32
          > GetFreeHeap StackLimit bss_end uordblks))
    (hfail : allocFront = none ∨ allocBack = none) :
    DisplayInit fp s m StackLimit bss_end uordblks allocFront allocBack now1 now2 fuel
      = .ok (-1, releaseBuffers (allocBuffers { s with DisplayMode := some m }
          ((m.width * m.height * 2) % 2 ^ 32) allocFront allocBack)) := by
  unfold DisplayInit
  simp only [GetFBSize]
  rw [if_neg h, if_pos]
  rw [allocBuffers_front, allocBuffers_back]
  rcases hfail with hfa | hfa
  · exact Or.inl (by rw [hfa]; rfl)
  · exact Or.inr (by rw [hfa]; rfl)

/-- The code `DisplayInit` returns is 0 or -1. -/
theorem DisplayInit_code (fp : scanvideo_timing_t → Nat) (s : State) (m : scanvideo_mode_t)
    (StackLimit bss_end uordblks : Nat) (allocFront allocBack : Option (Nat → Nat))
    (now1 now2 fuel : Nat) (c : Int) (s' : State)
    (h : DisplayInit fp s m StackLimit bss_end uordblks allocFront allocBack now1 now2 fuel
      = .ok (c, s')) : c = 0 ∨ c = -1 := by
  unfold DisplayInit at h
  simp only [GetFBSize] at h
  split_ifs at h with h1 h2
  · simp only [Except.ok.injEq, Prod.mk.injEq] at h
    exact Or.inr h.1.symm
  · simp only [Except.ok.injEq, Prod.mk.injEq] at h
    exact Or.inr h.1.symm
  · split at h
    · cases h
    · simp only [Except.ok.injEq, Prod.mk.injEq] at h
      exact Or.inl h.1.symm

/-- C16, the code at failing inputs.  From the state at program start, with
the 4 by 3 mode: when the second `malloc` returns null, and when the free heap
(10 bytes) is too small for the two buffers (48 bytes), `DisplayInit` returns
-1, not the 1 its header comment gives for a failed allocation; when all goes
well it returns 0. -/
theorem DisplayInit_failure_code :
    (DisplayInit (fun _ => 0) State.init demoMode 1000 0 0 (some fun _ => 5) none
        100 200 40).map Prod.fst = .ok (-1)
    ∧ (DisplayInit (fun _ => 0) State.init demoMode 1000 0 990 (some fun _ => 5)
        (some fun _ => 6) 100 200 40).map Prod.fst = .ok (-1)
    ∧ (DisplayInit (fun _ => 0) State.init demoMode 1000 0 0 (some fun _ => 5)
        (some fun _ => 6) 100 200 40).map Prod.fst = .ok 0 :=
  ⟨rfl, rfl, rfl⟩

/-- C17, the code at failing inputs.  From the state at program start, with
the 4 by 3 mode and enough free heap: when the first `malloc` succeeds and the
second returns null, `DisplayInit` returns -1, frees block 0 and leaves the
front buffer pointer at the freed block; when the first returns null and the
second succeeds, the back buffer pointer is left at the freed block, and
`SetPixel`, `DrawRectangle` and `DrawLine` then store through it. -/
theorem DisplayInit_leaves_dangling :
    DisplayInit (fun _ => 0) State.init demoMode 1000 0 0 (some fun _ => 5) none 100 200 40
        = .ok (-1, { State.init with DisplayMode := some demoMode, FrontBuffer := some 0,
                                     heap := [none] })
    ∧ DisplayInit (fun _ => 0) State.init demoMode 1000 0 0 none (some fun _ => 6) 100 200 40
        = .ok (-1, { State.init with DisplayMode := some demoMode, BackBuffer := some 0,
                                     heap := [none] })
    ∧ SetPixel { State.init with DisplayMode := some demoMode, BackBuffer := some 0,
                                 heap := [none] } 0 0 7 = .error .dangling
    ∧ DrawRectangle { State.init with DisplayMode := some demoMode, BackBuffer := some 0,
                                      heap := [none] } 0 0 1 1 7 = .error .dangling
    ∧ DrawLine { State.init with DisplayMode := some demoMode, BackBuffer := some 0,
                                 heap := [none] } 0 0 0 1 0 7 = .error .dangling :=
  ⟨rfl, rfl, rfl, rfl, rfl⟩

/-! ## What the raster primitives leave unchanged -/

section Invariants

variable {σ : Type} (R : σ → σ → Prop)

/-- A relation that every store respects, and that is reflexive and
transitive, holds between the start and the end of the inner loop of
`DrawRectangle`. -/
theorem rectCols_rel (hrefl : ∀ a, R a a) (htrans : ∀ a b c, R a b → R b c → R a c)
    (poke : σ → Int → Except Fault σ) (hp : ∀ st i st', poke st i = .ok st' → R st st') :
    ∀ (n : Nat) (st : σ) (ptr : Int) (st' : σ), rectCols poke n st ptr = .ok st' → R st st' := by
  intro n
  induction n with
  | zero =>
    intro st ptr st' h
    simp only [rectCols, Except.ok.injEq] at h
    rw [← h]
    exact hrefl st
  | succ n ih =>
    intro st ptr st' h
    unfold rectCols at h
    cases hpk : poke st ptr with
    | error e => rw [hpk] at h; cases h
    | ok st1 =>
      rw [hpk] at h
      exact htrans _ _ _ (hp _ _ _ hpk) (ih _ _ _ h)

theorem rectRows_rel (hrefl : ∀ a, R a a) (htrans : ∀ a b c, R a b → R b c → R a c)
    (poke : σ → Int → Except Fault σ) (hp : ∀ st i st', poke st i = .ok st' → R st st')
    (width : Int) (cols : Nat) :
    ∀ (rows : Nat) (st : σ) (ptr : Int) (st' : σ),
      rectRows poke width cols rows st ptr = .ok st' → R st st' := by
  intro rows
  induction rows with
  | zero =>
    intro st ptr st' h
    simp only [rectRows, Except.ok.injEq] at h
    rw [← h]
    exact hrefl st
  | succ rows ih =>
    intro st ptr st' h
    unfold rectRows at h
    cases hc : rectCols poke cols st ptr with
    | error e => rw [hc] at h; cases h
    | ok st1 =>
      rw [hc] at h
      exact htrans _ _ _ (rectCols_rel R hrefl htrans poke hp _ _ _ _ hc) (ih _ _ _ h)

theorem bresenham_rel (_hrefl : ∀ a, R a a) (htrans : ∀ a b c, R a b → R b c → R a c)
    (plot : σ → Int → Int → Except Fault σ)
    (hp : ∀ st x y st', plot st x y = .ok st' → R st st') (X1 Y1 DX DY SX SY : Int) :
    ∀ (fuel : Nat) (st : σ) (X Y E : Int) (st' : σ),
      bresenham plot X1 Y1 DX DY SX SY fuel st X Y E = .ok st' → R st st' := by
  intro fuel
  induction fuel with
  | zero => intro st X Y E st' h; cases h
  | succ fuel ih =>
    intro st X Y E st' h
    rw [bresenham_succ] at h
    cases hpk : plot st X Y with
    | error e => rw [hpk] at h; cases h
    | ok st1 =>
      rw [hpk] at h
      simp only at h
      by_cases hend : X = X1 ∧ Y = Y1
      · rw [if_pos hend] at h
        simp only [Except.ok.injEq] at h
        rw [← h]
        exact hp _ _ _ _ hpk
      · rw [if_neg hend] at h
        exact htrans _ _ _ (hp _ _ _ _ hpk) (ih _ _ _ _ _ h)

theorem rectFill_rel (hrefl : ∀ a, R a a) (htrans : ∀ a b c, R a b → R b c → R a c)
    (poke : σ → Int → Except Fault σ) (hp : ∀ st i st', poke st i = .ok st' → R st st')
    (m : scanvideo_mode_t) (X Y Width Height : Int) (st st' : σ)
    (h : rectFill poke m X Y Width Height st = .ok st') : R st st' := by
  by_cases he : max X 0 ≥ min (X + Width) m.width ∨ max Y 0 ≥ min (Y + Height) m.height
  · rw [rectFill_empty poke m X Y Width Height st he] at h
    simp only [Except.ok.injEq] at h
    rw [← h]
    exact hrefl st
  · rw [rectFill_nonempty poke m X Y Width Height st he] at h
    exact rectRows_rel R hrefl htrans poke hp _ _ _ _ _ _ h

theorem lineClamped_rel (hrefl : ∀ a, R a a) (htrans : ∀ a b c, R a b → R b c → R a c)
    (poke : σ → Int → Except Fault σ) (hp : ∀ st i st', poke st i = .ok st' → R st st')
    (m : scanvideo_mode_t) (fuel : Nat) (X0 Y0 X1 Y1 : Int) (st st' : σ)
    (h : lineClamped poke m fuel X0 Y0 X1 Y1 st = .ok st') : R st st' := by
  unfold lineClamped at h
  simp only at h
  by_cases hy : Y1 - Y0 = 0
  · rw [if_pos hy, lineHoriz_eq_rectCols] at h
    exact rectCols_rel R hrefl htrans poke hp _ _ _ _ h
  · rw [if_neg hy] at h
    by_cases hx : X1 - X0 = 0
    · rw [if_pos hx, lineVert_eq_rectRows] at h
      exact rectRows_rel R hrefl htrans poke hp _ _ _ _ _ _ h
    · rw [if_neg hx] at h
      unfold lineGeneral at h
      exact bresenham_rel R hrefl htrans _ (fun st x y st' hpl => hp st _ st' hpl)
        _ _ _ _ _ _ _ _ _ _ _ _ h

end Invariants

theorem sameExceptBack_refl (s : State) : sameExceptBack s s :=
  ⟨rfl, rfl, rfl, rfl, rfl, rfl, fun _ _ => rfl⟩

theorem sameExceptBack_trans (a b c : State) (h1 : sameExceptBack a b)
    (h2 : sameExceptBack b c) : sameExceptBack a c := by
  obtain ⟨a1, a2, a3, a4, a5, a6, a7⟩ := h1
  obtain ⟨b1, b2, b3, b4, b5, b6, b7⟩ := h2
  refine ⟨b1.trans a1, b2.trans a2, b3.trans a3, b4.trans a4, b5.trans a5, b6.trans a6, ?_⟩
  intro q hq
  rw [b7 q (by rw [a5]; exact hq), a7 q hq]

/-- A store into the back buffer changes the block of the back buffer only. -/
theorem storeBack_frame (Color : Nat) (s : State) (idx : Int) (s' : State)
    (h : storeBack Color s idx = .ok s') : sameExceptBack s s' := by
  unfold storeBack at h
  cases hb : s.BackBuffer with
  | none => rw [hb] at h; cases h
  | some p =>
    rw [hb] at h
    simp only at h
    cases hc : s.heap[p]? with
    | none => rw [hc] at h; cases h
    | some blk =>
      cases blk with
      | none => rw [hc] at h; cases h
      | some cells =>
        rw [hc] at h
        simp only at h
        split_ifs at h
        simp only [Except.ok.injEq] at h
        rw [← h]
        refine ⟨rfl, rfl, rfl, rfl, hb.symm, ?_, ?_⟩
        · simp only [List.length_set]
        · intro q hq
          have hne : p ≠ q := fun hpq => hq (by rw [hb, hpq])
          simp only
          rw [List.getElem?_set_ne hne]

theorem SetPixel_frame (s s' : State) (X Y Color : Nat)
    (h : SetPixel s X Y Color = .ok s') : sameExceptBack s s' := by
  unfold SetPixel at h
  split at h
  · simp only [Except.ok.injEq] at h; rw [← h]; exact sameExceptBack_refl s
  · simp only [Except.ok.injEq] at h; rw [← h]; exact sameExceptBack_refl s
  · split_ifs at h
    · simp only [Except.ok.injEq] at h; rw [← h]; exact sameExceptBack_refl s
    · exact storeBack_frame _ _ _ _ h

theorem DrawRectangle_frame (s s' : State) (X Y Width Height : Int) (Color : Nat)
    (h : DrawRectangle s X Y Width Height Color = .ok s') : sameExceptBack s s' := by
  unfold DrawRectangle at h
  split at h
  · simp only [Except.ok.injEq] at h; rw [← h]; exact sameExceptBack_refl s
  · simp only [Except.ok.injEq] at h; rw [← h]; exact sameExceptBack_refl s
  · exact rectFill_rel sameExceptBack sameExceptBack_refl sameExceptBack_trans _
      (storeBack_frame Color) _ _ _ _ _ _ _ h

theorem DrawLine_frame (s s' : State) (fuel : Nat) (X0 Y0 X1 Y1 : Int) (Color : Nat)
    (h : DrawLine s fuel X0 Y0 X1 Y1 Color = .ok s') : sameExceptBack s s' := by
  unfold DrawLine at h
  split at h
  · simp only [Except.ok.injEq] at h; rw [← h]; exact sameExceptBack_refl s
  · simp only [Except.ok.injEq] at h; rw [← h]; exact sameExceptBack_refl s
  · unfold lineBody at h
    exact lineClamped_rel sameExceptBack sameExceptBack_refl sameExceptBack_trans _
      (storeBack_frame Color) _ _ _ _ _ _ _ _ h

/-! ## Index safety -/

/-- The recording run of the loop only appends to the log. -/
theorem bresenham_logPoint_prefix (X1 Y1 DX DY SX SY : Int) :
    ∀ (fuel : Nat) (log : List (Int × Int)) (X Y E : Int) (r : List (Int × Int)),
      bresenham logPoint X1 Y1 DX DY SX SY fuel log X Y E = .ok r →
      ∃ pts, r = log ++ pts := by
  intro fuel
  induction fuel with
  | zero => intro log X Y E r h; cases h
  | succ fuel ih =>
    intro log X Y E r h
    rw [bresenham_logPoint_succ] at h
    by_cases hend : X = X1 ∧ Y = Y1
    · rw [if_pos hend] at h
      simp only [Except.ok.injEq] at h
      exact ⟨[(X, Y)], h.symm⟩
    · rw [if_neg hend] at h
      obtain ⟨pts, hp⟩ := ih _ _ _ _ _ h
      exact ⟨(X, Y) :: pts, by rw [hp]; simp⟩

/-- The loop with any plot does the plots of the points that the recording
run lists, in order. -/
theorem bresenham_fold {σ : Type} (plot : σ → Int → Int → Except Fault σ)
    (X1 Y1 DX DY SX SY : Int) :
    ∀ (fuel : Nat) (log : List (Int × Int)) (X Y E : Int) (pts : List (Int × Int)),
      bresenham logPoint X1 Y1 DX DY SX SY fuel log X Y E = .ok (log ++ pts) →
      ∀ st, bresenham plot X1 Y1 DX DY SX SY fuel st X Y E = plotAll plot st pts := by
  intro fuel
  induction fuel with
  | zero => intro log X Y E pts h; cases h
  | succ fuel ih =>
    intro log X Y E pts h st
    rw [bresenham_logPoint_succ] at h
    rw [bresenham_succ]
    by_cases hend : X = X1 ∧ Y = Y1
    · rw [if_pos hend] at h
      simp only [Except.ok.injEq] at h
      have hpts : pts = [(X, Y)] := (List.append_cancel_left h).symm
      subst hpts
      simp only [plotAll]
      cases plot st X Y with
      | error e => rfl
      | ok st1 => simp only [if_pos hend]
    · rw [if_neg hend] at h
      obtain ⟨pts', hp⟩ := bresenham_logPoint_prefix _ _ _ _ _ _ _ _ _ _ _ _ h
      have hpts : pts = (X, Y) :: pts' := by
        have : log ++ pts = log ++ ((X, Y) :: pts') := by rw [hp]; simp
        exact List.append_cancel_left this
      subst hpts
      have h' : bresenham logPoint X1 Y1 DX DY SX SY fuel (log ++ [(X, Y)])
          (if 2 * E ≥ DY then X + SX else X) (if 2 * E ≤ DX then Y + SY else Y)
          (if 2 * E ≤ DX then (if 2 * E ≥ DY then E + DY else E) + DX
            else (if 2 * E ≥ DY then E + DY else E))
          = .ok ((log ++ [(X, Y)]) ++ pts') := by
        rw [h]; simp
      simp only [plotAll]
      cases plot st X Y with
      | error e => rfl
      | ok st1 =>
        simp only [if_neg hend]
        exact ih _ _ _ _ _ h' st1

/-- A staircase that ends at `(X1, Y1)` stays between its first point and
`(X1, Y1)` in both coordinates. -/
theorem stair_box (X1 Y1 : Int) :
    ∀ (l : List (Int × Int)) (p0 : Int × Int), l.head? = some p0 →
      l.getLast? = some (X1, Y1) → l.Chain' (stairStep X1 Y1) →
      ∀ q ∈ l, min p0.1 X1 ≤ q.1 ∧ q.1 ≤ max p0.1 X1 ∧ min p0.2 Y1 ≤ q.2 ∧ q.2 ≤ max p0.2 Y1 := by
  intro l
  induction l with
  | nil => intro p0 h; cases h
  | cons a rest ih =>
    intro p0 hh hl hc q hq
    simp only [List.head?_cons, Option.some.injEq] at hh
    subst hh
    cases rest with
    | nil =>
      simp only [List.getLast?_singleton, Option.some.injEq] at hl
      simp only [List.mem_singleton] at hq
      subst hq
      rw [hl]
      simp
    | cons b rest' =>
      rw [List.getLast?_cons_cons] at hl
      rw [List.chain'_cons] at hc
      rcases List.mem_cons.mp hq with rfl | hq'
      · omega
      · have := ih b rfl hl hc.2 q hq'
        have hs := hc.1
        unfold stairStep iabs at hs
        obtain ⟨_, _, _, h4, h5⟩ := hs
        split_ifs at h4 h5 <;> omega

/-- The points of the general case of `DrawLine`: with enough fuel the loop
plots, for any plot, the points of a list that lies in the bounding box of the
two end points. -/
theorem lineGeneral_points (X0 Y0 X1 Y1 : Int) (fuel : Nat)
    (hfuel : max (iabs (X1 - X0)) (iabs (Y1 - Y0)) + 1 ≤ (fuel : Int)) :
    ∃ pts, lineGeneral logPoint fuel X0 Y0 X1 Y1 [] = .ok pts
      ∧ (∀ q ∈ pts, min X0 X1 ≤ q.1 ∧ q.1 ≤ max X0 X1 ∧ min Y0 Y1 ≤ q.2 ∧ q.2 ≤ max Y0 Y1)
      ∧ ∀ {σ : Type} (plot : σ → Int → Int → Except Fault σ) (st : σ),
          lineGeneral plot fuel X0 Y0 X1 Y1 st = plotAll plot st pts := by
  obtain ⟨pts, hrun, _, hhead, hlast, hchain⟩ := (lineGeneral_trace X0 Y0 X1 Y1 fuel).1 hfuel
  refine ⟨pts, hrun, stair_box X1 Y1 pts (X0, Y0) hhead hlast hchain, ?_⟩
  intro σ plot st
  unfold lineGeneral at hrun ⊢
  exact bresenham_fold plot _ _ _ _ _ _ fuel [] _ _ _ pts (by rw [hrun]; rfl) st

/-- The index of a point of the frame is an index of the buffer. -/
theorem grid_index_bounds (W H : Nat) (x y : Int) (hx : 0 ≤ x ∧ x < W) (hy : 0 ≤ y ∧ y < H) :
    0 ≤ y * (W : Int) + x ∧ y * (W : Int) + x < ((W * H : Nat) : Int) := by
  have hW : (0 : Int) ≤ (W : Int) := Int.natCast_nonneg W
  have h1 : 0 ≤ y * (W : Int) := mul_nonneg hy.1 hW
  have h2 : (y + 1) * (W : Int) ≤ (H : Int) * (W : Int) :=
    mul_le_mul_of_nonneg_right (by omega) hW
  push_cast
  constructor
  · omega
  · nlinarith

/-- The plots of points of the frame succeed and change the back buffer
block only. -/
theorem plotAll_storeBack (Color : Nat) (s : State) (p : Nat) (W H : Nat)
    (hb : s.BackBuffer = some p) (hp : p < s.heap.length) :
    ∀ (pts : List (Int × Int)) (cells : List Nat), cells.length = W * H →
      (∀ q ∈ pts, (0 ≤ q.1 ∧ q.1 < W) ∧ (0 ≤ q.2 ∧ q.2 < H)) →
      ∃ cells', plotAll (fun st x y => storeBack Color st (y * (W : Int) + x))
            (s.setBlock p cells) pts = .ok (s.setBlock p cells')
        ∧ cells'.length = cells.length := by
  intro pts
  induction pts with
  | nil => intro cells _ _; exact ⟨cells, rfl, rfl⟩
  | cons q rest ih =>
    intro cells hl hall
    have hq := hall q (List.mem_cons_self _ _)
    obtain ⟨cells1, hst, hlen1, _⟩ :=
      storeBack_point Color s p cells W H hb hp hl q.1 q.2 hq.1 hq.2
    obtain ⟨cells', hrun, hlen⟩ := ih cells1 (by rw [hlen1, hl])
      (fun q' hq' => hall q' (List.mem_cons_of_mem _ hq'))
    refine ⟨cells', ?_, by rw [hlen, hlen1]⟩
    simp only [plotAll, hst]
    exact hrun

/-- The plots of a list of points with the recording store: the log of their
indices. -/
theorem plotAll_logStore (W : Int) :
    ∀ (pts : List (Int × Int)) (log : List Int),
      plotAll (fun st x y => logStore st (y * W + x)) log pts
        = .ok (log ++ pts.map (fun q => q.2 * W + q.1)) := by
  intro pts
  induction pts with
  | nil => intro log; simp [plotAll]
  | cons q rest ih =>
    intro log
    have h1 : plotAll (fun st x y => logStore st (y * W + x)) log (q :: rest)
        = plotAll (fun st x y => logStore st (y * W + x)) (log ++ [q.2 * W + q.1]) rest := rfl
    rw [h1, ih]
    simp

/-- `DrawRectangle` on an initialised display never faults. -/
theorem DrawRectangle_ok (s : State) (m : scanvideo_mode_t) (p : Nat) (cells : List Nat)
    (X Y Width Height : Int) (Color : Nat)
    (hm : s.DisplayMode = some m) (hb : s.BackBuffer = some p)
    (hc : s.heap[p]? = some (some cells)) (hl : cells.length = m.width * m.height) :
    ∃ cells', DrawRectangle s X Y Width Height Color = .ok (s.setBlock p cells')
      ∧ cells'.length = cells.length := by
  have hD : DrawRectangle s X Y Width Height Color
      = rectFill (storeBack Color) m X Y Width Height s := by
    unfold DrawRectangle
    rw [hb, hm]
  have hself := setBlock_self s p cells hc
  by_cases h : max X 0 ≥ min (X + Width) m.width ∨ max Y 0 ≥ min (Y + Height) m.height
  · exact ⟨cells, by rw [hD, rectFill_empty _ m X Y Width Height s h, hself], rfl⟩
  · have hp := heap_lt_of_get hc
    have hx : (max X 0).toNat + (min (X + Width) m.width - max X 0).toNat ≤ m.width := by
      omega
    have hy : (max Y 0).toNat + (min (Y + Height) m.height - max Y 0).toNat ≤ m.height := by
      omega
    obtain ⟨cells', hrun, hlen, _⟩ :=
      rectRows_storeBack Color s p hb hp m.width (max X 0).toNat
        (min (X + Width) m.width - max X 0).toNat hx
        (min (Y + Height) m.height - max Y 0).toNat cells (max Y 0).toNat
        (by rw [hl, Nat.mul_comm m.width]; exact Nat.mul_le_mul_right _ hy)
    refine ⟨cells', ?_, hlen⟩
    rw [hD, rectFill_nonempty _ m X Y Width Height s h]
    rw [hself] at hrun
    exact hrun

/-- Every index in a row-major fill that lies inside the frame is an index
of the buffer. -/
theorem rowMajor_bounds (W H x0 y0 cols rows : Nat) (hx : x0 + cols ≤ W)
    (hy : y0 + rows ≤ H) :
    ∀ i ∈ rowMajor ((y0 * W + x0 : Nat) : Int) (W : Int) cols rows,
      0 ≤ i ∧ i < ((W * H : Nat) : Int) := by
  intro i hi
  rw [rowMajor_mem] at hi
  obtain ⟨r, c, hr, hcc, rfl⟩ := hi
  have := grid_index_bounds W H ((x0 + c : Nat) : Int) ((y0 + r : Nat) : Int)
    ⟨Int.natCast_nonneg _, by exact_mod_cast (by omega : x0 + c < W)⟩
    ⟨Int.natCast_nonneg _, by exact_mod_cast (by omega : y0 + r < H)⟩
  have e : ((y0 * W + x0 : Nat) : Int) + (r : Int) * (W : Int) + (c : Int)
      = ((y0 + r : Nat) : Int) * (W : Int) + ((x0 + c : Nat) : Int) := by
    push_cast; ring
  rw [e]
  exact this

/-- The indices `DrawRectangle` stores to are indices of the buffer. -/
theorem rectFill_log_bounds (m : scanvideo_mode_t) (X Y Width Height : Int) :
    ∃ log, rectFill logStore m X Y Width Height [] = .ok log
      ∧ ∀ i ∈ log, 0 ≤ i ∧ i < ((m.width * m.height : Nat) : Int) := by
  by_cases h : max X 0 ≥ min (X + Width) m.width ∨ max Y 0 ≥ min (Y + Height) m.height
  · exact ⟨[], rectFill_empty _ m X Y Width Height [] h, fun i hi => by cases hi⟩
  · refine ⟨_, by rw [rectFill_nonempty _ m X Y Width Height [] h, rectRows_logStore], ?_⟩
    rw [List.nil_append]
    exact rowMajor_bounds m.width m.height _ _ _ _ (by omega) (by omega)

/-- `DrawLine` on an initialised display with enough fuel never faults. -/
theorem DrawLine_ok (s : State) (m : scanvideo_mode_t) (p : Nat) (cells : List Nat)
    (fuel : Nat) (X0 Y0 X1 Y1 : Int) (Color : Nat)
    (hm : s.DisplayMode = some m) (hb : s.BackBuffer = some p)
    (hc : s.heap[p]? = some (some cells)) (hl : cells.length = m.width * m.height)
    (hW : 0 < m.width) (hH : 0 < m.height)
    (hfuel : max (iabs (clampCoord X1 m.width - clampCoord X0 m.width))
        (iabs (clampCoord Y1 m.height - clampCoord Y0 m.height)) + 1 ≤ (fuel : Int)) :
    ∃ cells', DrawLine s fuel X0 Y0 X1 Y1 Color = .ok (s.setBlock p cells')
      ∧ cells'.length = cells.length := by
  have ha0 := clampCoord_bounds X0 m.width hW
  have ha1 := clampCoord_bounds X1 m.width hW
  have hb0 := clampCoord_bounds Y0 m.height hH
  have hb1 := clampCoord_bounds Y1 m.height hH
  rw [DrawLine_eq_lineClamped s m p fuel X0 Y0 X1 Y1 Color hm hb]
  by_cases hax : clampCoord Y0 m.height = clampCoord Y1 m.height
      ∨ clampCoord X0 m.width = clampCoord X1 m.width
  · obtain ⟨cells', hrun, hlen, _⟩ :=
      lineClamped_axis Color s m p cells fuel _ _ _ _ hb hc hl ha0 ha1 hb0 hb1 hax
    exact ⟨cells', hrun, hlen⟩
  · obtain ⟨pts, _, hbox, hfold⟩ := lineGeneral_points _ _ _ _ fuel hfuel
    obtain ⟨cells', hrun, hlen⟩ := plotAll_storeBack Color s p m.width m.height hb
      (heap_lt_of_get hc) pts cells hl (fun q hq => by have := hbox q hq; omega)
    rw [setBlock_self s p cells hc] at hrun
    refine ⟨cells', ?_, hlen⟩
    unfold lineClamped
    simp only
    rw [if_neg (by omega), if_neg (by omega), hfold]
    exact hrun

/-- The indices `DrawLine` stores to, with enough fuel, are indices of the
buffer. -/
theorem lineBody_log_bounds (m : scanvideo_mode_t) (fuel : Nat) (X0 Y0 X1 Y1 : Int)
    (hW : 0 < m.width) (hH : 0 < m.height)
    (hfuel : max (iabs (clampCoord X1 m.width - clampCoord X0 m.width))
        (iabs (clampCoord Y1 m.height - clampCoord Y0 m.height)) + 1 ≤ (fuel : Int)) :
    ∃ log, lineBody logStore m fuel X0 Y0 X1 Y1 [] = .ok log
      ∧ ∀ i ∈ log, 0 ≤ i ∧ i < ((m.width * m.height : Nat) : Int) := by
  have ha0 := clampCoord_bounds X0 m.width hW
  have ha1 := clampCoord_bounds X1 m.width hW
  have hb0 := clampCoord_bounds Y0 m.height hH
  have hb1 := clampCoord_bounds Y1 m.height hH
  unfold lineBody lineClamped
  simp only
  generalize clampCoord X0 m.width = a0 at *
  generalize clampCoord X1 m.width = a1 at *
  generalize clampCoord Y0 m.height = b0 at *
  generalize clampCoord Y1 m.height = b1 at *
  by_cases hy : b1 - b0 = 0
  · rw [if_pos hy, lineHoriz_eq_rectCols, rectCols_logStore]
    refine ⟨_, rfl, ?_⟩
    intro i hi
    simp only [List.nil_append, List.mem_map, List.mem_range] at hi
    obtain ⟨c, hc, rfl⟩ := hi
    have e1 : (if a1 - a0 < 0 then a1 else a0) = min a0 a1 := by split_ifs <;> omega
    have e2 : (if a1 - a0 < 0 then a0 else a1) = max a0 a1 := by split_ifs <;> omega
    simp only [e1, e2] at hc ⊢
    have := grid_index_bounds m.width m.height (min a0 a1 + c) b0 (by omega) hb0
    have e : b0 * (m.width : Int) + min a0 a1 + 0 + (c : Int)
        = b0 * (m.width : Int) + (min a0 a1 + c) := by ring
    rw [e]
    exact this
  · rw [if_neg hy]
    by_cases hx : a1 - a0 = 0
    · rw [if_pos hx, lineVert_eq_rectRows, rectRows_logStore]
      refine ⟨_, rfl, ?_⟩
      intro i hi
      rw [List.nil_append, rowMajor_mem] at hi
      obtain ⟨r, c, hr, hc, rfl⟩ := hi
      have e1 : (if b1 - b0 < 0 then b1 else b0) = min b0 b1 := by split_ifs <;> omega
      have e2 : (if b1 - b0 < 0 then b0 else b1) = max b0 b1 := by split_ifs <;> omega
      simp only [e1, e2] at hr ⊢
      have := grid_index_bounds m.width m.height a0 (min b0 b1 + r) ha0 (by omega)
      have hc0 : c = 0 := by omega
      subst hc0
      have e : min b0 b1 * (m.width : Int) + a0 + (r : Int) * (m.width : Int) + ((0 : Nat) : Int)
          = (min b0 b1 + r) * (m.width : Int) + a0 := by push_cast; ring
      rw [e]
      exact this
    · rw [if_neg hx]
      obtain ⟨pts, _, hbox, hfold⟩ := lineGeneral_points a0 b0 a1 b1 fuel hfuel
      rw [hfold, plotAll_logStore]
      refine ⟨_, rfl, ?_⟩
      intro i hi
      simp only [List.nil_append, List.mem_map] at hi
      obtain ⟨q, hq, rfl⟩ := hi
      have := hbox q hq
      exact grid_index_bounds m.width m.height q.1 q.2 (by omega) (by omega)

/-- `SetPixel` on an initialised display never faults. -/
theorem SetPixel_ok (s : State) (m : scanvideo_mode_t) (p : Nat) (cells : List Nat)
    (X Y Color : Nat)
    (hm : s.DisplayMode = some m) (hb : s.BackBuffer = some p)
    (hc : s.heap[p]? = some (some cells)) (hl : cells.length = m.width * m.height)
    (hfit : m.width * m.height ≤ 2 ^ 32) :
    (X < m.width → Y < m.height → (Y * m.width + X) % 2 ^ 32 < m.width * m.height)
    ∧ ∃ cells', SetPixel s X Y Color = .ok (s.setBlock p cells')
        ∧ cells'.length = cells.length := by
  have hidx : X < m.width → Y < m.height → Y * m.width + X < m.width * m.height := by
    intro hx hy
    have h1 : (Y + 1) * m.width ≤ m.height * m.width := Nat.mul_le_mul_right _ hy
    nlinarith
  refine ⟨fun hx hy => by rw [Nat.mod_eq_of_lt (by have := hidx hx hy; omega)]; exact hidx hx hy,
    ?_⟩
  have hself := setBlock_self s p cells hc
  unfold SetPixel
  rw [hb, hm]
  simp only [ge_iff_le]
  by_cases hout : m.width ≤ X ∨ m.height ≤ Y
  · rw [if_pos hout]
    exact ⟨cells, by rw [hself], rfl⟩
  · rw [if_neg hout]
    have hi := hidx (by omega) (by omega)
    rw [Nat.mod_eq_of_lt (by omega)]
    have h := storeBack_setBlock Color s p cells (Y * m.width + X) hb (heap_lt_of_get hc)
      (by omega)
    rw [hself] at h
    exact ⟨_, h, List.length_set _ _ _⟩

/-- C18 (producer-side frame condition).  For every state and all arguments,
a call of `SetPixel`, `DrawRectangle` or `DrawLine` that returns leaves the
time stamp, the readiness flag, the display mode and the two buffer pointers
as they are and changes no heap block other than the one the back buffer
pointer refers to; so the contents of the front buffer, which is another
block, are as before.  `DisplayEndDraw` sets the readiness flag and changes
nothing else. -/
theorem producer_frame (s : State) :
    (∀ X Y Color s', SetPixel s X Y Color = .ok s' → sameExceptBack s s')
    ∧ (∀ X Y Width Height Color s', DrawRectangle s X Y Width Height Color = .ok s' →
        sameExceptBack s s')
    ∧ (∀ fuel X0 Y0 X1 Y1 Color s', DrawLine s fuel X0 Y0 X1 Y1 Color = .ok s' →
        sameExceptBack s s')
    ∧ (∀ s', sameExceptBack s s' → ∀ q, s.FrontBuffer = some q → s.BackBuffer ≠ s.FrontBuffer →
        s'.FrontBuffer = some q ∧ s'.heap[q]? = s.heap[q]?)
    ∧ DisplayEndDraw s = { s with BackbufReady := true }
    ∧ (DisplayEndDraw s).BackbufReady = true := by
  refine ⟨fun X Y c s' h => SetPixel_frame s s' X Y c h,
    fun X Y w h c s' hr => DrawRectangle_frame s s' X Y w h c hr,
    fun fuel X0 Y0 X1 Y1 c s' h => DrawLine_frame s s' fuel X0 Y0 X1 Y1 c h, ?_, rfl, rfl⟩
  intro s' hfr q hq hne
  refine ⟨by rw [hfr.2.2.2.1, hq], hfr.2.2.2.2.2.2 q ?_⟩
  rw [← hq]
  exact hne

/-- C19 (index safety of the raster primitives).  On an initialised display
with `width, height > 0` whose back buffer block has `width * height` cells,
for all arguments: `SetPixel` stores at an index below `width * height` (for a
buffer addressable with 32 bits) and `DrawRectangle` stores only at indices in
`[0, width * height)`; with enough fuel for the loop, `DrawLine` stores only at
indices in `[0, width * height)`, on its fast paths and in the Bresenham loop,
and every point of the loop lies in the bounding box of the clamped end
points.  None of the three calls faults. -/
theorem raster_index_safety (s : State) (m : scanvideo_mode_t) (p : Nat) (cells : List Nat)
    (Color : Nat)
    (hm : s.DisplayMode = some m) (hb : s.BackBuffer = some p)
    (hc : s.heap[p]? = some (some cells)) (hl : cells.length = m.width * m.height)
    (hW : 0 < m.width) (hH : 0 < m.height) :
    (∀ X Y : Nat, m.width * m.height ≤ 2 ^ 32 →
        (X < m.width → Y < m.height → (Y * m.width + X) % 2 ^ 32 < m.width * m.height)
        ∧ ∃ cells', SetPixel s X Y Color = .ok (s.setBlock p cells')
            ∧ cells'.length = cells.length)
    ∧ (∀ X Y Width Height : Int,
        (∃ log, rectFill logStore m X Y Width Height [] = .ok log
          ∧ ∀ i ∈ log, 0 ≤ i ∧ i < ((m.width * m.height : Nat) : Int))
        ∧ ∃ cells', DrawRectangle s X Y Width Height Color = .ok (s.setBlock p cells')
            ∧ cells'.length = cells.length)
    ∧ (∀ (fuel : Nat) (X0 Y0 X1 Y1 : Int),
        max (iabs (clampCoord X1 m.width - clampCoord X0 m.width))
          (iabs (clampCoord Y1 m.height - clampCoord Y0 m.height)) + 1 ≤ (fuel : Int) →
        (∃ log, lineBody logStore m fuel X0 Y0 X1 Y1 [] = .ok log
          ∧ ∀ i ∈ log, 0 ≤ i ∧ i < ((m.width * m.height : Nat) : Int))
        ∧ (∃ cells', DrawLine s fuel X0 Y0 X1 Y1 Color = .ok (s.setBlock p cells')
            ∧ cells'.length = cells.length)
        ∧ ∃ pts, lineGeneral logPoint fuel (clampCoord X0 m.width) (clampCoord Y0 m.height)
              (clampCoord X1 m.width) (clampCoord Y1 m.height) [] = .ok pts
            ∧ ∀ q ∈ pts,
                min (clampCoord X0 m.width) (clampCoord X1 m.width) ≤ q.1
                ∧ q.1 ≤ max (clampCoord X0 m.width) (clampCoord X1 m.width)
                ∧ min (clampCoord Y0 m.height) (clampCoord Y1 m.height) ≤ q.2
                ∧ q.2 ≤ max (clampCoord Y0 m.height) (clampCoord Y1 m.height)) := by
  refine ⟨fun X Y hfit => SetPixel_ok s m p cells X Y Color hm hb hc hl hfit,
    fun X Y w h => ⟨rectFill_log_bounds m X Y w h,
      DrawRectangle_ok s m p cells X Y w h Color hm hb hc hl⟩, ?_⟩
  intro fuel X0 Y0 X1 Y1 hfuel
  refine ⟨lineBody_log_bounds m fuel X0 Y0 X1 Y1 hW hH hfuel,
    DrawLine_ok s m p cells fuel X0 Y0 X1 Y1 Color hm hb hc hl hW hH hfuel, ?_⟩
  obtain ⟨pts, hrun, hbox, _⟩ := lineGeneral_points _ _ _ _ fuel hfuel
  exact ⟨pts, hrun, hbox⟩

/-- Witness of C19 on the 4 by 3 display: the line `(-5, -5) -> (9, 9)` is
clamped to `(0, 0) -> (3, 2)` and stores at the indices 0, 5, 6 and 11. -/
theorem raster_index_safety_witness :
    (demoState.DisplayMode = some demoMode ∧ demoState.BackBuffer = some 1
      ∧ demoState.heap[1]? = some (some (List.replicate 12 0))
      ∧ 0 < demoMode.width ∧ 0 < demoMode.height)
    ∧ (∃ log, lineBody logStore demoMode 4 (-5) (-5) 9 9 [] = .ok log
        ∧ ∀ i ∈ log, 0 ≤ i ∧ i < ((demoMode.width * demoMode.height : Nat) : Int))
    ∧ lineBody logStore demoMode 4 (-5) (-5) 9 9 [] = .ok [0, 5, 6, 11]
    ∧ DrawLine demoState 4 (-5) (-5) 9 9 7
        = .ok (demoState.setBlock 1 [7, 0, 0, 0, 0, 7, 7, 0, 0, 0, 0, 7]) :=
  ⟨⟨rfl, rfl, rfl, by decide, by decide⟩,
    ((raster_index_safety demoState demoMode 1 (List.replicate 12 0) 7 rfl rfl rfl rfl
      (by decide) (by decide)).2.2 4 (-5) (-5) 9 9 (by decide)).1,
    rfl, rfl⟩

/-- Witness of C18 on the 4 by 3 display: `SetPixel(1, 2, 7)` and the line
`(0, 0) -> (3, 2)` return, and the states they return differ from the starting
state in block 1 only. -/
theorem producer_frame_witness :
    SetPixel demoState 1 2 7
        = .ok (demoState.setBlock 1 [0, 0, 0, 0, 0, 0, 0, 0, 0, 7, 0, 0])
    ∧ sameExceptBack demoState (demoState.setBlock 1 [0, 0, 0, 0, 0, 0, 0, 0, 0, 7, 0, 0])
    ∧ DrawLine demoState 4 0 0 3 2 7
        = .ok (demoState.setBlock 1 [7, 0, 0, 0, 0, 7, 7, 0, 0, 0, 0, 7])
    ∧ sameExceptBack demoState (demoState.setBlock 1 [7, 0, 0, 0, 0, 7, 7, 0, 0, 0, 0, 7]) :=
  ⟨rfl, (producer_frame demoState).1 1 2 7 _ rfl, rfl,
    (producer_frame demoState).2.2.1 4 0 0 3 2 7 _ rfl⟩

/-- The size computation of `DisplayInit` wraps: for a 65535 by 32769 mode
the two buffers need `2 * 4295032830` bytes, `GetFBSize` gives 65534, and with
a free heap of 200000 bytes the test of line 329 does not reject the mode. -/
theorem GetFBSize_wraps :
    GetFBSize { State.init with
        DisplayMode := some { default_timing := none, width := 65535, height := 32769 } }
      = .ok 65534
    ∧ 65535 * 32769 * 2 = 4295032830
    ∧ ¬ (65534 = 0 ∨ (65534 * 2) % 2 ^ 32 > GetFreeHeap 200000 0 0) :=
  ⟨rfl, by decide, by decide⟩

end PicoDraw
